import Mathlib

/-!
Verification of the Idol IDL compiler and binary message format (go-idol).

This file shallowly embeds the relevant Go source into Lean:

* the binary message container format: validation on decode
  (`NewMessageDecoder` / `decodeThunks` from the `idol` package and
  `NewMessage` / `validateEncodedThunks` from `encoding/idolbin`),
  zero-copy accessors (`DecodedMessage`, `MessageField.getIndirect`),
  array views and validators, and the per-field encoder builders;
* parts of the semantic compiler: value compilation, enum compilation,
  result assembly, and the dependency schema merger;
* the lexer and recursive-descent parser of the `syntax` package.

Buffers are `List Nat` with each element a byte value.  Go code that can
panic (out-of-range slicing, explicit `panic`) is modelled with an explicit
`.crash` outcome so that "returns a decode error" and "crashes" are
distinguishable.
-/

namespace Idol

/-! ## Byte-level utilities -/

/-- Read one byte; Go indexing into a slice (in-range at all call sites
that we rely on; out-of-range access is modelled as 0 and is only used
where the surrounding code has established bounds, or where a `.crash`
outcome is produced separately). -/
def byteAt (buf : List Nat) (i : Nat) : Nat := buf.getD i 0

/-- Go `buf[a:b]` as a pure slice (callers that can make Go panic check
bounds explicitly and produce `.crash`). -/
def slice (buf : List Nat) (a b : Nat) : List Nat := (buf.drop a).take (b - a)

/-- `binary.LittleEndian.Uint16(buf[i:i+2])`. -/
def le16 (buf : List Nat) (i : Nat) : Nat :=
  byteAt buf i + byteAt buf (i+1) * 256

/-- `binary.LittleEndian.Uint32(buf[i:i+4])`. -/
def le32 (buf : List Nat) (i : Nat) : Nat :=
  byteAt buf i + byteAt buf (i+1) * 256 + byteAt buf (i+2) * 65536 +
    byteAt buf (i+3) * 16777216

/-- `binary.LittleEndian.Uint64(buf[i:i+8])`. -/
def le64 (buf : List Nat) (i : Nat) : Nat :=
  le32 buf i + le32 buf (i+4) * 4294967296

/-- `binary.LittleEndian.PutUint16`. -/
def toLe16 (v : Nat) : List Nat := [v % 256, v / 256 % 256]

/-- `binary.LittleEndian.PutUint32`. -/
def toLe32 (v : Nat) : List Nat :=
  [v % 256, v / 256 % 256, v / 65536 % 256, v / 16777216 % 256]

/-- `binary.LittleEndian.PutUint64`. -/
def toLe64 (v : Nat) : List Nat :=
  toLe32 (v % 4294967296) ++ toLe32 (v / 4294967296)

/-- Overwrite `bytes.length` bytes of `buf` starting at offset `i`
(Go `copy(buf[i:], bytes)` / `PutUint32(buf[i:i+4], v)`; call sites are
in-range). -/
def setAt (buf : List Nat) (i : Nat) (bytes : List Nat) : List Nat :=
  buf.take i ++ bytes ++ buf.drop (i + bytes.length)

/-- All elements are byte values. -/
def IsBytes (buf : List Nat) : Prop := ∀ b ∈ buf, b < 256

instance : DecidablePred IsBytes := fun buf =>
  inferInstanceAs (Decidable (∀ b ∈ buf, b < 256))

/-- `idol.MaxMessageSize`. -/
def MaxMessageSize : Nat := 0x7FF00000

/-- Round up to a multiple of 8 as the Go sources do:
`(size + 0b111) & 0xFFFFFFF8`.  (The `uint64` and `uint32` variants in the
sources agree because the mask discards bit 32.) -/
def pad8 (v : Nat) : Nat := (v + 7) &&& 0xFFFFFFF8

/-! ## Decode results

Go validation code returns `error`; code that slices out of range or hits
an explicit `panic` crashes.  `.crash` records the latter. -/

inductive DecodeRes where
  | ok
  | err
  | crash
deriving DecidableEq, Repr

end Idol

namespace Idol

/-! ## `decodeThunks` (package `idol`, part_013)

The loop over thunk tags `1..thunkCount`.  The Go function mutates the
buffer in place (caching the data offset into the first four bytes of each
indirect thunk), so the embedding threads the buffer through and returns
it together with the result.

Go reads the padding slice `buf[valueOff+valueSize : valueOff+paddedSize]`
before checking that `valueOff` stays within the message; slicing past the
end of the buffer panics, which is modelled as `.crash`.  The handle case
ends in an explicit `panic("decoding handles: TODO")`. -/

/-- The cached thunk word:
`(uint32(valueOff) >> 3) | (uint32(flags) << 16)`. -/
def cacheWord (valueOff flags : Nat) : Nat :=
  ((valueOff % 4294967296) >>> 3) ||| ((flags <<< 16) % 4294967296)

def decodeThunksGo (msize : Nat) : Nat → Nat → List Nat → Nat → DecodeRes × List Nat
  | 0, _, buf, valueOff =>
      if valueOff = msize then (.ok, buf) else (.err, buf)
  | r+1, tag, buf, valueOff =>
      let flags := le16 buf (tag*8+2)
      if flags &&& 0x8000 = 0 then
        if le64 buf (tag*8) = 0 then
          decodeThunksGo msize r (tag+1) buf valueOff
        else (.err, buf)
      else if flags &&& 0x3FFF ≠ 0 then (.err, buf)
      else if flags &&& 0x4000 = 0x4000 then
        let valueSize := le32 buf (tag*8+4)
        let paddedSize := pad8 valueSize
        if paddedSize > valueSize ∧ valueOff + paddedSize > buf.length then
          (.crash, buf)
        else if paddedSize > valueSize ∧
            (slice buf (valueOff + valueSize) (valueOff + paddedSize)).any (· ≠ 0) then
          (.err, buf)
        else
          let thunkOffset := cacheWord valueOff flags
          let buf' := setAt buf (tag*8) (toLe32 thunkOffset)
          let valueOff' := valueOff + paddedSize
          if valueOff' > msize then (.err, buf')
          else decodeThunksGo msize r (tag+1) buf' valueOff'
      else
        let handles := le16 buf (tag*8)
        if handles > 0 then
          if handles ≠ 1 then (.err, buf)
          else if le32 buf (tag*8+4) ≠ 0xFFFFFFFF then (.err, buf)
          else (.crash, buf)
        else
          decodeThunksGo msize r (tag+1) buf valueOff

/-- `decodeThunks(buf, messageSize)` from part_013. -/
def decodeThunks (buf : List Nat) (msize : Nat) : DecodeRes × List Nat :=
  let thunkCount := le16 buf 6
  let dataOff := 8 + thunkCount * 8
  if dataOff > msize then (.err, buf)
  else decodeThunksGo msize thunkCount 1 buf dataOff

/-- `idol.NewMessageDecoder` (header checks, then `decodeThunks`).
Returns the (possibly mutated) buffer used by later field access. -/
def newMessageDecoder (buf : List Nat) : DecodeRes × List Nat :=
  if buf.length > 0xFFFFFFFF then (.err, buf)
  else if buf.length < 8 then (.err, buf)
  else if buf.length % 8 ≠ 0 then (.err, buf)
  else if buf.length > MaxMessageSize then (.err, buf)
  else
    let messageSize := le32 buf 0
    if messageSize ≠ buf.length then (.err, buf)
    else if le16 buf 4 ≠ 0 then (.err, buf)
    else decodeThunks buf messageSize

/-! ## `validateEncodedThunks` / `NewMessage` (package `idolbin`)

Same traversal, no mutation; the handle case validates without panicking.
The same out-of-range padding read exists and is modelled as `.crash`. -/

def validateEncodedThunksGo (msize : Nat) : Nat → Nat → List Nat → Nat → DecodeRes
  | 0, _, _, valueOff =>
      if valueOff = msize then .ok else .err
  | r+1, tag, buf, valueOff =>
      let flags := le16 buf (tag*8+2)
      if flags &&& 0x8000 = 0 then
        if le64 buf (tag*8) = 0 then
          validateEncodedThunksGo msize r (tag+1) buf valueOff
        else .err
      else if flags &&& 0x3FFF ≠ 0 then .err
      else if flags &&& 0x4000 = 0x4000 then
        let valueSize := le32 buf (tag*8+4)
        let paddedSize := pad8 valueSize
        if paddedSize > valueSize ∧ valueOff + paddedSize > buf.length then
          .crash
        else if paddedSize > valueSize ∧
            (slice buf (valueOff + valueSize) (valueOff + paddedSize)).any (· ≠ 0) then
          .err
        else
          let valueOff' := valueOff + paddedSize
          if valueOff' > msize then .err
          else validateEncodedThunksGo msize r (tag+1) buf valueOff'
      else
        let handles := le16 buf (tag*8)
        if handles > 0 then
          if handles ≠ 1 then .err
          else if le32 buf (tag*8+4) ≠ 0xFFFFFFFF then .err
          else validateEncodedThunksGo msize r (tag+1) buf valueOff
        else
          validateEncodedThunksGo msize r (tag+1) buf valueOff

/-- `validateEncodedThunks(buf, messageSize)` from idolbin_message.go. -/
def validateEncodedThunks (buf : List Nat) (msize : Nat) : DecodeRes :=
  let thunkCount := le16 buf 6
  let dataOff := 8 + thunkCount * 8
  if dataOff > msize then .err
  else validateEncodedThunksGo msize thunkCount 1 buf dataOff

/-- `idolbin.NewMessage` (header checks, then `validateEncodedThunks`). -/
def newMessage (buf : List Nat) : DecodeRes :=
  if buf.length > 0xFFFFFFFF then .err
  else if buf.length < 8 then .err
  else if buf.length % 8 ≠ 0 then .err
  else if buf.length > MaxMessageSize then .err
  else
    let messageSize := le32 buf 0
    if messageSize ≠ buf.length then .err
    else if le16 buf 4 ≠ 0 then .err
    else validateEncodedThunks buf messageSize

end Idol

namespace Idol

/-! ## `DecodedMessage` accessors (part_013)

These read the buffer after `decodeThunks` has cached data offsets. -/

/-- `DecodedMessage.Size`. -/
def decMsgSize (buf : List Nat) : Nat :=
  if buf.length = 0 then 8 else le32 buf 0

/-- `DecodedMessage.Has`. -/
def decMsgHas (buf : List Nat) (tag : Nat) : Bool :=
  if buf.length = 0 then false
  else
    let thunkCount := le16 buf 6
    if tag > thunkCount then false
    else byteAt buf (tag*8+3) ≠ 0

/-- `DecodedMessage.GetIndirect`: reads the cached offset from the first
four thunk bytes (`(valueOff & 0x0FFFFFFF) << 3`). -/
def decMsgGetIndirect (buf : List Nat) (tag : Nat) : List Nat :=
  if ¬ decMsgHas buf tag then []
  else
    let valueSize := le32 buf (tag*8+4)
    if valueSize = 0 then []
    else
      let valueOff := (le32 buf (tag*8) &&& 0x0FFFFFFF) <<< 3
      slice buf valueOff (valueOff + valueSize)

/-- `DecodedMessage.GetUint32`. -/
def decMsgGetUint32 (buf : List Nat) (tag : Nat) : Nat :=
  if ¬ decMsgHas buf tag then 0 else le32 buf (tag*8+4)

/-- `DecodedMessage.GetText` (drops the trailing NUL of the stored value). -/
def decMsgGetText (buf : List Nat) (tag : Nat) : List Nat :=
  let b := decMsgGetIndirect buf tag
  if b.length > 0 then b.take (b.length - 1) else []

/-! ## `MessageField.getIndirect` (idolbin)

Recomputes the data offset on each access by summing the 8-byte-padded
sizes of all preceding indirect thunks (`thunk[3]&0x40 != 0`). -/

/-- Sum of `pad8 size` over thunks `t0 ≤ t < t0+n` whose flag byte has bit
`0x40` set, as in the loop of `MessageField.getIndirect`. -/
def winSum (buf : List Nat) : Nat → Nat → Nat
  | _, 0 => 0
  | t0, n+1 =>
      (if byteAt buf (t0*8+3) &&& 0x40 ≠ 0 then pad8 (le32 buf (t0*8+4)) else 0) +
        winSum buf (t0+1) n

/-- `MessageField.getIndirect` for a field whose thunk flag byte is `0xC0`
(present indirect).  Returns the payload slice of the unmutated buffer. -/
def mfGetIndirect (buf : List Nat) (tag : Nat) : List Nat :=
  let thunkCount := le16 buf 6
  let valueOff := 8 + thunkCount*8 + winSum buf 1 (tag - 1)
  let valueSize := le32 buf (tag*8+4)
  slice buf valueOff (valueOff + valueSize)

end Idol

namespace Idol

/-! ## Dynamic-element arrays (idol_array.go, idolbin_message.go) -/

/-- `dynArray.len`. -/
def dynArrayLen (buf : List Nat) : Nat :=
  if buf.length = 0 then 0 else le32 buf 0

/-- The loop of `dynArray.iter` (collecting the raw element slices). -/
def dynArrayIterGo (buf : List Nat) : Nat → Nat → Nat → List (List Nat)
  | 0, _, _ => []
  | n+1, sizeOff, valueOff =>
      let size := le32 buf sizeOff
      let value := slice buf valueOff (valueOff + size)
      value :: dynArrayIterGo buf n (sizeOff+4) (valueOff+size)

/-- `dynArray.iter(align, ...)` collecting every yielded raw value. -/
def dynArrayIter (align : Bool) (buf : List Nat) : List (List Nat) :=
  let arrayLen := dynArrayLen buf
  if arrayLen = 0 then []
  else
    let valueOff := 4 + arrayLen*4
    let valueOff := if align ∧ arrayLen &&& 0x01 = 0 then valueOff + 4 else valueOff
    dynArrayIterGo buf arrayLen 4 valueOff

/-- `TextArray.Iter` collected: `dynArray.iter(false, ...)` with the
trailing byte of each non-empty raw value dropped. -/
def textArrayIter (buf : List Nat) : List (List Nat) :=
  (dynArrayIter false buf).map fun v =>
    if v.length > 0 then v.take (v.length - 1) else v

/-- The element loop of `validateTextArray` (idolbin). -/
def validateTextArrayGo (buf : List Nat) (bufLen : Nat) : Nat → Nat → Nat → DecodeRes
  | 0, _, valueOff => if valueOff = bufLen then .ok else .err
  | n+1, sizeOff, valueOff =>
      let valueSize := le32 buf sizeOff
      if valueSize = 0 then .err
      else
        let valueEnd := valueOff + valueSize
        if valueEnd > bufLen then .err
        else
          let value := slice buf valueOff valueEnd
          match value.findIdx? (· = 0) with
          | none => .err
          | some nul =>
              if nul ≠ value.length - 1 then .err
              else validateTextArrayGo buf bufLen n (sizeOff+4) valueEnd

/-- `validateTextArray` (idolbin): note the `valueOff += 4` pad-word skip
applied when `arrayLen` is even. -/
def validateTextArray (buf : List Nat) : DecodeRes :=
  if buf.length = 0 then .ok
  else
    let bufLen := buf.length
    if bufLen < 4 then .err
    else
      let arrayLen := le32 buf 0
      let valueOff := 4 + arrayLen*4
      let valueOff := if arrayLen &&& 0x01 = 0 then valueOff + 4 else valueOff
      if valueOff > bufLen then .err
      else validateTextArrayGo buf bufLen arrayLen 4 valueOff

/-- The element loop of `validateMessageArray` (idolbin); each element is
validated with `NewMessage`. -/
def validateMessageArrayGo (buf : List Nat) (bufLen : Nat) : Nat → Nat → Nat → DecodeRes
  | 0, _, valueOff => if valueOff = bufLen then .ok else .err
  | n+1, sizeOff, valueOff =>
      let valueSize := le32 buf sizeOff
      if valueSize = 0 then .err
      else if valueSize % 8 ≠ 0 then .err
      else
        let valueEnd := valueOff + valueSize
        if valueEnd > bufLen then .err
        else
          match newMessage (slice buf valueOff valueEnd) with
          | .ok => validateMessageArrayGo buf bufLen n (sizeOff+4) valueEnd
          | r => r

/-- `validateMessageArray` (idolbin). -/
def validateMessageArray (buf : List Nat) : DecodeRes :=
  if buf.length = 0 then .ok
  else
    let bufLen := buf.length
    if bufLen < 4 then .err
    else
      let arrayLen := le32 buf 0
      let valueOff := 4 + arrayLen*4
      let valueOff := if arrayLen &&& 0x01 = 0 then valueOff + 4 else valueOff
      if valueOff > bufLen then .err
      else validateMessageArrayGo buf bufLen arrayLen 4 valueOff

/-- The element loop of `MessageDecoder.MessageArray` (part_013).  A zero
element size is skipped (`sizeOff += 4; continue`), not rejected; the
element decoder `dec` runs on each nonzero element. -/
def msgDecoderMessageArrayGo (dec : List Nat → DecodeRes) (buf : List Nat) (bufLen : Nat) :
    Nat → Nat → Nat → DecodeRes
  | 0, _, valueOff => if valueOff = bufLen then .ok else .err
  | n+1, sizeOff, valueOff =>
      let valueSize := le32 buf sizeOff
      if valueSize = 0 then
        msgDecoderMessageArrayGo dec buf bufLen n (sizeOff+4) valueOff
      else if valueSize % 8 ≠ 0 then .err
      else
        let valueEnd := valueOff + valueSize
        if valueEnd > bufLen then .err
        else
          match dec (slice buf valueOff valueEnd) with
          | .ok => msgDecoderMessageArrayGo dec buf bufLen n (sizeOff+4) valueEnd
          | r => r

/-- `MessageDecoder.MessageArray` applied to the indirect payload `buf`
of a present field (the surrounding `d.getIndirect`/emptiness handling is
the caller's). -/
def msgDecoderMessageArray (dec : List Nat → DecodeRes) (buf : List Nat) : DecodeRes :=
  if buf.length = 0 then .ok
  else
    let bufLen := buf.length
    if bufLen < 4 then .err
    else
      let arrayLen := le32 buf 0
      let valueOff := 4 + arrayLen*4
      let valueOff := if arrayLen &&& 0x01 = 0 then valueOff + 4 else valueOff
      if valueOff > bufLen then .err
      else msgDecoderMessageArrayGo dec buf bufLen arrayLen 4 valueOff

end Idol

namespace Idol

/-! ## Per-field encoder builders (idol_array.go, part_013) -/

/-- `Uint32FieldBuilder.PutThunk` applied to a zeroed 8-byte thunk. -/
def uint32PutThunk (v : Nat) : List Nat :=
  if v ≠ 0 then [0, 0] ++ toLe16 0x8000 ++ toLe32 v
  else List.replicate 8 0

/-- `TextFieldBuilder.DataSize`. -/
def textDataSize (s : List Nat) : Nat :=
  if s.length = 0 then 0
  else
    let size := s.length + 1
    if size % 8 ≠ 0 then pad8 size else size

/-- `TextFieldBuilder.PutThunk` applied to a zeroed 8-byte thunk. -/
def textPutThunk (s : List Nat) : List Nat :=
  if s.length > 0 then [0, 0] ++ toLe16 0xC000 ++ toLe32 (s.length + 1)
  else List.replicate 8 0

/-- `TextFieldBuilder.EncodeData`: the text bytes, then `padLen` NUL bytes
where `padLen = paddedSize - len` and `paddedSize` rounds `len+1` up to a
multiple of 8. -/
def textEncodeData (s : List Nat) : List Nat :=
  if s.length = 0 then []
  else
    let size := s.length
    let paddedSize := if (size + 1) % 8 ≠ 0 then pad8 (size + 1) else size + 1
    s ++ List.replicate (paddedSize - size) 0

/-- `TextArrayFieldBuilder.EncodeData`: count, per-element sizes
(`len+1` each), the element bytes each followed by one NUL, then padding
to a multiple of 8.  No padding word between the sizes and the bytes. -/
def textArrayEncodeData (values : List (List Nat)) : List Nat :=
  if values.length = 0 then []
  else
    let sizes := toLe32 values.length ++ values.flatMap (fun v => toLe32 (v.length + 1))
    let elems := values.flatMap (fun v => v ++ [0])
    let wrote := sizes.length + elems.length
    let out := sizes ++ elems
    if wrote % 8 ≠ 0 then out ++ List.replicate (8 - wrote % 8) 0 else out

/-- `MessageSizeBuilder.Finish` for a message whose last touched tag is
`thunksLen` and whose accumulated indirect size is `dataSize` (the
saturating `uint32` clamps never trigger at the sizes we use). -/
def messageSizeFinish (thunksLen dataSize : Nat) : Nat × Nat :=
  if thunksLen = 0 then (0, 0)
  else (8 + thunksLen*8 + dataSize, thunksLen)

/-- Modelled from the spec: the generated per-message `EncodeTo` driver is
not under src/ (it is emitted by the code generator); §4.5.6 specifies it:
compute the total size (header + thunks + padded data) with
`MessageSizeBuilder`, write the header (`messageSize`, zero flags,
`thunkCount`), write one 8-byte thunk per tag via each field builder's
`PutThunk` (zeroed for absent fields), then stream the data region in tag
order via `EncodeData`.  Instantiated for a message with field 1 a `u32`
scalar, field 2 absent, and field 3 `text`. -/
def encodeMsgU32Text (v1 : Nat) (t3 : List Nat) : List Nat :=
  let (total, thunkCount) := messageSizeFinish 3 (textDataSize t3)
  toLe32 total ++ toLe16 0 ++ toLe16 thunkCount ++
    uint32PutThunk v1 ++ List.replicate 8 0 ++ textPutThunk t3 ++
    textEncodeData t3

end Idol

namespace Idol

/-! ## Concrete buffers used by the claims -/

/-- A 16-byte message: header `size=16, flags=0, thunkCount=1`, one
present-indirect thunk with `valueSize = 1` but an empty data region.
Both validators read the padding slice
`buf[valueOff+valueSize : valueOff+paddedSize] = buf[17:24]` before
checking bounds; the buffer is 16 bytes long, so Go panics. -/
def crashBuf : List Nat :=
  [16,0,0,0, 0,0, 1,0, 0,0, 0,0xC0, 1,0,0,0]

/-- A 16-byte message with a handle thunk (`handles=1`, flags `0x8000`,
inline value `0xFFFFFFFF`): valid per the spec, accepted by idolbin, but
`decodeThunks` hits `panic("decoding handles: TODO")`. -/
def handleBuf : List Nat :=
  [16,0,0,0, 0,0, 1,0, 1,0, 0,0x80, 0xFF,0xFF,0xFF,0xFF]

/-- The text bytes `"Hello"`. -/
def hello : List Nat := [72,101,108,108,111]

/-- Claim C1: message validation either accepts a buffer or returns a
decode error, never crashing.  FALSE: on `crashBuf` both
`idolbin.NewMessage` and `idol.NewMessageDecoder` panic (out-of-range
padding-slice read before the running-offset bounds check), and on the
spec-valid handle message `handleBuf` the decoder hits an explicit
`panic` while idolbin accepts. -/
theorem c1_validation_crashes_on_oob_padding :
    newMessage crashBuf = .crash ∧
    (newMessageDecoder crashBuf).1 = .crash ∧
    newMessage handleBuf = .ok ∧
    (newMessageDecoder handleBuf).1 = .crash := by decide

/-- Claim C2: encoding a message with field 1 = u32 `0x04030201`, field 2
absent, field 3 = text `"Hello"` produces exactly the specified 40 bytes
(header with `messageSize` 40, flags 0, `thunkCount` 3; present-scalar
thunk for tag 1; all-zero thunk for tag 2; present-indirect thunk for tag
3 with length 6; data `"Hello"` plus three NULs), and decoding that
buffer yields `Has(1)`, `GetUint32(1) = 0x04030201`, `¬Has(2)`,
`GetText(3) = "Hello"`, and `Size` equal to the buffer length. -/
theorem c2_roundtrip_binary_layout :
    encodeMsgU32Text 0x04030201 hello =
      [40,0,0,0, 0,0, 3,0,
       0,0,0,0x80, 1,2,3,4,
       0,0,0,0, 0,0,0,0,
       0,0,0,0xC0, 6,0,0,0,
       72,101,108,108,111,0,0,0] ∧
    (newMessageDecoder (encodeMsgU32Text 0x04030201 hello)).1 = .ok ∧
    newMessage (encodeMsgU32Text 0x04030201 hello) = .ok ∧
    decMsgHas (newMessageDecoder (encodeMsgU32Text 0x04030201 hello)).2 1 = true ∧
    decMsgGetUint32 (newMessageDecoder (encodeMsgU32Text 0x04030201 hello)).2 1 = 0x04030201 ∧
    decMsgHas (newMessageDecoder (encodeMsgU32Text 0x04030201 hello)).2 2 = false ∧
    decMsgGetText (newMessageDecoder (encodeMsgU32Text 0x04030201 hello)).2 3 = hello ∧
    decMsgSize (newMessageDecoder (encodeMsgU32Text 0x04030201 hello)).2 =
      (encodeMsgU32Text 0x04030201 hello).length := by decide

/-- The text array `["Hello", "", ", ", "world!"]` as byte lists. -/
def textArr4 : List (List Nat) := [hello, [], [44,32], [119,111,114,108,100,33]]

/-- Claim C3: the no-padding text-array layout is shared by the encoder,
the `TextArray` view, and decode-time text-array validation.  The encoder
and the view do share it — `TextArrayFieldBuilder.EncodeData` emits the
count, the four sizes 6,1,3,7, and the element bytes with no pad word,
and `TextArray.Iter` over that encoding yields the original elements —
but `validateTextArray` skips an extra 4-byte pad word whenever the
element count is even, so it REJECTS this very encoding (it validates the
same data only for odd counts). -/
theorem c3_text_array_layout_bug :
    textArrayEncodeData textArr4 =
      [4,0,0,0, 6,0,0,0, 1,0,0,0, 3,0,0,0, 7,0,0,0,
       72,101,108,108,111,0, 0, 44,32,0, 119,111,114,108,100,33,0,
       0,0,0] ∧
    textArrayIter (textArrayEncodeData textArr4) = textArr4 ∧
    validateTextArray (textArrayEncodeData textArr4) = .err ∧
    validateTextArray (textArrayEncodeData [hello, [44,32], [119,111,114,108,100,33]]) = .ok := by
  decide

/-- A message-array payload with `arrayLen = 1` and a single element of
size 0 (count word, one zero size word). -/
def zeroElemArr : List Nat := [1,0,0,0, 0,0,0,0]

/-- Claim C4 counterexample: the claim says an element size of 0 is
rejected with a decode error, but `MessageDecoder.MessageArray`
(part_013) skips zero-size elements and accepts this payload. -/
theorem c4_counterexample :
    msgDecoderMessageArray (fun b => (newMessageDecoder b).1) zeroElemArr = .ok ∧
    validateMessageArray zeroElemArr = .err := by decide

/-- Claim C4 (amended): in idolbin's `validateMessageArray` a zero element
size is rejected with a decode error, while `MessageDecoder.MessageArray`
skips a zero-size element without error; in both, a nonzero element size
that is not a multiple of 8 is a decode error, and each nonzero in-range
element is itself validated as a message (a failing element fails the
array). -/
theorem c4_amended_message_array_validation :
    (∀ buf bufLen n sizeOff valueOff, le32 buf sizeOff = 0 →
      validateMessageArrayGo buf bufLen (n+1) sizeOff valueOff = .err) ∧
    (∀ dec buf bufLen n sizeOff valueOff, le32 buf sizeOff = 0 →
      msgDecoderMessageArrayGo dec buf bufLen (n+1) sizeOff valueOff =
        msgDecoderMessageArrayGo dec buf bufLen n (sizeOff+4) valueOff) ∧
    (∀ buf bufLen n sizeOff valueOff, le32 buf sizeOff ≠ 0 →
      le32 buf sizeOff % 8 ≠ 0 →
      validateMessageArrayGo buf bufLen (n+1) sizeOff valueOff = .err ∧
      (∀ dec, msgDecoderMessageArrayGo dec buf bufLen (n+1) sizeOff valueOff = .err)) ∧
    (∀ buf bufLen n sizeOff valueOff, le32 buf sizeOff ≠ 0 →
      le32 buf sizeOff % 8 = 0 →
      valueOff + le32 buf sizeOff ≤ bufLen →
      newMessage (slice buf valueOff (valueOff + le32 buf sizeOff)) = .err →
      validateMessageArrayGo buf bufLen (n+1) sizeOff valueOff = .err ∧
      (∀ dec, dec (slice buf valueOff (valueOff + le32 buf sizeOff)) = .err →
        msgDecoderMessageArrayGo dec buf bufLen (n+1) sizeOff valueOff = .err)) := by
  refine ⟨?_, ?_, ?_, ?_⟩
  · intro buf bufLen n sizeOff valueOff h
    simp [validateMessageArrayGo, h]
  · intro dec buf bufLen n sizeOff valueOff h
    simp [msgDecoderMessageArrayGo, h]
  · intro buf bufLen n sizeOff valueOff h h8
    refine ⟨?_, fun dec => ?_⟩
    · simp [validateMessageArrayGo, h, h8]
    · simp [msgDecoderMessageArrayGo, h, h8]
  · intro buf bufLen n sizeOff valueOff h h8 hle herr
    refine ⟨?_, fun dec hdec => ?_⟩
    · simp [validateMessageArrayGo, h, h8, Nat.not_lt.mpr hle, herr]
    · simp [msgDecoderMessageArrayGo, h, h8, Nat.not_lt.mpr hle, hdec]

/-- Claim C4 amended, witnessed at concrete inputs: a zero size is an
error for `validateMessageArrayGo` and a skip for
`msgDecoderMessageArrayGo`; a size of 4 (not a multiple of 8) is an error
for both. -/
theorem c4_amended_witness :
    validateMessageArrayGo zeroElemArr 8 1 4 8 = .err ∧
    msgDecoderMessageArrayGo (fun _ => .ok) zeroElemArr 8 1 4 8 =
      msgDecoderMessageArrayGo (fun _ => .ok) zeroElemArr 8 0 8 8 ∧
    validateMessageArrayGo [1,0,0,0, 4,0,0,0] 8 1 4 8 = .err ∧
    msgDecoderMessageArrayGo (fun _ => .ok) [1,0,0,0, 4,0,0,0] 8 1 4 8 = .err ∧
    validateMessageArrayGo [1,0,0,0, 8,0,0,0] 16 1 4 8 = .err :=
  ⟨c4_amended_message_array_validation.1 zeroElemArr 8 0 4 8 (by decide),
   c4_amended_message_array_validation.2.1 (fun _ => .ok) zeroElemArr 8 0 4 8 (by decide),
   (c4_amended_message_array_validation.2.2.1 [1,0,0,0, 4,0,0,0] 8 0 4 8 (by decide) (by decide)).1,
   (c4_amended_message_array_validation.2.2.1 [1,0,0,0, 4,0,0,0] 8 0 4 8 (by decide) (by decide)).2
     (fun _ => .ok),
   (c4_amended_message_array_validation.2.2.2 [1,0,0,0, 8,0,0,0] 16 0 4 8 (by decide) (by decide)
     (by decide) (by decide)).1⟩

end Idol

namespace Idol

/-! ## Compiler data model (packages `syntax` and `compiler`) -/

/-- `syntax.Span` (byte offset and length). -/
structure Span where
  start : Nat
  len : Nat
deriving DecidableEq, Repr

/-- `compiler.Error`: numeric code and source span (the message text is
not needed by any claim). -/
structure CErr where
  code : Nat
  span : Span
deriving DecidableEq, Repr

/-- `schema_idl.Type` as used by the compiler; `tnone` is the zero value
of the Go enum. -/
inductive Ty where
  | tnone
  | bool | u8 | i8 | u16 | i16 | u32 | i32 | u64 | i64
  | f32 | f64 | asciz | text | handle
  | tstruct | tmessage | tunion
deriving DecidableEq, Repr

/-- `syntax.IntLit`: sign of the raw token and the `uint64` payload
(negative literals store the two's-complement bit pattern, as
`newIntLit` does with `value = uint64(-int64(magnitude))`). -/
structure IntLitM where
  neg : Bool
  value : Nat
  span : Span
deriving DecidableEq, Repr

/-- Interpret a `uint64` bit pattern as Go `int64(value)`. -/
def toInt64 (n : Nat) : Int :=
  if n < 9223372036854775808 then (n : Int) else (n : Int) - 18446744073709551616

/-- `IntLit.GetUint8`. -/
def IntLitM.getUint8 (l : IntLitM) : Option Nat :=
  if l.neg = false ∧ l.value ≤ 255 then some l.value else none

/-- `IntLit.GetUint16`. -/
def IntLitM.getUint16 (l : IntLitM) : Option Nat :=
  if l.neg = false ∧ l.value ≤ 65535 then some l.value else none

/-- `IntLit.GetUint32`. -/
def IntLitM.getUint32 (l : IntLitM) : Option Nat :=
  if l.neg = false ∧ l.value ≤ 4294967295 then some l.value else none

/-- `IntLit.GetUint64`. -/
def IntLitM.getUint64 (l : IntLitM) : Option Nat :=
  if l.neg = false then some l.value else none

/-- `IntLit.GetInt8`. -/
def IntLitM.getInt8 (l : IntLitM) : Option Int :=
  if l.neg ∧ -128 ≤ toInt64 l.value ∧ toInt64 l.value ≤ 127 then some (toInt64 l.value)
  else if l.value ≤ 127 then some (l.value : Int)
  else none

/-- `IntLit.GetInt16`. -/
def IntLitM.getInt16 (l : IntLitM) : Option Int :=
  if l.neg ∧ -32768 ≤ toInt64 l.value ∧ toInt64 l.value ≤ 32767 then some (toInt64 l.value)
  else if l.value ≤ 32767 then some (l.value : Int)
  else none

/-- `IntLit.GetInt32`. -/
def IntLitM.getInt32 (l : IntLitM) : Option Int :=
  if l.neg ∧ -2147483648 ≤ toInt64 l.value ∧ toInt64 l.value ≤ 2147483647 then
    some (toInt64 l.value)
  else if l.value ≤ 2147483647 then some (l.value : Int)
  else none

/-- `IntLit.GetInt64` (`ok` iff the raw token is negative or the payload
fits in `int64`). -/
def IntLitM.getInt64 (l : IntLitM) : Option Int :=
  if l.neg = true ∨ l.value ≤ 9223372036854775807 then some (toInt64 l.value) else none

/-- The `IntLit` produced by `newIntLit` for mathematical value `v`
(`-2^63 ≤ v < 2^64`; the raw token starts with `-` exactly when `v < 0`,
and a negative magnitude is stored two's-complement). -/
def mkIntLit (v : Int) (s : Span) : IntLitM :=
  { neg := decide (v < 0), value := (v % 18446744073709551616).toNat, span := s }

/-- Syntactic value nodes as `compileValue` distinguishes them
(`*syntax.IntLit`, `*syntax.TextLit`, `*syntax.EnumRef`,
`*syntax.ValueName`). -/
inductive ValNode where
  | intLit (l : IntLitM)
  | textLit (decoded : List Nat) (validAsciz validText : Bool) (span : Span)
  | enumRef (name : String) (span : Span)
  | valueName (scope name : String) (span : Span)
deriving DecidableEq, Repr

/-- `ValNode.Span()`. -/
def ValNode.span : ValNode → Span
  | .intLit l => l.span
  | .textLit _ _ _ s => s
  | .enumRef _ s => s
  | .valueName _ _ s => s

/-- `maxFloat32 = 2 << 23` and `maxFloat64 = 2 << 52` (compiler.go). -/
def maxFloat32 : Nat := 16777216
def maxFloat64 : Nat := 9007199254740992

/-- IEEE-754 bit pattern of a nonzero natural number that is exactly
representable in a float with `mantBits` mantissa bits (the conversion in
`float32(v)` / `float64(v)` is exact for the magnitudes `compileValue`
accepts, so the bit pattern is determined arithmetically). -/
def floatBitsOfNat (mantBits expBias m : Nat) : Nat :=
  if m = 0 then 0
  else
    let e := Nat.log2 m
    let mant := if e ≤ mantBits then m <<< (mantBits - e) else m >>> (e - mantBits)
    ((e + expBias) <<< mantBits) + (mant - (1 <<< mantBits))

/-- `math.Float32bits(float32(v))` for an exactly-representable integer. -/
def f32bitsI (v : Int) : Nat :=
  if v < 0 then 2147483648 + floatBitsOfNat 23 127 v.natAbs
  else floatBitsOfNat 23 127 v.natAbs

/-- `math.Float64bits(float64(v))` for an exactly-representable integer. -/
def f64bitsI (v : Int) : Nat :=
  if v < 0 then 9223372036854775808 + floatBitsOfNat 52 1023 v.natAbs
  else floatBitsOfNat 52 1023 v.natAbs

/-- `errValueOutOfRange(type_, intLit)`: code 3016, span of the literal
(via `errValueOutOfRange2`). -/
def errValueOutOfRange (l : IntLitM) : CErr := { code := 3016, span := l.span }

/-- `errValueTypeMismatch`: code 3015, span of the value node. -/
def errValueTypeMismatch (v : ValNode) : CErr := { code := 3015, span := v.span }

/-- Little-endian bytes of a `uint64` two's-complement pattern of an
integer (`binary.LittleEndian.PutUintN(tmp, uintN(value))`). -/
def intLeBytes (width : Nat) (v : Int) : List Nat :=
  (toLe64 ((v % 18446744073709551616).toNat)).take width

/-- `compiler.compileValue` for a non-enum destination type (the
`*syntax.ValueName` entry branch delegates to `compileNamedValue` and the
enum branch to `compileEnumRefValue`; neither is reached for the builtin
scalar destinations the claims exercise, and both are modelled as a
mismatch error here only to keep the function total).  Returns the
little-endian encoded bytes. -/
def compileValueLit (ty : Ty) (v : ValNode) : Except CErr (List Nat) :=
  match ty, v with
  | .bool, .enumRef name s =>
      if name = "true" then .ok [1]
      else if name = "false" then .ok [0]
      else .error { code := 3017, span := s }
  | .bool, v => .error (errValueTypeMismatch v)
  | .u8, .intLit l =>
      match l.getUint8 with
      | some value => .ok [value]
      | none => .error (errValueOutOfRange l)
  | .u8, v => .error (errValueTypeMismatch v)
  | .i8, .intLit l =>
      match l.getInt8 with
      | some value => .ok (intLeBytes 1 value)
      | none => .error (errValueOutOfRange l)
  | .i8, v => .error (errValueTypeMismatch v)
  | .u16, .intLit l =>
      match l.getUint16 with
      | some value => .ok (toLe16 value)
      | none => .error (errValueOutOfRange l)
  | .u16, v => .error (errValueTypeMismatch v)
  | .i16, .intLit l =>
      match l.getInt16 with
      | some value => .ok (intLeBytes 2 value)
      | none => .error (errValueOutOfRange l)
  | .i16, v => .error (errValueTypeMismatch v)
  | .u32, .intLit l =>
      match l.getUint32 with
      | some value => .ok (toLe32 value)
      | none => .error (errValueOutOfRange l)
  | .u32, v => .error (errValueTypeMismatch v)
  | .i32, .intLit l =>
      match l.getInt32 with
      | some value => .ok (intLeBytes 4 value)
      | none => .error (errValueOutOfRange l)
  | .i32, v => .error (errValueTypeMismatch v)
  | .u64, .intLit l =>
      match l.getUint64 with
      | some value => .ok (toLe64 value)
      | none => .error (errValueOutOfRange l)
  | .u64, v => .error (errValueTypeMismatch v)
  | .i64, .intLit l =>
      match l.getInt64 with
      | some value => .ok (intLeBytes 8 value)
      | none => .error (errValueOutOfRange l)
  | .i64, v => .error (errValueTypeMismatch v)
  | .f32, .intLit l =>
      match l.getInt64 with
      | some i =>
          if i > (maxFloat32 : Int) ∨ i < -(maxFloat32 : Int) then
            .error (errValueOutOfRange l)
          else .ok (toLe32 (f32bitsI i))
      | none =>
          let u := l.getUint64.getD 0
          if u > maxFloat32 then .error (errValueOutOfRange l)
          else .ok (toLe32 (f32bitsI u))
  | .f32, v => .error (errValueTypeMismatch v)
  | .f64, .intLit l =>
      match l.getInt64 with
      | some i =>
          if i > (maxFloat64 : Int) ∨ i < -(maxFloat64 : Int) then
            .error (errValueOutOfRange l)
          else .ok (toLe64 (f64bitsI i))
      | none =>
          let u := l.getUint64.getD 0
          if u > maxFloat64 then .error (errValueOutOfRange l)
          else .ok (toLe64 (f64bitsI u))
  | .f64, v => .error (errValueTypeMismatch v)
  | .asciz, .textLit decoded validAsciz _ s =>
      if validAsciz then .ok (decoded ++ [0])
      else .error { code := 3018, span := s }
  | .asciz, v => .error (errValueTypeMismatch v)
  | .text, .textLit decoded _ validText s =>
      if validText then .ok decoded
      else .error { code := 3019, span := s }
  | .text, v => .error (errValueTypeMismatch v)
  | _, v => .error (errValueTypeMismatch v)

end Idol

namespace Idol

/-! ## `CompileOptions.Compile` result assembly (compiler.go 131-151) -/

/-- `compiler.CompileResult`, polymorphic in the schema builder, warning
and error payloads (only the presence logic matters to the claims). -/
structure CompileResult' (ε ω σ : Type) where
  schema : Option σ
  errors : List ε
  warnings : List ω
deriving Repr

/-- The tail of `CompileOptions.Compile`: after `compileSchema` has
collected `errors` and `warnings` into the compiler state, the result
carries the schema builder exactly when no error was collected; the
error branch leaves the schema nil, the success branch leaves the error
list nil.  Warnings are carried in both branches. -/
def mkCompileResult {ε ω σ : Type} (errors : List ε) (warnings : List ω)
    (schema : σ) : CompileResult' ε ω σ :=
  if errors.length > 0 then
    { schema := none, errors := errors, warnings := warnings }
  else
    { schema := some schema, errors := [], warnings := warnings }

/-! ## `compiler.compileEnum` (compiler.go 1502-1655)

The per-item loop and the second alias-resolution pass.  Maps are
association lists with prepend-as-overwrite (Go map insert); `resolve`
stands in for `resolveEnumItemValue` (imported-constant resolution),
which no claim exercises. -/

/-- One compiled enum item: `EnumItem__Builder`'s name, value and
`isAlias` flag. -/
structure EnumItemOut where
  name : String
  value : Nat
  isAlias : Bool
deriving DecidableEq, Repr

/-- The `*syntax.IntLit` switch on the enum's base type: range check via
`GetUintN`/`GetIntN`, then reinterpretation of signed values as their
`uint64` two's-complement bit pattern (`uint64(uintN(v))`). -/
def enumIntValue (ty : Ty) (l : IntLitM) : Option Nat :=
  match ty with
  | .u8 => l.getUint8
  | .u16 => l.getUint16
  | .u32 => l.getUint32
  | .u64 => l.getUint64
  | .i8 => l.getInt8.map fun v => (v % 256).toNat
  | .i16 => l.getInt16.map fun v => (v % 65536).toNat
  | .i32 => l.getInt32.map fun v => (v % 4294967296).toNat
  | .i64 => l.getInt64.map fun v => (v % 18446744073709551616).toNat
  | _ => none

/-- Working state of `compileEnum`'s item loop. -/
structure EnumLoopState where
  valuesByName : List (String × Nat)
  aliases : List (String × String)
  names : List String
  namesByValue : List (Nat × String)
  pendingAliases : List (String × String × Nat)
  items : List EnumItemOut
  errors : List CErr

/-- One iteration of the item loop of `compileEnum`
(`errEnumItemNameConflict` is reported on the item name's span,
`errEnumItemValueConflict` on the value node's span). -/
def compileEnumItemStep (resolve : ValNode → Except CErr Nat) (ty : Ty)
    (st : EnumLoopState) (itemName : String) (nameSpan : Span)
    (valueNode : ValNode) : EnumLoopState :=
  let errs0 :=
    if st.names.contains itemName then
      st.errors ++ [{ code := 3022, span := nameSpan }]
    else st.errors
  let names := st.names ++ [itemName]
  match valueNode with
  | .intLit l =>
      match enumIntValue ty l with
      | some value =>
          let errs :=
            match st.namesByValue.lookup value with
            | some _ => errs0 ++ [{ code := 3023, span := valueNode.span }]
            | none => errs0
          { st with
            valuesByName := (itemName, value) :: st.valuesByName
            names := names
            namesByValue := (value, itemName) :: st.namesByValue
            items := st.items ++ [⟨itemName, value, false⟩]
            errors := errs }
      | none =>
          { st with
            names := names
            items := st.items ++ [⟨itemName, 0, false⟩]
            errors := errs0 ++ [errValueOutOfRange l] }
  | .enumRef targetName _ =>
      let (value, pending) :=
        match st.valuesByName.lookup targetName with
        | some targetValue => (targetValue, st.pendingAliases)
        | none => (0, st.pendingAliases ++ [(itemName, targetName, st.items.length)])
      { st with
        aliases := (itemName, targetName) :: st.aliases
        names := names
        pendingAliases := pending
        items := st.items ++ [⟨itemName, value, true⟩]
        errors := errs0 }
  | v =>
      match resolve v with
      | .ok value =>
          let errs :=
            match st.namesByValue.lookup value with
            | some _ => errs0 ++ [{ code := 3023, span := v.span }]
            | none => errs0
          { st with
            valuesByName := (itemName, value) :: st.valuesByName
            names := names
            namesByValue := (value, itemName) :: st.namesByValue
            items := st.items ++ [⟨itemName, value, false⟩]
            errors := errs }
      | .error e =>
          { st with
            names := names
            items := st.items ++ [⟨itemName, 0, false⟩]
            errors := errs0 ++ [e] }

/-- The second pass over `pendingAliases`: patch each alias item with its
target's value, or report `errEnumAliasTargetNotFound` (placeholder code
`0x30000`). -/
def resolvePendingAliases (valuesByName : List (String × Nat))
    (items : List EnumItemOut) (errors : List CErr) :
    List (String × String × Nat) → List EnumItemOut × List CErr
  | [] => (items, errors)
  | (_, targetName, idx) :: rest =>
      match valuesByName.lookup targetName with
      | some targetValue =>
          let items := items.modify (fun it => { it with value := targetValue }) idx
          resolvePendingAliases valuesByName items errors rest
      | none =>
          resolvePendingAliases valuesByName items
            (errors ++ [{ code := 0x30000, span := ⟨0, 0⟩ }]) rest

/-- `compileEnum`'s item processing: fold the per-item loop, then run the
alias second pass.  Returns the compiled items and collected errors. -/
def compileEnumItems (resolve : ValNode → Except CErr Nat) (ty : Ty)
    (items : List (String × Span × ValNode)) : List EnumItemOut × List CErr :=
  let st := items.foldl
    (fun st item => compileEnumItemStep resolve ty st item.1 item.2.1 item.2.2)
    ⟨[], [], [], [], [], [], []⟩
  resolvePendingAliases st.valuesByName st.items st.errors st.pendingAliases

end Idol

namespace Idol

/-! ## Schema-set merger (part_006) -/

/-- Declaration categories (`compiler.declType`). -/
inductive DeclCat where
  | unknown | const | enum | struct | message | union | protocol
deriving DecidableEq, Repr

/-- `compiler.mergedDecl`: category, enum base type (zero value for
non-enums), the raw payload (the backing bytes of the zero-copy view,
compared with Go `==`, i.e. bit-identically), and the conflict marker. -/
structure MergedDecl where
  type_ : DeclCat
  enumType : Ty
  value : String
  conflict : Bool
deriving DecidableEq, Repr

/-- The `mergedDecl` that `Merge`'s loops build for a declaration of
category `cat` with payload `v`; for enums the `enumType` field is
`enum.Type()`, a function of the payload bytes (`enumTy`). -/
def mkMergedDecl (enumTy : String → Ty) (cat : DeclCat) (v : String) : MergedDecl :=
  { type_ := cat
    enumType := if cat = .enum then enumTy v else .tnone
    value := v
    conflict := false }

/-- `&mergedDecl{conflict: true}` (all other fields zero). -/
def conflictDecl : MergedDecl :=
  { type_ := .unknown, enumType := .tnone, value := "", conflict := true }

/-- `canUnifyMergedDecls`. -/
def canUnifyMergedDecls (a b : MergedDecl) : Bool :=
  if a.conflict ∨ b.conflict then false
  else if a.type_ ≠ b.type_ then false
  else if a.enumType ≠ b.enumType then false
  else
    match a.type_ with
    | .unknown => false
    | _ => a.value == b.value

/-- The `set` closure inside `Merge` (also the body of the cross-schema
merge loop): a second contribution under an existing name is unified with
the previous entry when `canUnifyMergedDecls` allows it (the previous
entry is kept), and otherwise the entry is replaced by a conflict
marker.  The per-namespace table is modelled as a partial map. -/
def mergeSet (m : String → Option MergedDecl) (k : String) (v : MergedDecl) :
    String → Option MergedDecl :=
  fun k' =>
    if k' = k then
      match m k with
      | some prev => if canUnifyMergedDecls v prev then some prev else some conflictDecl
      | none => some v
    else m k'

/-- `typeInfo` as produced by `SchemaSet.resolveType`. -/
structure TypeInfoM where
  type_ : Ty
  typeName : String
deriving DecidableEq, Repr

/-- `SchemaSet.resolveType` for one namespace table. -/
def resolveTypeM (m : String → Option MergedDecl) (name : String)
    (importSpan useSpan : Span) : Except CErr TypeInfoM :=
  match m name with
  | none => .error { code := 3005, span := importSpan }
  | some decl =>
      if decl.conflict then .error { code := 3006, span := importSpan }
      else
        match decl.type_ with
        | .unknown => .ok { type_ := .tnone, typeName := name }
        | .enum => .ok { type_ := decl.enumType, typeName := name }
        | .struct => .ok { type_ := .tstruct, typeName := name }
        | .message => .ok { type_ := .tmessage, typeName := name }
        | .union => .ok { type_ := .tunion, typeName := name }
        | .const => .error { code := 3007, span := useSpan }
        | .protocol => .error { code := 3007, span := useSpan }

/-- `SchemaSet.resolveConst` for one namespace table
(`errImportedNameNotConst` carries the placeholder code `0x30000`). -/
def resolveConstM (m : String → Option MergedDecl) (name : String)
    (importSpan useSpan : Span) : Except CErr String :=
  match m name with
  | none => .error { code := 3005, span := importSpan }
  | some decl =>
      if decl.conflict then .error { code := 3006, span := importSpan }
      else
        match decl.type_ with
        | .const => .ok decl.value
        | _ => .error { code := 0x30000, span := useSpan }

/-- Export categories (`schema_idl.ExportType`); `enone` is the zero
value used for `declType_UNKNOWN`. -/
inductive ExportCat where
  | enone | const | enum | struct | message | union | protocol
deriving DecidableEq, Repr

/-- `SchemaSet.resolveExport` for one namespace table. -/
def resolveExportM (m : String → Option MergedDecl) (name : String)
    (nameSpan : Span) : Except CErr (ExportCat × String) :=
  match m name with
  | none => .error { code := 3005, span := nameSpan }
  | some decl =>
      if decl.conflict then .error { code := 3006, span := nameSpan }
      else
        match decl.type_ with
        | .unknown => .ok (.enone, "")
        | .const => .ok (.const, decl.value)
        | .enum => .ok (.enum, decl.value)
        | .struct => .ok (.struct, decl.value)
        | .message => .ok (.message, decl.value)
        | .union => .ok (.union, decl.value)
        | .protocol => .ok (.protocol, decl.value)

end Idol

namespace Idol

/-! ## Claims C6-C9 -/

theorem getInt64_mkIntLit (v : Int) (s : Span)
    (h1 : -9223372036854775808 ≤ v) (h2 : v < 18446744073709551616) :
    (mkIntLit v s).getInt64 = if v ≤ 9223372036854775807 then some v else none := by
  unfold mkIntLit IntLitM.getInt64
  dsimp only
  by_cases hneg : v < 0
  · rw [if_pos (Or.inl (by simp [hneg]))]
    rw [if_pos (by omega)]
    unfold toInt64
    split <;> congr 1 <;> omega
  · by_cases hle : v ≤ 9223372036854775807
    · rw [if_pos (Or.inr (by omega))]
      rw [if_pos hle]
      unfold toInt64
      split <;> congr 1 <;> omega
    · rw [if_neg]
      · rw [if_neg hle]
      · simp only [decide_eq_true_eq, not_or, not_le, not_lt]
        omega

theorem getUint64_mkIntLit (v : Int) (s : Span) (h1 : 0 ≤ v) :
    (mkIntLit v s).getUint64 = some (v % 18446744073709551616).toNat := by
  unfold mkIntLit IntLitM.getUint64
  rw [if_pos (by simp [not_lt.mpr h1])]

/-- Claim C6: integer literals are range-checked per destination type and
an out-of-range value is reported as code 3016 on the literal's span: the
literal `257` against `u8` yields exactly that error (first conjunct),
and a reported error means no schema is emitted (second conjunct, the
`Compile` result assembly).  For `f32`/`f64` destinations an integer
literal of value `v` is accepted iff `|v| ≤ 2^24` (resp. `2^53`), encoded
as the little-endian IEEE-754 bit pattern of the converted value, and
rejected with code 3016 on the literal's span otherwise (third and fourth
conjuncts, stated as full characterizations of `compileValueLit`). -/
theorem c6_value_range_checks :
    (∀ s : Span,
      compileValueLit .u8 (.intLit (mkIntLit 257 s)) = .error { code := 3016, span := s }) ∧
    (∀ (ε ω σ : Type) (e : List ε) (w : List ω) (sch : σ),
      e ≠ [] → (mkCompileResult e w sch).schema = none) ∧
    (∀ (v : Int) (s : Span), -9223372036854775808 ≤ v → v < 18446744073709551616 →
      compileValueLit .f32 (.intLit (mkIntLit v s)) =
        if v.natAbs ≤ maxFloat32 then .ok (toLe32 (f32bitsI v))
        else .error { code := 3016, span := s }) ∧
    (∀ (v : Int) (s : Span), -9223372036854775808 ≤ v → v < 18446744073709551616 →
      compileValueLit .f64 (.intLit (mkIntLit v s)) =
        if v.natAbs ≤ maxFloat64 then .ok (toLe64 (f64bitsI v))
        else .error { code := 3016, span := s }) := by
  refine ⟨fun s => rfl, ?_, ?_, ?_⟩
  · intro ε ω σ e w sch he
    cases e with
    | nil => exact absurd rfl he
    | cons a l => simp [mkCompileResult]
  · intro v s hlo hhi
    simp only [compileValueLit]
    rw [getInt64_mkIntLit v s hlo hhi]
    by_cases hle : v ≤ 9223372036854775807
    · rw [if_pos hle]
      dsimp only
      have herr : errValueOutOfRange (mkIntLit v s) = { code := 3016, span := s } := rfl
      rw [herr]
      by_cases hin : v.natAbs ≤ maxFloat32
      · rw [if_neg (by unfold maxFloat32 at *; omega), if_pos hin]
      · rw [if_pos (by unfold maxFloat32 at *; omega), if_neg hin]
    · rw [if_neg hle]
      dsimp only
      rw [getUint64_mkIntLit v s (by omega)]
      simp only [Option.getD_some]
      have hv : (v % 18446744073709551616).toNat = v.natAbs := by omega
      rw [hv]
      have herr : errValueOutOfRange (mkIntLit v s) = { code := 3016, span := s } := rfl
      rw [herr]
      have hgt : v.natAbs > maxFloat32 := by unfold maxFloat32 at *; omega
      rw [if_pos hgt, if_neg (by omega)]
  · intro v s hlo hhi
    simp only [compileValueLit]
    rw [getInt64_mkIntLit v s hlo hhi]
    by_cases hle : v ≤ 9223372036854775807
    · rw [if_pos hle]
      dsimp only
      have herr : errValueOutOfRange (mkIntLit v s) = { code := 3016, span := s } := rfl
      rw [herr]
      by_cases hin : v.natAbs ≤ maxFloat64
      · rw [if_neg (by unfold maxFloat64 at *; omega), if_pos hin]
      · rw [if_pos (by unfold maxFloat64 at *; omega), if_neg hin]
    · rw [if_neg hle]
      dsimp only
      rw [getUint64_mkIntLit v s (by omega)]
      simp only [Option.getD_some]
      have hv : (v % 18446744073709551616).toNat = v.natAbs := by omega
      rw [hv]
      have herr : errValueOutOfRange (mkIntLit v s) = { code := 3016, span := s } := rfl
      rw [herr]
      have hgt : v.natAbs > maxFloat64 := by unfold maxFloat64 at *; omega
      rw [if_pos hgt, if_neg (by omega)]

/-- Claim C6, witnessed at concrete inputs: `257 : u8` errors with code
3016 on the literal's span; an error list suppresses the schema; `2^24`
is accepted for `f32` (bit pattern `0x4B800000`) while `2^24 + 1` is
rejected; `2^53` is accepted for `f64` while `2^53 + 1` is rejected. -/
theorem c6_witness :
    compileValueLit .u8 (.intLit (mkIntLit 257 ⟨10, 3⟩)) =
      .error { code := 3016, span := ⟨10, 3⟩ } ∧
    (mkCompileResult [({ code := 3016, span := ⟨10, 3⟩ } : CErr)] ([] : List Nat) (0 : Nat)).schema
      = none ∧
    compileValueLit .f32 (.intLit (mkIntLit 16777216 ⟨0, 0⟩)) =
      .ok (toLe32 (f32bitsI 16777216)) ∧
    compileValueLit .f32 (.intLit (mkIntLit 16777217 ⟨0, 0⟩)) =
      .error { code := 3016, span := ⟨0, 0⟩ } ∧
    compileValueLit .f64 (.intLit (mkIntLit 9007199254740992 ⟨0, 0⟩)) =
      .ok (toLe64 (f64bitsI 9007199254740992)) ∧
    compileValueLit .f64 (.intLit (mkIntLit (-9007199254740993) ⟨0, 0⟩)) =
      .error { code := 3016, span := ⟨0, 0⟩ } := by
  refine ⟨c6_value_range_checks.1 ⟨10, 3⟩, ?_, ?_, ?_, ?_, ?_⟩
  · exact c6_value_range_checks.2.1 CErr Nat Nat _ _ _ (by simp)
  · rw [c6_value_range_checks.2.2.1 16777216 ⟨0, 0⟩ (by norm_num) (by norm_num)]
    norm_num [maxFloat32]
  · rw [c6_value_range_checks.2.2.1 16777217 ⟨0, 0⟩ (by norm_num) (by norm_num)]
    norm_num [maxFloat32]
  · rw [c6_value_range_checks.2.2.2 9007199254740992 ⟨0, 0⟩ (by norm_num) (by norm_num)]
    norm_num [maxFloat64]
  · rw [c6_value_range_checks.2.2.2 (-9007199254740993) ⟨0, 0⟩ (by norm_num) (by norm_num)]
    norm_num [maxFloat64]

/-- Claim C7: an enum item whose value is another item's identifier is an
alias entry, emitted with `isAlias = true` and the resolved numeric value
of its target, with no duplicate-value error; a target declared later in
the source is resolved in the second pass.  Both orders of
`enum E : u8, A = 1, B = .A` compile without error to
`A = 1 (isAlias=false)` and `B = 1 (isAlias=true)`. -/
theorem c7_enum_alias_entries :
    ∀ (resolve : ValNode → Except CErr Nat) (sA sB sv sv2 : Span),
      compileEnumItems resolve .u8
        [("A", sA, .intLit ⟨false, 1, sv⟩), ("B", sB, .enumRef "A" sv2)] =
        ([⟨"A", 1, false⟩, ⟨"B", 1, true⟩], []) ∧
      compileEnumItems resolve .u8
        [("B", sB, .enumRef "A" sv2), ("A", sA, .intLit ⟨false, 1, sv⟩)] =
        ([⟨"B", 1, true⟩, ⟨"A", 1, false⟩], []) := by
  intros; exact ⟨rfl, rfl⟩

/-- Claim C8: the result of `Compile` carries a schema iff no error was
collected; with errors the result has the errors and warnings but no
schema; warnings are returned in every case. -/
theorem c8_schema_iff_no_errors :
    ∀ (ε ω σ : Type) (errors : List ε) (warnings : List ω) (schema : σ),
      ((mkCompileResult errors warnings schema).schema ≠ none ↔ errors = []) ∧
      (mkCompileResult errors warnings schema).warnings = warnings ∧
      (errors ≠ [] → (mkCompileResult errors warnings schema).schema = none ∧
        (mkCompileResult errors warnings schema).errors = errors) := by
  intro ε ω σ errors warnings schema
  cases errors <;> simp [mkCompileResult]

/-- Claim C9: two declarations contributed under the same name are
unified iff they have the same category and bit-identical payload (first
conjunct, for the entries `Merge` constructs); a second contribution
keeps the previous entry when unifiable and replaces it with the conflict
marker otherwise (second and third conjuncts, the `set` step); and every
subsequent resolution of a conflicted name (type, constant, export)
returns error code 3006 (fourth conjunct). -/
theorem c9_merge_conflicts :
    (∀ (enumTy : String → Ty) (ca cb : DeclCat) (va vb : String),
      ca ≠ .unknown → cb ≠ .unknown →
      (canUnifyMergedDecls (mkMergedDecl enumTy cb vb) (mkMergedDecl enumTy ca va) = true ↔
        cb = ca ∧ vb = va)) ∧
    (∀ (m : String → Option MergedDecl) (k : String) (a b : MergedDecl),
      m k = some a →
      mergeSet m k b k = some (if canUnifyMergedDecls b a then a else conflictDecl)) ∧
    (∀ (m : String → Option MergedDecl) (k : String) (a : MergedDecl),
      m k = none → mergeSet m k a k = some a) ∧
    (∀ (m : String → Option MergedDecl) (k : String) (sp su : Span),
      m k = some conflictDecl →
      resolveTypeM m k sp su = .error { code := 3006, span := sp } ∧
      resolveConstM m k sp su = .error { code := 3006, span := sp } ∧
      resolveExportM m k sp = .error { code := 3006, span := sp }) := by
  refine ⟨?_, ?_, ?_, ?_⟩
  · intro enumTy ca cb va vb ha hb
    cases ca <;> cases cb <;> simp_all [canUnifyMergedDecls, mkMergedDecl]
  · intro m k a b h
    simp only [mergeSet, if_pos rfl, h]
    by_cases hu : canUnifyMergedDecls b a <;> simp [hu]
  · intro m k a h
    simp [mergeSet, h]
  · intro m k sp su h
    refine ⟨?_, ?_, ?_⟩ <;> simp [resolveTypeM, resolveConstM, resolveExportM, h, conflictDecl]

/-- Claim C9, witnessed at concrete inputs: identical const payloads
unify; a const and a message of the same name conflict; resolving the
conflicted entry as a type returns code 3006. -/
theorem c9_witness :
    (canUnifyMergedDecls (mkMergedDecl (fun _ => .u8) .const "abc")
        (mkMergedDecl (fun _ => .u8) .const "abc") = true ↔
      (DeclCat.const = .const ∧ "abc" = "abc")) ∧
    (mergeSet (fun _ => some (mkMergedDecl (fun _ => .u8) .const "abc")) "N"
        (mkMergedDecl (fun _ => .u8) .message "abc") "N" =
      some (if canUnifyMergedDecls (mkMergedDecl (fun _ => .u8) .message "abc")
          (mkMergedDecl (fun _ => .u8) .const "abc") then
        mkMergedDecl (fun _ => .u8) .const "abc" else conflictDecl)) ∧
    resolveTypeM (fun _ => some conflictDecl) "N" ⟨1, 2⟩ ⟨3, 4⟩ =
      .error { code := 3006, span := ⟨1, 2⟩ } :=
  ⟨c9_merge_conflicts.1 (fun _ => .u8) .const .const "abc" "abc" (by decide) (by decide),
   c9_merge_conflicts.2.1 (fun _ => some (mkMergedDecl (fun _ => .u8) .const "abc")) "N"
     (mkMergedDecl (fun _ => .u8) .const "abc") (mkMergedDecl (fun _ => .u8) .message "abc") rfl,
   (c9_merge_conflicts.2.2.2 (fun _ => some conflictDecl) "N" ⟨1, 2⟩ ⟨3, 4⟩ rfl).1⟩

end Idol

namespace Idol

/-! ## List and byte lemmas used by claim C10 -/

theorem byteAt_lt_256 (buf : List Nat) (hb : IsBytes buf) (i : Nat) : byteAt buf i < 256 := by
  unfold byteAt
  rw [List.getD_eq_getElem?_getD]
  cases h : buf[i]? with
  | none => simp
  | some v =>
      have hv : v ∈ buf := List.getElem?_mem h
      simpa using hb v hv

theorem le16_lt (buf : List Nat) (hb : IsBytes buf) (i : Nat) : le16 buf i < 65536 := by
  have h0 := byteAt_lt_256 buf hb i
  have h1 := byteAt_lt_256 buf hb (i+1)
  unfold le16
  omega

theorem le32_lt (buf : List Nat) (hb : IsBytes buf) (i : Nat) : le32 buf i < 4294967296 := by
  have h0 := byteAt_lt_256 buf hb i
  have h1 := byteAt_lt_256 buf hb (i+1)
  have h2 := byteAt_lt_256 buf hb (i+2)
  have h3 := byteAt_lt_256 buf hb (i+3)
  unfold le32
  omega

theorem setAt_length (buf bs : List Nat) (i : Nat) (h : i + bs.length ≤ buf.length) :
    (setAt buf i bs).length = buf.length := by
  unfold setAt
  simp only [List.length_append, List.length_take, List.length_drop]
  omega

theorem byteAt_setAt_lt (buf bs : List Nat) (i j : Nat) (hle : i + bs.length ≤ buf.length)
    (h : j < i) : byteAt (setAt buf i bs) j = byteAt buf j := by
  unfold setAt byteAt
  rw [List.getD_eq_getElem?_getD, List.getD_eq_getElem?_getD, List.append_assoc]
  have hti : (buf.take i).length = i := by
    rw [List.length_take]; omega
  rw [List.getElem?_append, if_pos (by rw [hti]; exact h)]
  rw [List.getElem?_take]
  simp [h]

theorem byteAt_setAt_ge (buf bs : List Nat) (i j : Nat) (hle : i + bs.length ≤ buf.length)
    (h : i + bs.length ≤ j) : byteAt (setAt buf i bs) j = byteAt buf j := by
  unfold setAt byteAt
  rw [List.getD_eq_getElem?_getD, List.getD_eq_getElem?_getD, List.append_assoc]
  have hti : (buf.take i).length = i := by
    rw [List.length_take]; omega
  rw [List.getElem?_append_right (by rw [hti]; omega), hti]
  rw [List.getElem?_append_right (by omega)]
  rw [List.getElem?_drop, show i + bs.length + (j - i - bs.length) = j by omega]

theorem byteAt_setAt_in (buf bs : List Nat) (i k : Nat) (hle : i + bs.length ≤ buf.length)
    (h : k < bs.length) : byteAt (setAt buf i bs) (i + k) = byteAt bs k := by
  unfold setAt byteAt
  rw [List.getD_eq_getElem?_getD, List.getD_eq_getElem?_getD, List.append_assoc]
  have hti : (buf.take i).length = i := by
    rw [List.length_take]; omega
  rw [List.getElem?_append_right (by rw [hti]; omega), hti]
  have hik : i + k - i = k := by omega
  rw [hik]
  rw [List.getElem?_append, if_pos h]

theorem isBytes_setAt (buf bs : List Nat) (i : Nat) (hb : IsBytes buf) (hbs : IsBytes bs) :
    IsBytes (setAt buf i bs) := by
  unfold setAt
  intro b hmem
  rcases List.mem_append.mp hmem with h | h
  · rcases List.mem_append.mp h with h2 | h2
    · exact hb b (List.mem_of_mem_take h2)
    · exact hbs b h2
  · exact hb b (List.mem_of_mem_drop h)

theorem isBytes_toLe32 (x : Nat) : IsBytes (toLe32 x) := by
  unfold toLe32 IsBytes
  intro b hmem
  simp only [List.mem_cons, List.not_mem_nil, or_false] at hmem
  rcases hmem with rfl | rfl | rfl | rfl <;> omega

theorem le32_setAt_toLe32 (buf : List Nat) (i x : Nat) (hle : i + 4 ≤ buf.length) :
    le32 (setAt buf i (toLe32 x)) i = x % 4294967296 := by
  have hlen : (toLe32 x).length = 4 := rfl
  have h0 := byteAt_setAt_in buf (toLe32 x) i 0 (by omega) (by omega)
  have h1 := byteAt_setAt_in buf (toLe32 x) i 1 (by omega) (by omega)
  have h2 := byteAt_setAt_in buf (toLe32 x) i 2 (by omega) (by omega)
  have h3 := byteAt_setAt_in buf (toLe32 x) i 3 (by omega) (by omega)
  have e0 : byteAt (toLe32 x) 0 = x % 256 := rfl
  have e1 : byteAt (toLe32 x) 1 = x / 256 % 256 := rfl
  have e2 : byteAt (toLe32 x) 2 = x / 65536 % 256 := rfl
  have e3 : byteAt (toLe32 x) 3 = x / 16777216 % 256 := rfl
  unfold le32
  rw [show i + 0 = i from rfl] at h0
  rw [h0, h1, h2, h3, e0, e1, e2, e3]
  omega

theorem byteAt_setAt_toLe32_3 (buf : List Nat) (i x : Nat) (hle : i + 4 ≤ buf.length) :
    byteAt (setAt buf i (toLe32 x)) (i + 3) = x / 16777216 % 256 := by
  have h3 := byteAt_setAt_in buf (toLe32 x) i 3 (by simp [toLe32]; omega) (by simp [toLe32])
  rw [h3]
  rfl

end Idol

namespace Idol

/-! ## Padding, window-sum and slice lemmas (claim C10) -/

theorem land_fff8_mod8 (x : Nat) : (x &&& 4294967288) % 8 = 0 := by
  have h1 : (x &&& 4294967288) % 8 = (x &&& 4294967288) &&& 7 := by
    rw [show (7:Nat) = 2^3 - 1 by norm_num, Nat.and_pow_two_sub_one_eq_mod]
  rw [h1, Nat.and_assoc, show (4294967288 &&& 7 : Nat) = 0 by decide, Nat.and_zero]

theorem pad8_mod8 (v : Nat) : pad8 v % 8 = 0 := by
  unfold pad8
  exact land_fff8_mod8 (v + 7)

theorem land_fff8_eq (x : Nat) : x &&& 4294967288 = 8 * (x / 8 % 536870912) := by
  have hz := land_fff8_mod8 x
  have hdiv : (x &&& 4294967288) / 8 = x / 8 &&& 536870911 := by
    have h2 : ∀ y : Nat, y / 8 = y / 2 / 2 / 2 := by intro y; omega
    rw [h2 (x &&& 4294967288), Nat.and_div_two, Nat.and_div_two, Nat.and_div_two]
    rw [← h2 x]
  have hm : x / 8 &&& 536870911 = x / 8 % 536870912 := by
    rw [show (536870911:Nat) = 2^29 - 1 by norm_num, Nat.and_pow_two_sub_one_eq_mod]
  omega

theorem pad8_eq (v : Nat) (h : v + 7 < 4294967296) : pad8 v = 8 * ((v + 7) / 8) := by
  unfold pad8
  rw [land_fff8_eq]
  have : (v + 7) / 8 < 536870912 := by omega
  rw [Nat.mod_eq_of_lt this]

theorem winSum_succ (buf : List Nat) (t0 n : Nat) :
    winSum buf t0 (n+1) =
      (if byteAt buf (t0*8+3) &&& 0x40 ≠ 0 then pad8 (le32 buf (t0*8+4)) else 0) +
        winSum buf (t0+1) n := rfl

theorem winSum_split (buf : List Nat) (t0 a b : Nat) :
    winSum buf t0 (a + b) = winSum buf t0 a + winSum buf (t0 + a) b := by
  induction a generalizing t0 with
  | zero => simp [winSum]
  | succ a ih =>
      rw [show a + 1 + b = (a + b) + 1 from by omega]
      rw [winSum_succ, winSum_succ, ih (t0+1)]
      rw [show t0 + 1 + a = t0 + (a+1) from by omega]
      omega

theorem winSum_congr (b1 b2 : List Nat) (t0 n : Nat)
    (h : ∀ i, t0*8 ≤ i → byteAt b1 i = byteAt b2 i) :
    winSum b1 t0 n = winSum b2 t0 n := by
  induction n generalizing t0 with
  | zero => rfl
  | succ n ih =>
      rw [winSum_succ, winSum_succ]
      have h3 : byteAt b1 (t0*8+3) = byteAt b2 (t0*8+3) := h _ (by omega)
      have h32 : le32 b1 (t0*8+4) = le32 b2 (t0*8+4) := by
        unfold le32
        rw [h _ (by omega), h _ (by omega), h _ (by omega), h _ (by omega)]
      rw [h3, h32, ih (t0+1) (fun i hi => h i (by omega))]

theorem winSum_mod8 (buf : List Nat) (t0 n : Nat) : winSum buf t0 n % 8 = 0 := by
  induction n generalizing t0 with
  | zero => rfl
  | succ n ih =>
      rw [winSum_succ]
      have hp := pad8_mod8 (le32 buf (t0*8+4))
      have := ih (t0+1)
      split <;> omega

theorem getElem?_congr_of_byteAt (b1 b2 : List Nat) (a : Nat)
    (hlen : b1.length = b2.length)
    (h : ∀ i, a ≤ i → byteAt b1 i = byteAt b2 i) :
    ∀ i, a ≤ i → b1[i]? = b2[i]? := by
  intro i hi
  rcases lt_or_ge i b1.length with hlt | hge
  · have hlt2 : i < b2.length := hlen ▸ hlt
    rw [List.getElem?_eq_getElem hlt, List.getElem?_eq_getElem hlt2]
    have hb := h i hi
    unfold byteAt at hb
    rw [List.getD_eq_getElem?_getD, List.getD_eq_getElem?_getD,
        List.getElem?_eq_getElem hlt, List.getElem?_eq_getElem hlt2] at hb
    simpa using hb
  · rw [List.getElem?_eq_none_iff.mpr hge, List.getElem?_eq_none_iff.mpr (by omega)]

theorem slice_congr (b1 b2 : List Nat) (a c : Nat)
    (hlen : b1.length = b2.length)
    (h : ∀ i, a ≤ i → byteAt b1 i = byteAt b2 i) : slice b1 a c = slice b2 a c := by
  unfold slice
  apply List.ext_getElem?
  intro k
  rw [List.getElem?_take, List.getElem?_take]
  by_cases hk : k < c - a
  · rw [if_pos hk, if_pos hk, List.getElem?_drop, List.getElem?_drop]
    exact getElem?_congr_of_byteAt b1 b2 a hlen h (a+k) (by omega)
  · rw [if_neg hk, if_neg hk]

end Idol

namespace Idol

/-! ## Cached-offset word lemmas (claim C10) -/

theorem cacheWord_lt (off flags : Nat) : cacheWord off flags < 4294967296 := by
  unfold cacheWord
  have h1 : (off % 4294967296) >>> 3 < 4294967296 := by
    rw [Nat.shiftRight_eq_div_pow]; omega
  have h2 : (flags <<< 16) % 4294967296 < 4294967296 := by omega
  rw [show (4294967296:Nat) = 2^32 by norm_num] at h1 h2 ⊢
  exact Nat.or_lt_two_pow h1 h2

theorem cacheWord_c000_mask (off : Nat) (h8 : off % 8 = 0) (hle : off ≤ 2146435072) :
    (cacheWord off 0xC000 &&& 0x0FFFFFFF) <<< 3 = off := by
  unfold cacheWord
  rw [Nat.mod_eq_of_lt (by omega : off < 4294967296)]
  rw [show off >>> 3 = off / 8 by rw [Nat.shiftRight_eq_div_pow]]
  rw [show ((0xC000 <<< 16) % 4294967296 : Nat) = 3221225472 by decide]
  rw [show (0x0FFFFFFF : Nat) = 2^28 - 1 by norm_num]
  rw [Nat.and_distrib_right, Nat.and_pow_two_sub_one_eq_mod, Nat.and_pow_two_sub_one_eq_mod]
  rw [show (3221225472 : Nat) % 2^28 = 0 from rfl]
  rw [Nat.mod_eq_of_lt (by omega : off / 8 < 2^28)]
  rw [Nat.or_zero, Nat.shiftLeft_eq]
  omega

theorem cacheWord_c000_byte3 (off : Nat) :
    cacheWord off 0xC000 / 16777216 % 256 ≠ 0 := by
  intro h0
  have hlt := cacheWord_lt off 0xC000
  have h31 : Nat.testBit (cacheWord off 0xC000) 31 = true := by
    unfold cacheWord
    rw [Nat.testBit_lor]
    have hc : Nat.testBit ((0xC000 <<< 16) % 4294967296) 31 = true := by decide
    rw [hc, Bool.or_true]
  have hsmall : cacheWord off 0xC000 < 2^31 := by omega
  rw [Nat.testBit_lt_two_pow hsmall] at h31
  cases h31

theorem flag_bit14 (b2 b3 : Nat) (h2 : b2 < 256) :
    (b2 + b3 * 256) &&& 16384 = (b3 &&& 64) * 256 := by
  rw [show (16384:Nat) = 2^14 by norm_num, show (64:Nat) = 2^6 by norm_num,
      Nat.and_two_pow, Nat.and_two_pow]
  have ht : Nat.testBit (b2 + b3*256) 14 = Nat.testBit b3 6 := by
    rw [Nat.testBit_to_div_mod, Nat.testBit_to_div_mod]
    have hd : (b2 + b3*256) / 2^14 = b3 / 2^6 := by
      have : (2:Nat)^14 = 16384 := by norm_num
      rw [this, show (2:Nat)^6 = 64 by norm_num]
      omega
    rw [hd]
  rw [ht]
  ring

end Idol

namespace Idol

set_option maxHeartbeats 1000000

theorem decodeGo_spec (r : Nat) : ∀ (buf : List Nat) (tag off msize : Nat),
    IsBytes buf →
    buf.length = msize →
    msize ≤ MaxMessageSize →
    off % 8 = 0 →
    off ≤ msize →
    1 ≤ tag →
    (tag + r) * 8 ≤ msize →
    (decodeThunksGo msize r tag buf off).1 = .ok →
    (decodeThunksGo msize r tag buf off).2.length = buf.length ∧
    IsBytes (decodeThunksGo msize r tag buf off).2 ∧
    (∀ i, i < tag*8 → byteAt (decodeThunksGo msize r tag buf off).2 i = byteAt buf i) ∧
    (∀ i, (tag+r)*8 ≤ i → byteAt (decodeThunksGo msize r tag buf off).2 i = byteAt buf i) ∧
    off + winSum buf tag r = msize ∧
    (∀ t, tag ≤ t → t < tag + r →
      (byteAt buf (t*8+3) &&& 64 ≠ 0 →
        le32 (decodeThunksGo msize r tag buf off).2 (t*8) =
          cacheWord (off + winSum buf tag (t - tag)) (le16 buf (t*8+2)) ∧
        byteAt (decodeThunksGo msize r tag buf off).2 (t*8+3) =
          cacheWord (off + winSum buf tag (t - tag)) (le16 buf (t*8+2)) / 16777216 % 256 ∧
        (∀ j, 4 ≤ j → j < 8 →
          byteAt (decodeThunksGo msize r tag buf off).2 (t*8+j) = byteAt buf (t*8+j))) ∧
      (byteAt buf (t*8+3) &&& 64 = 0 →
        ∀ j, j < 8 →
          byteAt (decodeThunksGo msize r tag buf off).2 (t*8+j) = byteAt buf (t*8+j))) := by
  induction r with
  | zero =>
      intro buf tag off msize hb hlen hms h8 hle htag hbound hok
      have h : off = msize := by
        by_cases h : off = msize
        · exact h
        · simp only [decodeThunksGo, if_neg h] at hok
          exact absurd hok (by simp)
      have hres : decodeThunksGo msize 0 tag buf off = (.ok, buf) := by
        simp only [decodeThunksGo, if_pos h]
      rw [hres]
      have hw0 : winSum buf tag 0 = 0 := rfl
      exact ⟨rfl, hb, fun i _ => rfl, fun i _ => rfl, by omega,
        fun t ht1 ht2 => by omega⟩
  | succ r ih =>
      intro buf tag off msize hb hlen hms h8 hle htag hbound hok
      have hb2lt : byteAt buf (tag*8+2) < 256 := byteAt_lt_256 buf hb _
      have hb3lt : byteAt buf (tag*8+3) < 256 := byteAt_lt_256 buf hb _
      have hflag : le16 buf (tag*8+2) =
          byteAt buf (tag*8+2) + byteAt buf (tag*8+3) * 256 := by
        unfold le16
        congr 2
      simp only [decodeThunksGo] at hok ⊢
      by_cases hA : le16 buf (tag*8+2) &&& 32768 = 0
      · rw [if_pos hA] at hok ⊢
        by_cases hzero : le64 buf (tag*8) = 0
        · rw [if_pos hzero] at hok ⊢
          obtain ⟨iA1, iA2, iA3, iA4, iA5, iA6⟩ :=
            ih buf (tag+1) off msize hb hlen hms h8 hle (by omega) (by omega) hok
          have hb3 : byteAt buf (tag*8+3) = 0 := by
            unfold le64 le32 at hzero
            have e1 : tag*8+1 = tag*8+0+1 := by omega
            omega
          refine ⟨iA1, iA2, ?_, ?_, ?_, ?_⟩
          · intro i hi; exact iA3 i (by omega)
          · intro i hi; exact iA4 i (by omega)
          · rw [winSum_succ, if_neg (by simp [hb3])]
            omega
          · intro t ht1 ht2
            by_cases hteq : t = tag
            · subst hteq
              refine ⟨?_, ?_⟩
              · intro hcond
                rw [hb3] at hcond
                simp at hcond
              · intro _ j hj
                exact iA3 _ (by omega)
            · have hres := iA6 t (by omega) (by omega)
              have hws : winSum buf tag (t - tag) = winSum buf (tag+1) (t - (tag+1)) := by
                have he : t - tag = (t - (tag+1)) + 1 := by omega
                rw [he, winSum_succ, if_neg (by simp [hb3])]
                omega
              rw [hws]
              exact hres
        · rw [if_neg hzero] at hok
          simp at hok
      · rw [if_neg hA] at hok ⊢
        by_cases hB : le16 buf (tag*8+2) &&& 16383 ≠ 0
        · rw [if_pos hB] at hok
          simp at hok
        · rw [if_neg hB] at hok ⊢
          by_cases hC : le16 buf (tag*8+2) &&& 16384 = 16384
          · rw [if_pos hC] at hok ⊢
            by_cases hD : pad8 (le32 buf (tag*8+4)) > le32 buf (tag*8+4) ∧
                off + pad8 (le32 buf (tag*8+4)) > buf.length
            · rw [if_pos hD] at hok
              exact absurd hok (by simp)
            · rw [if_neg hD] at hok ⊢
              by_cases hE : pad8 (le32 buf (tag*8+4)) > le32 buf (tag*8+4) ∧
                  (slice buf (off + le32 buf (tag*8+4))
                    (off + pad8 (le32 buf (tag*8+4)))).any (· ≠ 0)
              · rw [if_pos hE] at hok
                exact absurd hok (by simp)
              · rw [if_neg hE] at hok ⊢
                by_cases hF : off + pad8 (le32 buf (tag*8+4)) > msize
                · rw [if_pos hF] at hok
                  exact absurd hok (by simp)
                · rw [if_neg hF] at hok ⊢
                  set o2 : Nat := off + pad8 (le32 buf (tag*8+4)) with ho2
                  set b1 : List Nat :=
                    setAt buf (tag*8) (toLe32 (cacheWord off (le16 buf (tag*8+2)))) with hbbdef
                  have hw4 : (toLe32 (cacheWord off (le16 buf (tag*8+2)))).length = 4 := rfl
                  have htag8 : tag*8 + 8 ≤ msize := by omega
                  have h4 : tag*8 + (toLe32 (cacheWord off (le16 buf (tag*8+2)))).length ≤
                      buf.length := by rw [hw4]; omega
                  have hlen1 : b1.length = buf.length := by
                    rw [hbbdef]; exact setAt_length _ _ _ h4
                  have hbytes1 : IsBytes b1 := by
                    rw [hbbdef]; exact isBytes_setAt _ _ _ hb (isBytes_toLe32 _)
                  have hlo : ∀ i, i < tag*8 → byteAt b1 i = byteAt buf i := by
                    intro i hi
                    rw [hbbdef]
                    exact byteAt_setAt_lt _ _ _ i h4 hi
                  have hhi : ∀ i, tag*8+4 ≤ i → byteAt b1 i = byteAt buf i := by
                    intro i hi
                    rw [hbbdef]
                    exact byteAt_setAt_ge _ _ _ i h4 (by rw [hw4]; omega)
                  have hps8 : pad8 (le32 buf (tag*8+4)) % 8 = 0 := pad8_mod8 _
                  have hb64 : byteAt buf (tag*8+3) &&& 64 = 64 := by
                    have hf := flag_bit14 (byteAt buf (tag*8+2)) (byteAt buf (tag*8+3)) hb2lt
                    rw [← hflag] at hf
                    rw [hC] at hf
                    omega
                  have hb64ne : byteAt buf (tag*8+3) &&& 64 ≠ 0 := by
                    rw [hb64]; omega
                  obtain ⟨iA1, iA2, iA3, iA4, iA5, iA6⟩ :=
                    ih b1 (tag+1) o2 msize hbytes1
                      (by rw [hlen1]; exact hlen) hms (by omega) (by omega) (by omega)
                      (by rw [hlen1] at *; omega) hok
                  refine ⟨?_, iA2, ?_, ?_, ?_, ?_⟩
                  · rw [iA1]; exact hlen1
                  · intro i hi
                    rw [iA3 i (by omega)]
                    exact hlo i hi
                  · intro i hi
                    rw [iA4 i (by omega)]
                    exact hhi i (by omega)
                  · rw [winSum_succ, if_pos hb64ne]
                    have hwc : winSum b1 (tag+1) r = winSum buf (tag+1) r :=
                      winSum_congr b1 buf (tag+1) r (fun i hi => hhi i (by omega))
                    rw [hwc] at iA5
                    omega
                  · intro t ht1 ht2
                    by_cases hteq : t = tag
                    · subst hteq
                      refine ⟨?_, ?_⟩
                      · intro _
                        have hz : off + winSum buf t (t - t) = off := by
                          have he0 : t - t = 0 := by omega
                          rw [he0]
                          have h0 : winSum buf t 0 = 0 := rfl
                          omega
                        refine ⟨?_, ?_, ?_⟩
                        · rw [hz]
                          have e0 := iA3 (t*8) (by omega)
                          have e1 := iA3 (t*8+1) (by omega)
                          have e2 := iA3 (t*8+2) (by omega)
                          have e3 := iA3 (t*8+3) (by omega)
                          calc le32 (decodeThunksGo msize r (t+1) b1 o2).2 (t*8)
                              = le32 b1 (t*8) := by
                                unfold le32
                                rw [e0, e1, e2, e3]
                            _ = cacheWord off (le16 buf (t*8+2)) % 4294967296 := by
                                rw [hbbdef]
                                exact le32_setAt_toLe32 buf (t*8) _ (by omega)
                            _ = cacheWord off (le16 buf (t*8+2)) :=
                                Nat.mod_eq_of_lt (cacheWord_lt _ _)
                        · rw [hz]
                          rw [iA3 (t*8+3) (by omega)]
                          rw [hbbdef]
                          exact byteAt_setAt_toLe32_3 buf (t*8) _ (by omega)
                        · intro j hj4 hj8
                          rw [iA3 (t*8+j) (by omega)]
                          exact hhi _ (by omega)
                      · intro hcond
                        omega
                    · have hres := iA6 t (by omega) (by omega)
                      have e3' : byteAt b1 (t*8+3) = byteAt buf (t*8+3) := hhi _ (by omega)
                      have e2' : le16 b1 (t*8+2) = le16 buf (t*8+2) := by
                        unfold le16
                        rw [hhi _ (by omega), hhi _ (by omega)]
                      have hwnd : o2 + winSum b1 (tag+1) (t - (tag+1)) =
                          off + winSum buf tag (t - tag) := by
                        have hcg : winSum b1 (tag+1) (t - (tag+1)) =
                            winSum buf (tag+1) (t - (tag+1)) :=
                          winSum_congr b1 buf (tag+1) _ (fun i hi => hhi i (by omega))
                        have he : t - tag = (t - (tag+1)) + 1 := by omega
                        rw [hcg, he, winSum_succ, if_pos hb64ne]
                        omega
                      refine ⟨?_, ?_⟩
                      · intro hcond
                        obtain ⟨p1, p2, p3⟩ := hres.1 (by rw [e3']; exact hcond)
                        refine ⟨?_, ?_, ?_⟩
                        · rw [p1, e2', hwnd]
                        · rw [p2, e2', hwnd]
                        · intro j hj4 hj8
                          rw [p3 j hj4 hj8]
                          exact hhi _ (by omega)
                      · intro hcond j hj
                        rw [hres.2 (by rw [e3']; exact hcond) j hj]
                        exact hhi _ (by omega)
          · rw [if_neg hC] at hok ⊢
            by_cases hH : le16 buf (tag*8) > 0
            · rw [if_pos hH] at hok
              exact absurd hok (by split_ifs <;> simp)
            · rw [if_neg hH] at hok ⊢
              obtain ⟨iA1, iA2, iA3, iA4, iA5, iA6⟩ :=
                ih buf (tag+1) off msize hb hlen hms h8 hle (by omega) (by omega) hok
              have hb64 : byteAt buf (tag*8+3) &&& 64 = 0 := by
                have hf := flag_bit14 (byteAt buf (tag*8+2)) (byteAt buf (tag*8+3)) hb2lt
                rw [← hflag] at hf
                have hbit : byteAt buf (tag*8+3) &&& 64 =
                    (Nat.testBit (byteAt buf (tag*8+3)) 6).toNat * 64 := by
                  rw [show (64:Nat) = 2^6 by norm_num, Nat.and_two_pow]
                cases h6 : Nat.testBit (byteAt buf (tag*8+3)) 6 with
                | false => rw [hbit, h6]; rfl
                | true =>
                    rw [hbit, h6] at hf
                    simp at hf
                    omega
              refine ⟨iA1, iA2, ?_, ?_, ?_, ?_⟩
              · intro i hi; exact iA3 i (by omega)
              · intro i hi; exact iA4 i (by omega)
              · rw [winSum_succ, if_neg (by simp [hb64])]
                omega
              · intro t ht1 ht2
                by_cases hteq : t = tag
                · subst hteq
                  refine ⟨?_, ?_⟩
                  · intro hcond
                    exact absurd hb64 hcond
                  · intro _ j hj
                    exact iA3 _ (by omega)
                · have hres := iA6 t (by omega) (by omega)
                  have hws : winSum buf tag (t - tag) = winSum buf (tag+1) (t - (tag+1)) := by
                    have he : t - tag = (t - (tag+1)) + 1 := by omega
                    rw [he, winSum_succ, if_neg (by simp [hb64])]
                    omega
                  rw [hws]
                  exact hres

end Idol

namespace Idol

/-- Claim C10: for a buffer accepted by `NewMessageDecoder`, the payload of a
present indirect field read through the cached offset
(`DecodedMessage.GetIndirect` on the mutated buffer) equals the payload
recomputed by summing preceding padded sizes (`MessageField.getIndirect` on
the original buffer). -/
theorem c10_cached_offset_equiv (buf : List Nat) (tag : Nat)
    (hb : IsBytes buf)
    (hok : (newMessageDecoder buf).1 = DecodeRes.ok)
    (htag : 1 ≤ tag) (htc : tag ≤ le16 buf 6)
    (hfl : le16 buf (tag*8+2) = 0xC000) :
    decMsgGetIndirect (newMessageDecoder buf).2 tag = mfGetIndirect buf tag := by
  simp only [newMessageDecoder] at hok ⊢
  by_cases h1 : buf.length > 4294967295
  · rw [if_pos h1] at hok; exact absurd hok (by simp)
  rw [if_neg h1] at hok ⊢
  by_cases h2 : buf.length < 8
  · rw [if_pos h2] at hok; exact absurd hok (by simp)
  rw [if_neg h2] at hok ⊢
  by_cases h3 : buf.length % 8 ≠ 0
  · rw [if_pos h3] at hok; exact absurd hok (by simp)
  rw [if_neg h3] at hok ⊢
  by_cases h4 : buf.length > MaxMessageSize
  · rw [if_pos h4] at hok; exact absurd hok (by simp)
  rw [if_neg h4] at hok ⊢
  by_cases h5 : le32 buf 0 ≠ buf.length
  · rw [if_pos h5] at hok; exact absurd hok (by simp)
  rw [if_neg h5] at hok ⊢
  by_cases h6 : le16 buf 4 ≠ 0
  · rw [if_pos h6] at hok; exact absurd hok (by simp)
  rw [if_neg h6] at hok ⊢
  have hm : le32 buf 0 = buf.length := by omega
  rw [hm] at hok ⊢
  simp only [decodeThunks] at hok ⊢
  by_cases hg : 8 + le16 buf 6 * 8 > buf.length
  · rw [if_pos hg] at hok; exact absurd hok (by simp)
  rw [if_neg hg] at hok ⊢
  set tc : Nat := le16 buf 6 with htc6
  set doff : Nat := 8 + tc * 8 with hdoff
  have hMM : MaxMessageSize = 2146435072 := rfl
  obtain ⟨iA1, iA2, iA3, iA4, iA5, iA6⟩ :=
    decodeGo_spec tc buf 1 doff buf.length hb rfl (by omega) (by omega) (by omega)
      (by omega) (by omega) hok
  have h6' := iA6 tag htag (by omega)
  have hb2l := byteAt_lt_256 buf hb (tag*8+2)
  have hb3l := byteAt_lt_256 buf hb (tag*8+3)
  have hle16 : le16 buf (tag*8+2) =
      byteAt buf (tag*8+2) + byteAt buf (tag*8+3) * 256 := by
    unfold le16
    congr 2
  have hb3v : byteAt buf (tag*8+3) = 192 := by omega
  have hcond : byteAt buf (tag*8+3) &&& 64 ≠ 0 := by
    rw [hb3v]; decide
  obtain ⟨p1, p2, p3⟩ := h6'.1 hcond
  rw [hfl] at p1 p2
  have hw8 := winSum_mod8 buf 1 (tag-1)
  have hofft8 : (doff + winSum buf 1 (tag-1)) % 8 = 0 := by omega
  have hofftle : doff + winSum buf 1 (tag-1) ≤ buf.length := by
    have hsplit := winSum_split buf 1 (tag-1) (tc - (tag-1))
    rw [show (tag-1) + (tc - (tag-1)) = tc by omega] at hsplit
    omega
  have hmask := cacheWord_c000_mask (doff + winSum buf 1 (tag-1)) hofft8 (by omega)
  have hbyte3 := cacheWord_c000_byte3 (doff + winSum buf 1 (tag-1))
  have hvs : le32 (decodeThunksGo buf.length tc 1 buf doff).2 (tag*8+4) =
      le32 buf (tag*8+4) := by
    unfold le32
    rw [show tag*8+4+1 = tag*8+5 by omega, show tag*8+4+2 = tag*8+6 by omega,
        show tag*8+4+3 = tag*8+7 by omega]
    rw [p3 4 (by omega) (by omega), p3 5 (by omega) (by omega),
        p3 6 (by omega) (by omega), p3 7 (by omega) (by omega)]
  have hte : le16 (decodeThunksGo buf.length tc 1 buf doff).2 6 = le16 buf 6 := by
    unfold le16
    rw [iA3 6 (by omega), iA3 (6+1) (by omega)]
  have hhas : decMsgHas (decodeThunksGo buf.length tc 1 buf doff).2 tag = true := by
    unfold decMsgHas
    rw [if_neg (by rw [iA1]; omega)]
    rw [if_neg (by rw [hte]; omega)]
    simp only [decide_eq_true_eq]
    rw [p2]
    exact hbyte3
  by_cases hv0 : le32 buf (tag*8+4) = 0
  · have hL : decMsgGetIndirect (decodeThunksGo buf.length tc 1 buf doff).2 tag = [] := by
      unfold decMsgGetIndirect
      rw [if_neg (by simp [hhas])]
      rw [if_pos (by rw [hvs]; exact hv0)]
    rw [hL]
    unfold mfGetIndirect slice
    rw [hv0]
    simp
  · unfold decMsgGetIndirect
    rw [if_neg (by simp [hhas])]
    rw [if_neg (by rw [hvs]; exact hv0)]
    rw [p1, hmask, hvs]
    have hsc : slice (decodeThunksGo buf.length tc 1 buf doff).2
        (doff + winSum buf 1 (tag-1))
        (doff + winSum buf 1 (tag-1) + le32 buf (tag*8+4)) =
        slice buf (doff + winSum buf 1 (tag-1))
          (doff + winSum buf 1 (tag-1) + le32 buf (tag*8+4)) :=
      slice_congr _ _ _ _ iA1 (fun i hi => iA4 i (by omega))
    rw [hsc]
    unfold mfGetIndirect
    rw [hdoff, htc6]

/-- Witness for C10 at the concrete encoded message (field 3, the text). -/
theorem c10_witness :
    IsBytes (encodeMsgU32Text 0x04030201 hello) ∧
    (newMessageDecoder (encodeMsgU32Text 0x04030201 hello)).1 = DecodeRes.ok ∧
    1 ≤ 3 ∧ 3 ≤ le16 (encodeMsgU32Text 0x04030201 hello) 6 ∧
    le16 (encodeMsgU32Text 0x04030201 hello) (3*8+2) = 0xC000 ∧
    decMsgGetIndirect (newMessageDecoder (encodeMsgU32Text 0x04030201 hello)).2 3 =
      mfGetIndirect (encodeMsgU32Text 0x04030201 hello) 3 :=
  ⟨by decide, by decide, by decide, by decide, by decide,
    c10_cached_offset_equiv (encodeMsgU32Text 0x04030201 hello) 3
      (by decide) (by decide) (by decide) (by decide) (by decide)⟩

end Idol


namespace IdolSyn

/-! # Embedding of the schema-source lexer (part_010, `Tokens.Next`)

Source bytes are `List Nat` (each < 256 for well-formed input).  The lexer
is the function `nextTok` on the remaining source; `Tokens.offset` is only
used to build error values and is dropped (errors are collapsed to `none`).
`maxTokenLen = 0xFFFF` (`checkTokenLen`). -/

inductive TokKind where
  | eof | space | newline | comment | ident
  | intLit | binIntLit | octIntLit | decIntLit | hexIntLit
  | textLit
  | atSig | colon | dotSig | eqSig
  | openCurl | closeCurl | openParen | closeParen | openSquare | closeSquare
  deriving DecidableEq

structure Tok where
  kind : TokKind
  len : Nat
  deriving DecidableEq

def isDigit (c : Nat) : Bool := 48 ≤ c && c ≤ 57

def isUpper (c : Nat) : Bool := 65 ≤ c && c ≤ 90

def isLower (c : Nat) : Bool := 97 ≤ c && c ≤ 122

def isAlpha (c : Nat) : Bool := isUpper c || isLower c

/-- Go `nextSpace`: run of `' '`, `'\t'` and UTF-8 NBSP (`C2 A0`). -/
def spaceLen : List Nat → Nat
  | 32 :: r => spaceLen r + 1
  | 9 :: r => spaceLen r + 1
  | 194 :: 160 :: r => spaceLen r + 2
  | _ => 0

/-- Go `nextComment`: bytes up to (excluding) the first `\n` or `\r`. -/
def commentLen : List Nat → Nat
  | [] => 0
  | 10 :: _ => 0
  | 13 :: _ => 0
  | _ :: r => commentLen r + 1

/-- Go `nextTextLit` scan after the opening quote: length up to and including
the closing quote; `none` on unterminated literal or forbidden control
character.  The `escaped` flag skips the checks on the following byte. -/
def textLitLen : List Nat → Bool → Option Nat
  | [], _ => none
  | c :: r, escaped =>
      if escaped then (textLitLen r false).map (· + 1)
      else if c = 34 then some 1
      else if (c ≤ 31 || c = 127) && c ≠ 9 then none
      else (textLitLen r (c = 92)).map (· + 1)

/-- One numeric-scanner step (`nextNumLit` digit loops): length of the run
of accepted-or-alphanumeric-invalid characters plus whether an invalid
character was seen (the loops `continue` over wrong letters). -/
def numScan (allow alphaInv : Nat → Bool) : List Nat → Nat × Bool
  | [] => (0, false)
  | c :: r =>
      if allow c then
        let (l, i) := numScan allow alphaInv r
        (l + 1, i)
      else if alphaInv c then
        let (l, _) := numScan allow alphaInv r
        (l + 1, true)
      else (0, false)

def allowDec (c : Nat) : Bool := isDigit c || c = 95

def alphaInvDec (c : Nat) : Bool := isAlpha c

def allowHex (c : Nat) : Bool :=
  isDigit c || (65 ≤ c && c ≤ 70) || (97 ≤ c && c ≤ 102) || c = 95

def alphaInvHex (c : Nat) : Bool := (71 ≤ c && c ≤ 90) || (103 ≤ c && c ≤ 122)

def allowOct (c : Nat) : Bool := (48 ≤ c && c ≤ 55) || c = 95

def alphaInvOct (c : Nat) : Bool := c = 56 || c = 57 || isAlpha c

def allowBin (c : Nat) : Bool := c = 48 || c = 49

def alphaInvBin (c : Nat) : Bool := (50 ≤ c && c ≤ 57) || isAlpha c || c = 95

def scannerFor : TokKind → ((Nat → Bool) × (Nat → Bool))
  | .hexIntLit => (allowHex, alphaInvHex)
  | .octIntLit => (allowOct, alphaInvOct)
  | .binIntLit => (allowBin, alphaInvBin)
  | _ => (allowDec, alphaInvDec)

/-- The `numSrc[0] == '0'` base-prefix switch of `nextNumLit`:
`(kind, invalid-so-far, prefix length consumed)`. -/
def numLitBase : List Nat → TokKind × Bool × Nat
  | 48 :: b :: _ =>
      if isDigit b then (.intLit, true, 0)
      else if b = 98 then (.binIntLit, false, 2)
      else if b = 111 then (.octIntLit, false, 2)
      else if b = 100 then (.decIntLit, false, 2)
      else if b = 120 then (.hexIntLit, false, 2)
      else (.intLit, true, 0)
  | _ => (.intLit, false, 0)

/-- Go `nextNumLit` after the optional leading minus: `numSrc` is the source
without the sign, `pre` the sign length, `neg` whether a minus was seen. -/
def numLitAfterSign (numSrc : List Nat) (pre : Nat) (neg : Bool) : Option Tok :=
  match numSrc with
  | [48] => if neg then none else some ⟨.intLit, 1⟩
  | _ =>
    let kind := (numLitBase numSrc).1
    let invalid0 := (numLitBase numSrc).2.1
    let skip := (numLitBase numSrc).2.2
    let scanSrc := numSrc.drop skip
    let scanLen := (numScan (scannerFor kind).1 (scannerFor kind).2 scanSrc).1
    let scanInv := (numScan (scannerFor kind).1 (scannerFor kind).2 scanSrc).2
    let tokenLen := pre + skip + scanLen
    let invalid1 := invalid0 || scanInv || decide (scanLen = 0)
    let invalid :=
      if scanLen ≠ 0 && tokenLen = 1 && scanSrc.headD 0 = 48 then false else invalid1
    if invalid then none
    else if tokenLen > 65535 then none
    else some ⟨kind, tokenLen⟩

/-- Go `nextNumLit`. -/
def numLitTok : List Nat → Option Tok
  | 45 :: [] => none
  | 45 :: rest => numLitAfterSign rest 1 true
  | src => numLitAfterSign src 0 false

/-- Go `nextIdent` scan after the first character: returns
`(length, last char was underscore, doubled underscore seen)`. -/
def identScan : List Nat → Bool → Nat × Bool × Bool
  | [], u => (0, u, false)
  | c :: r, u =>
      if c = 95 then
        let (l, endU, inv) := identScan r true
        (l + 1, endU, inv || u)
      else if isAlpha c || isDigit c then
        let (l, endU, inv) := identScan r false
        (l + 1, endU, inv)
      else (0, u, false)

def identTok (src : List Nat) : Option Tok :=
  let s := identScan src.tail false
  if s.2.1 || s.2.2 then none
  else if s.1 + 1 > 65535 then none
  else some ⟨.ident, s.1 + 1⟩

def spaceTok (src : List Nat) : Option Tok :=
  if spaceLen src > 65535 then none else some ⟨.space, spaceLen src⟩

def commentTok (src : List Nat) : Option Tok :=
  if commentLen src > 65535 then none else some ⟨.comment, commentLen src⟩

def textTok (src : List Nat) : Option Tok :=
  match textLitLen src.tail false with
  | none => none
  | some l => if l + 1 > 65535 then none else some ⟨.textLit, l + 1⟩

/-- Go `Tokens.Next`, dispatching on the first byte.  `none` collapses every
lexer error.  The NBSP arm (`C2 A0`, the `utf8.DecodeRune` check) may be
tested before the digit/letter arms because `0xC2` is neither. -/
def nextTok (src : List Nat) : Option Tok :=
  match src with
  | [] => some ⟨.eof, 0⟩
  | 9 :: _ => spaceTok src
  | 32 :: _ => spaceTok src
  | 10 :: _ => some ⟨.newline, 1⟩
  | 64 :: _ => some ⟨.atSig, 1⟩
  | 58 :: _ => some ⟨.colon, 1⟩
  | 46 :: _ => some ⟨.dotSig, 1⟩
  | 61 :: _ => some ⟨.eqSig, 1⟩
  | 123 :: _ => some ⟨.openCurl, 1⟩
  | 125 :: _ => some ⟨.closeCurl, 1⟩
  | 40 :: _ => some ⟨.openParen, 1⟩
  | 41 :: _ => some ⟨.closeParen, 1⟩
  | 91 :: _ => some ⟨.openSquare, 1⟩
  | 93 :: _ => some ⟨.closeSquare, 1⟩
  | 35 :: _ => commentTok src
  | 34 :: _ => textTok src
  | 13 :: 10 :: _ => some ⟨.newline, 2⟩
  | 13 :: _ => none
  | 194 :: 160 :: _ => spaceTok src
  | c :: _ =>
      if isDigit c || c = 45 then numLitTok src
      else if isAlpha c then identTok src
      else none

/-! ## Lexer length and shape lemmas -/

theorem spaceLen_le (src : List Nat) : spaceLen src ≤ src.length := by
  induction src using spaceLen.induct <;> simp_all [spaceLen]

theorem commentLen_le (src : List Nat) : commentLen src ≤ src.length := by
  induction src using commentLen.induct <;> simp_all [commentLen]

theorem textLitLen_le (src : List Nat) (e : Bool) (n : Nat)
    (h : textLitLen src e = some n) : n ≤ src.length := by
  induction src generalizing e n with
  | nil => simp [textLitLen] at h
  | cons c r ih =>
      unfold textLitLen at h
      split_ifs at h
      · cases hr : textLitLen r false with
        | none => rw [hr] at h; simp at h
        | some m =>
            rw [hr] at h
            simp at h
            have := ih false m hr
            simp
            omega
      · simp at h
        simp
        omega
      · cases hr : textLitLen r (decide (c = 92)) with
        | none => rw [hr] at h; simp at h
        | some m =>
            rw [hr] at h
            simp at h
            have := ih _ m hr
            simp
            omega

theorem numScan_le (a b : Nat → Bool) (src : List Nat) :
    (numScan a b src).1 ≤ src.length := by
  induction src with
  | nil => simp [numScan]
  | cons c r ih =>
      unfold numScan
      split_ifs <;> simp_all

theorem identScan_le (src : List Nat) (u : Bool) :
    (identScan src u).1 ≤ src.length := by
  induction src generalizing u with
  | nil => simp [identScan]
  | cons c r ih =>
      unfold identScan
      split_ifs <;> simp_all

theorem numLitBase_skip_le (l : List Nat) : (numLitBase l).2.2 ≤ l.length := by
  unfold numLitBase
  split
  · split_ifs <;> simp
  · simp

theorem numLitAfterSign_len_le (numSrc : List Nat) (pre : Nat) (neg : Bool) (t : Tok)
    (h : numLitAfterSign numSrc pre neg = some t) : t.len ≤ pre + numSrc.length := by
  unfold numLitAfterSign at h
  split at h
  · split_ifs at h
    all_goals cases h
    simp
  · dsimp only at h
    split_ifs at h
    all_goals cases h
    all_goals (
      have h1 := numScan_le (scannerFor (numLitBase numSrc).1).1
        (scannerFor (numLitBase numSrc).1).2 (numSrc.drop (numLitBase numSrc).2.2);
      have h2 := numLitBase_skip_le numSrc;
      simp only [List.length_drop] at h1;
      simp;
      omega)

theorem numLitTok_len_le (src : List Nat) (t : Tok) (h : numLitTok src = some t) :
    t.len ≤ src.length := by
  unfold numLitTok at h
  split at h
  · cases h
  · have := numLitAfterSign_len_le _ _ _ _ h
    simp at this ⊢
    omega
  · have := numLitAfterSign_len_le _ _ _ _ h
    omega

theorem identTok_len_le (c : Nat) (r : List Nat) (t : Tok)
    (h : identTok (c :: r) = some t) : t.len ≤ (c :: r).length := by
  unfold identTok at h
  dsimp only at h
  split_ifs at h
  cases h
  have := identScan_le (c :: r).tail false
  simp at this ⊢
  omega

set_option maxHeartbeats 1000000 in
theorem nextTok_len_le (src : List Nat) (t : Tok) (h : nextTok src = some t) :
    t.len ≤ src.length := by
  have hsp : ∀ s u, spaceTok s = some u → u.len ≤ s.length := by
    intro s u hu
    unfold spaceTok at hu
    split_ifs at hu
    cases hu
    exact spaceLen_le s
  have hco : ∀ s u, commentTok s = some u → u.len ≤ s.length := by
    intro s u hu
    unfold commentTok at hu
    split_ifs at hu
    cases hu
    exact commentLen_le s
  unfold nextTok at h
  split at h
  · cases h; simp
  · exact hsp _ _ h
  · exact hsp _ _ h
  · cases h; simp
  · cases h; simp
  · cases h; simp
  · cases h; simp
  · cases h; simp
  · cases h; simp
  · cases h; simp
  · cases h; simp
  · cases h; simp
  · cases h; simp
  · cases h; simp
  · exact hco _ _ h
  · unfold textTok at h
    rename_i tl
    cases htl : textLitLen ((34 :: tl)).tail false with
    | none => rw [htl] at h; cases h
    | some l =>
        rw [htl] at h
        dsimp only at h
        split_ifs at h
        have := textLitLen_le _ _ _ htl
        cases h
        simp at this ⊢
        omega
  · cases h; simp
  · cases h
  · exact hsp _ _ h
  · split_ifs at h
    · exact numLitTok_len_le _ _ h
    · exact identTok_len_le _ _ _ h


def isSig : TokKind → Bool
  | .atSig | .colon | .dotSig | .eqSig | .openCurl | .closeCurl
  | .openParen | .closeParen | .openSquare | .closeSquare => true
  | _ => false

theorem spaceTok_kind (s : List Nat) (t : Tok) (h : spaceTok s = some t) :
    t.kind = .space := by
  unfold spaceTok at h
  split_ifs at h
  cases h
  rfl

theorem commentTok_kind (s : List Nat) (t : Tok) (h : commentTok s = some t) :
    t.kind = .comment := by
  unfold commentTok at h
  split_ifs at h
  cases h
  rfl

theorem textTok_kind (s : List Nat) (t : Tok) (h : textTok s = some t) :
    t.kind = .textLit := by
  unfold textTok at h
  split at h
  · cases h
  · split_ifs at h
    cases h
    rfl

theorem identTok_kind (s : List Nat) (t : Tok) (h : identTok s = some t) :
    t.kind = .ident := by
  unfold identTok at h
  dsimp only at h
  split_ifs at h
  cases h
  rfl

def isNumKind : TokKind → Bool
  | .intLit | .binIntLit | .octIntLit | .decIntLit | .hexIntLit => true
  | _ => false

theorem numLitBase_kind_num (l : List Nat) : isNumKind (numLitBase l).1 = true := by
  unfold numLitBase
  split
  · split_ifs <;> rfl
  · rfl

theorem numLitAfterSign_kind_num (n : List Nat) (p : Nat) (g : Bool) (t : Tok)
    (h : numLitAfterSign n p g = some t) : isNumKind t.kind = true := by
  unfold numLitAfterSign at h
  split at h
  · split_ifs at h
    all_goals cases h
    rfl
  · dsimp only at h
    split_ifs at h
    all_goals cases h
    all_goals exact numLitBase_kind_num n

theorem numLitBase_kind_notSig (l : List Nat) : isSig (numLitBase l).1 = false := by
  unfold numLitBase
  split
  · split_ifs <;> rfl
  · rfl

theorem numLitAfterSign_kind_notSig (n : List Nat) (p : Nat) (g : Bool) (t : Tok)
    (h : numLitAfterSign n p g = some t) : isSig t.kind = false := by
  unfold numLitAfterSign at h
  split at h
  · split_ifs at h
    all_goals cases h
    rfl
  · dsimp only at h
    split_ifs at h
    all_goals cases h
    all_goals exact numLitBase_kind_notSig n

theorem numLitTok_kind_notSig (s : List Nat) (t : Tok) (h : numLitTok s = some t) :
    isSig t.kind = false := by
  unfold numLitTok at h
  split at h
  · cases h
  · exact numLitAfterSign_kind_notSig _ _ _ _ h
  · exact numLitAfterSign_kind_notSig _ _ _ _ h

set_option maxHeartbeats 1000000 in
/-- A sigil token is always a single byte, the head of the source. -/
theorem nextTok_sigil (src : List Nat) (t : Tok) (h : nextTok src = some t)
    (hs : isSig t.kind = true) : t.len = 1 ∧ src.take 1 = [src.headD 0] := by
  unfold nextTok at h
  split at h
  · cases h; cases hs
  · rw [spaceTok_kind _ _ h] at hs; cases hs
  · rw [spaceTok_kind _ _ h] at hs; cases hs
  · cases h; cases hs
  · cases h; exact ⟨rfl, rfl⟩
  · cases h; exact ⟨rfl, rfl⟩
  · cases h; exact ⟨rfl, rfl⟩
  · cases h; exact ⟨rfl, rfl⟩
  · cases h; exact ⟨rfl, rfl⟩
  · cases h; exact ⟨rfl, rfl⟩
  · cases h; exact ⟨rfl, rfl⟩
  · cases h; exact ⟨rfl, rfl⟩
  · cases h; exact ⟨rfl, rfl⟩
  · cases h; exact ⟨rfl, rfl⟩
  · rw [commentTok_kind _ _ h] at hs; cases hs
  · rw [textTok_kind _ _ h] at hs; cases hs
  · cases h; cases hs
  · cases h
  · rw [spaceTok_kind _ _ h] at hs; cases hs
  · split_ifs at h
    · rw [numLitTok_kind_notSig _ _ h] at hs; cases hs
    · rw [identTok_kind _ _ h] at hs; cases hs

set_option maxHeartbeats 1000000 in
/-- A newline token is `\n` or `\r\n`, verbatim from the source. -/
theorem nextTok_newline (src : List Nat) (t : Tok) (h : nextTok src = some t)
    (hs : t.kind = .newline) :
    (t.len = 1 ∧ src.take 1 = [10]) ∨ (t.len = 2 ∧ src.take 2 = [13, 10]) := by
  unfold nextTok at h
  split at h
  · cases h; cases hs
  · rw [spaceTok_kind _ _ h] at hs; cases hs
  · rw [spaceTok_kind _ _ h] at hs; cases hs
  · cases h; exact Or.inl ⟨rfl, rfl⟩
  · cases h; cases hs
  · cases h; cases hs
  · cases h; cases hs
  · cases h; cases hs
  · cases h; cases hs
  · cases h; cases hs
  · cases h; cases hs
  · cases h; cases hs
  · cases h; cases hs
  · cases h; cases hs
  · rw [commentTok_kind _ _ h] at hs; cases hs
  · rw [textTok_kind _ _ h] at hs; cases hs
  · cases h; exact Or.inr ⟨rfl, rfl⟩
  · cases h
  · rw [spaceTok_kind _ _ h] at hs; cases hs
  · split_ifs at h
    · have hk := h
      unfold numLitTok at hk
      split at hk
      · cases hk
      · have := numLitAfterSign_kind_num _ _ _ _ hk
        rw [hs] at this
        cases this
      · have := numLitAfterSign_kind_num _ _ _ _ hk
        rw [hs] at this
        cases this
    · rw [identTok_kind _ _ h] at hs; cases hs

/-! ## `newIntLit` / `newTextLit` validity (part_010 lines 2102-2139, 2266-2379)

Only acceptance matters for the round-trip claim; computed values are kept
for `IntLit` and dropped for `TextLit` (they do not affect `UnparseTo`,
which always writes the raw token). `strconv.ParseUint` with an explicit
base accepts plain digit strings only (no underscores, no sign). -/

def digitValGo (c : Nat) : Option Nat :=
  if 48 ≤ c ∧ c ≤ 57 then some (c - 48)
  else if 97 ≤ c ∧ c ≤ 122 then some (c - 87)
  else if 65 ≤ c ∧ c ≤ 90 then some (c - 55)
  else none

def parseUintLoop (base : Nat) : Nat → List Nat → Option Nat
  | acc, [] => some acc
  | acc, c :: r =>
      match digitValGo c with
      | none => none
      | some v =>
          if v ≥ base then none
          else if acc * base + v < 18446744073709551616 then
            parseUintLoop base (acc * base + v) r
          else none

def parseUintGo (base : Nat) (l : List Nat) : Option Nat :=
  if l = [] then none else parseUintLoop base 0 l

/-- Go `newIntLit`: the stored `uint64` value, `none` on error.  A negative
literal stores the two's complement of its magnitude. -/
def newIntLitVal (raw : List Nat) (kind : TokKind) : Option Nat :=
  let valueStr := if raw.headD 0 = 45 then raw.tail else raw
  let base : Nat :=
    match kind with
    | .binIntLit => 2
    | .octIntLit => 8
    | .hexIntLit => 16
    | _ => 10
  let digs :=
    match kind with
    | .binIntLit | .octIntLit | .decIntLit | .hexIntLit => valueStr.drop 2
    | _ => valueStr
  match parseUintGo base digs with
  | none => none
  | some v =>
      if raw.headD 0 = 45 then
        if v > 9223372036854775808 then none
        else some ((18446744073709551616 - v) % 18446744073709551616)
      else some v

def isHexDigit (c : Nat) : Bool :=
  (48 ≤ c && c ≤ 57) || (65 ≤ c && c ≤ 70) || (97 ≤ c && c ≤ 102)

def hexValGo (c : Nat) : Nat :=
  if 48 ≤ c ∧ c ≤ 57 then c - 48
  else if 65 ≤ c ∧ c ≤ 70 then c - 55
  else c - 87

mutual

/-- The escape-validation loop of `newTextLit` over `token[1:len-1]`. -/
def textValOk : List Nat → Bool
  | [] => true
  | 92 :: r => escCase r
  | _ :: r => textValOk r

def escCase : List Nat → Bool
  | [] => false
  | 34 :: r => textValOk r
  | 92 :: r => textValOk r
  | 110 :: r => textValOk r
  | 116 :: r => textValOk r
  | 120 :: a :: b :: r => isHexDigit a && isHexDigit b && textValOk r
  | 117 :: 123 :: r => uniCase 0 0 r
  | _ => false

/-- The `\u{...}` scan of `newTextLit`: 1-6 hex digits up to the closing
brace, scalar ≤ 0x10FFFF (`ParseUint(hex, 16, 32)` cannot overflow on at
most 6 digits, and errors exactly on a non-hex character). -/
def uniCase : Nat → Nat → List Nat → Bool
  | _, _, [] => false
  | cnt, acc, 125 :: r => if cnt = 0 ∨ cnt > 6 ∨ acc > 0x10FFFF then false else textValOk r
  | cnt, acc, c :: r => if isHexDigit c then uniCase (cnt + 1) (acc * 16 + hexValGo c) r else false

end

/-- Go `newTextLit`: the lexer never sets `tokenFlagTextHasNoEscapes`
(`hasEscapes` is assigned `true` on the closing quote), so the validation
loop always runs. -/
def newTextLitOk (raw : List Nat) : Bool :=
  textValOk (raw.drop 1).dropLast

/-! ## CST nodes (part_010 `Node` implementations)

Every composite node's `UnparseTo` concatenates its `childNodes` and its
`Span` comes from `parseCtx.finish`; the extra semantic pointer fields
(`name`, `scope`, ...) always alias entries of `childNodes` and do not
affect `Span`/`UnparseTo`, so they are omitted here.  `ParseError` nodes
are never constructed by the parser.  Leaf payloads are exactly what the
Go constructors store (`Newline` stores only the `crlf` flag, `Sigil` a
single byte). -/

structure NSpan where
  start : Nat
  len : Nat

inductive CompKind where
  | schemaC | namespaceC | importC | exportC | typeNameC | valueNameC
  | exportNameC | optionsC | optionsOptionC | optionC | optionNameC
  | decoratorC | constC | enumRefC | enumC | enumItemC | structC
  | structFieldC | messageC | messageFieldC | unionC | unionFieldC
  | tagC | fieldTypeC | protocolC | protocolRpcC | protocolEventC

mutual

inductive Node where
  | spaceN (raw : List Nat) (start : Nat)
  | newlineN (crlf : Bool) (start : Nat)
  | commentN (raw : List Nat) (start : Nat)
  | sigilN (b : Nat) (start : Nat)
  | keywordN (raw : List Nat) (start : Nat)
  | identN (raw : List Nat) (start : Nat)
  | intLitN (raw : List Nat) (value : Nat) (start : Nat)
  | textLitN (raw : List Nat) (start : Nat)
  | compN (k : CompKind) (span : NSpan) (kids : NodeList)

inductive NodeList where
  | nil
  | cons (n : Node) (rest : NodeList)

end

def NodeList.ofList : List Node → NodeList
  | [] => .nil
  | n :: r => .cons n (NodeList.ofList r)

mutual

/-- Go `UnparseTo`. -/
def unparseN : Node → List Nat
  | .spaceN raw _ => raw
  | .newlineN crlf _ => if crlf then [13, 10] else [10]
  | .commentN raw _ => raw
  | .sigilN b _ => [b]
  | .keywordN raw _ => raw
  | .identN raw _ => raw
  | .intLitN raw _ _ => raw
  | .textLitN raw _ => raw
  | .compN _ _ kids => unparseL kids

def unparseL : NodeList → List Nat
  | .nil => []
  | .cons n r => unparseN n ++ unparseL r

end

mutual

/-- Go `(Span().Start(), Span().Len())` of each leaf node, in document order. -/
def leafSpansN : Node → List (Nat × Nat)
  | .spaceN raw st => [(st, raw.length)]
  | .newlineN crlf st => [(st, if crlf then 2 else 1)]
  | .commentN raw st => [(st, raw.length)]
  | .sigilN _ st => [(st, 1)]
  | .keywordN raw st => [(st, raw.length)]
  | .identN raw st => [(st, raw.length)]
  | .intLitN raw _ st => [(st, raw.length)]
  | .textLitN raw st => [(st, raw.length)]
  | .compN _ _ kids => leafSpansL kids

def leafSpansL : NodeList → List (Nat × Nat)
  | .nil => []
  | .cons n r => leafSpansN n ++ leafSpansL r

end

/-- Checks that the spans tile the interval starting at `o` with no gap
and no overlap, returning the end offset. -/
def tilesEnd : Nat → List (Nat × Nat) → Option Nat
  | o, [] => some o
  | o, (st, l) :: r => if st = o then tilesEnd (o + l) r else none

theorem unparseL_ofList (l : List Node) :
    unparseL (NodeList.ofList l) = (l.map unparseN).flatten := by
  induction l with
  | nil => rfl
  | cons n r ih => simp [NodeList.ofList, unparseL, ih]

theorem leafSpansL_ofList (l : List Node) :
    leafSpansL (NodeList.ofList l) = (l.map leafSpansN).flatten := by
  induction l with
  | nil => rfl
  | cons n r ih => simp [NodeList.ofList, leafSpansL, ih]

theorem tilesEnd_append (a b : List (Nat × Nat)) (o : Nat) :
    tilesEnd o (a ++ b) = (tilesEnd o a).bind (fun m => tilesEnd m b) := by
  induction a generalizing o with
  | nil => rfl
  | cons p r ih =>
      obtain ⟨st, l⟩ := p
      by_cases h : st = o
      · rw [show tilesEnd o ((st, l) :: r ++ b) = tilesEnd (o + l) (r ++ b) from by
            simp [tilesEnd, h],
          show tilesEnd o ((st, l) :: r) = tilesEnd (o + l) r from by simp [tilesEnd, h], ih]
      · rw [show tilesEnd o ((st, l) :: r ++ b) = none from by simp [tilesEnd, h],
          show tilesEnd o ((st, l) :: r) = none from by simp [tilesEnd, h]]
        rfl

/-! ## Parser state (`parseCtx`) and primitives

`opts` is `NewParseOptions()`: `saveSpaces`, `saveNewlines` and
`saveComments` are all `true`, so every trivia token becomes a child node.
The shared `Tokens` lexer state is derivable: when `haveToken` is unset
its source equals `src`, which is the invariant `WF`.  The lexer offset
and all error values are collapsed into the `err` flag (the parser never
branches on which error occurred). -/

structure PCtx where
  src : List Nat
  haveToken : Bool
  tok : Tok
  kids : List Node
  err : Bool
  consumed : Nat
  offset : Nat

def WF (s : PCtx) : Prop := s.haveToken = true → nextTok s.src = some s.tok

/-- Go `parseCtx.ensureToken`. -/
def ensureToken (s : PCtx) : PCtx :=
  if s.err then s
  else if s.haveToken then s
  else
    match nextTok s.src with
    | none => { s with err := true }
    | some t => { s with haveToken := true, tok := t }

/-- Go `parseCtx.readToken`. -/
def readToken (s : PCtx) : List Nat := s.src.take s.tok.len

/-- Go `parseCtx.consumeToken`. -/
def consumeToken (child : Option Node) (s : PCtx) : PCtx :=
  { s with
    src := s.src.drop s.tok.len
    consumed := s.consumed + s.tok.len
    offset := s.offset + s.tok.len
    haveToken := false
    kids := s.kids ++ child.toList }

/-- Go `parseCtx.consumeSpace` (with `saveSpaces`). -/
def consumeSpace (s : PCtx) : PCtx :=
  consumeToken (some (.spaceN (readToken s) s.offset)) s

/-- Go `parseCtx.space`. -/
def spaceP (s : PCtx) : PCtx :=
  let s1 := ensureToken s
  if s1.err then s1
  else if s1.tok.kind ≠ .space then s1
  else consumeSpace s1

/-- One iteration of `parseCtx.loop`: the `Bool` is the `yield` result
(`false` = break). -/
def loopF (body : PCtx → PCtx × Bool) : Nat → PCtx → PCtx
  | 0, s => { s with err := true }
  | fuel + 1, s =>
      let r := body s
      if ¬ r.2 then r.1
      else if r.1.err then r.1
      else if r.1.consumed = s.consumed then r.1
      else loopF body fuel r.1

/-- Go `parseCtx.loop`.  Each continuing iteration consumes at least one
byte, so `src.length + 1` rounds of fuel never run out; exhaustion is
conservatively marked as an error. -/
def runLoop (body : PCtx → PCtx × Bool) (s : PCtx) : PCtx :=
  if s.err then s else loopF body (s.src.length + 1) s

/-- Body of `parseCtx.comments`. -/
def commentsBody (s : PCtx) : PCtx × Bool :=
  let s1 := ensureToken s
  if s1.err then (s1, false)
  else
    match s1.tok.kind with
    | .space => (consumeSpace s1, true)
    | .newline => (consumeToken (some (.newlineN (s1.tok.len = 2) s1.offset)) s1, true)
    | .comment => (consumeToken (some (.commentN (readToken s1) s1.offset)) s1, true)
    | _ => (s1, false)

/-- Go `parseCtx.comments`. -/
def commentsP (s : PCtx) : PCtx := runLoop commentsBody s

/-- Go `parseCtx.sigil`. -/
def sigilP (k : TokKind) (s : PCtx) : PCtx :=
  let s1 := ensureToken s
  if s1.err then s1
  else if s1.tok.kind ≠ k then { s1 with err := true }
  else consumeToken (some (.sigilN (s1.src.headD 0) s1.offset)) s1

/-- Go `parseCtx.trySigil`. -/
def trySigilP (k : TokKind) (s : PCtx) : PCtx × Bool :=
  let s1 := ensureToken s
  if s1.err then (s1, false)
  else if s1.tok.kind ≠ k then (s1, false)
  else (consumeToken (some (.sigilN (s1.src.headD 0) s1.offset)) s1, true)

/-- Go `parseCtx.tryKeyword`. -/
def tryKeywordP (kw : List Nat) (s : PCtx) : PCtx × Bool :=
  let s1 := ensureToken s
  if s1.err then (s1, false)
  else if s1.tok.kind ≠ .ident then (s1, false)
  else if readToken s1 ≠ kw then (s1, false)
  else (consumeToken (some (.keywordN kw s1.offset)) s1, true)

/-- Go `parseCtx.ident`. -/
def identP (s : PCtx) : PCtx :=
  let s1 := ensureToken s
  if s1.err then s1
  else if s1.tok.kind ≠ .ident then { s1 with err := true }
  else consumeToken (some (.identN (readToken s1) s1.offset)) s1

/-- Go `parseCtx.int`. -/
def intP (s : PCtx) : PCtx :=
  let s1 := ensureToken s
  if s1.err then s1
  else if ¬ isNumKind s1.tok.kind then { s1 with err := true }
  else
    match newIntLitVal (readToken s1) s1.tok.kind with
    | none => { s1 with err := true }
    | some v => consumeToken (some (.intLitN (readToken s1) v s1.offset)) s1

/-- Go `parseCtx.text`. -/
def textP (s : PCtx) : PCtx :=
  let s1 := ensureToken s
  if s1.err then s1
  else if s1.tok.kind ≠ .textLit then { s1 with err := true }
  else if newTextLitOk (readToken s1) then
    consumeToken (some (.textLitN (readToken s1) s1.offset)) s1
  else { s1 with err := true }

/-- Go `parseCtx.finish`. -/
def finishP (k : CompKind) (s : PCtx) : Option Node × Bool × PCtx :=
  if s.err then (none, true, s)
  else
    (some (.compN k ⟨s.offset - s.consumed, s.consumed⟩ (NodeList.ofList s.kids)),
      false, s)

/-- Go `parseChild`. -/
def parseChildP (f : PCtx → Option Node × Bool × PCtx) (s : PCtx) :
    Option Node × Bool × PCtx :=
  if s.err then (none, false, s)
  else
    let c0 : PCtx := ⟨s.src, s.haveToken, s.tok, [], false, 0, s.offset⟩
    let r := f c0
    if r.2.1 then (none, false, { s with err := true })
    else if r.2.2.consumed = 0 then
      (none, false, { s with haveToken := r.2.2.haveToken, tok := r.2.2.tok })
    else
      (r.1, true,
        { src := s.src.drop r.2.2.consumed
          haveToken := r.2.2.haveToken
          tok := r.2.2.tok
          kids := s.kids ++ r.1.toList
          err := s.err
          consumed := s.consumed + r.2.2.consumed
          offset := r.2.2.offset })

/-! ## The advance invariant -/

/-- How any parser step relates the state before and after: the source is
consumed in lock-step with `consumed` and `offset` (unconditionally), and
while no error has occurred the appended child nodes unparse to exactly
the consumed bytes and their leaf spans tile the consumed interval. -/
structure Adv (s s' : PCtx) : Prop where
  wf : WF s → WF s'
  mono : s.consumed ≤ s'.consumed
  src_eq : s'.src = s.src.drop (s'.consumed - s.consumed)
  dle : s'.consumed - s.consumed ≤ s.src.length
  off_eq : s'.offset = s.offset + (s'.consumed - s.consumed)
  ok : s'.err = false →
    s.err = false ∧
    ∃ ks, s'.kids = s.kids ++ ks ∧
      (ks.map unparseN).flatten = s.src.take (s'.consumed - s.consumed) ∧
      tilesEnd s.offset (ks.map leafSpansN).flatten = some s'.offset

theorem adv_rfl (s : PCtx) : Adv s s := by
  refine ⟨id, le_refl _, by simp, by simp, by simp, fun he => ⟨he, [], by simp, ?_⟩⟩
  simp [tilesEnd]

theorem adv_trans {s1 s2 s3 : PCtx} (h1 : Adv s1 s2) (h2 : Adv s2 s3) : Adv s1 s3 := by
  obtain ⟨w1, m1, sr1, d1, o1, k1⟩ := h1
  obtain ⟨w2, m2, sr2, d2, o2, k2⟩ := h2
  refine ⟨fun h => w2 (w1 h), le_trans m1 m2, ?_, ?_, ?_, ?_⟩
  · rw [sr2, sr1, List.drop_drop]
    congr 1
    omega
  · rw [sr1] at d2
    simp at d2
    omega
  · rw [o2, o1]
    omega
  · intro he3
    obtain ⟨he2, ks2, hk2, hu2, ht2⟩ := k2 he3
    obtain ⟨he1, ks1, hk1, hu1, ht1⟩ := k1 he2
    refine ⟨he1, ks1 ++ ks2, by rw [hk2, hk1, List.append_assoc], ?_, ?_⟩
    · rw [List.map_append, List.flatten_append, hu1, hu2, sr1]
      rw [show s3.consumed - s1.consumed =
        (s2.consumed - s1.consumed) + (s3.consumed - s2.consumed) by omega]
      rw [List.take_add]
    · rw [List.map_append, List.flatten_append, tilesEnd_append, ht1]
      simpa [o1] using ht2

theorem adv_err (s : PCtx) : Adv s { s with err := true } := by
  refine ⟨fun h => h, le_refl _, by simp, by simp, by simp, fun he => ?_⟩
  simp at he

theorem ensureToken_src (s : PCtx) : (ensureToken s).src = s.src := by
  unfold ensureToken
  split_ifs <;> try rfl
  split <;> rfl

theorem ensureToken_consumed (s : PCtx) : (ensureToken s).consumed = s.consumed := by
  unfold ensureToken
  split_ifs <;> try rfl
  split <;> rfl

theorem ensureToken_offset (s : PCtx) : (ensureToken s).offset = s.offset := by
  unfold ensureToken
  split_ifs <;> try rfl
  split <;> rfl

theorem ensureToken_kids (s : PCtx) : (ensureToken s).kids = s.kids := by
  unfold ensureToken
  split_ifs <;> try rfl
  split <;> rfl

theorem ensureToken_wf (s : PCtx) (hWF : WF s) : WF (ensureToken s) := by
  unfold ensureToken
  split_ifs with h1 h2
  · exact hWF
  · exact hWF
  · cases hnt : nextTok s.src with
    | none =>
        intro h
        simp at h
        exact absurd h h2
    | some t =>
        intro _
        simpa using hnt

theorem ensureToken_ht (s : PCtx) (he : (ensureToken s).err = false) :
    (ensureToken s).haveToken = true := by
  unfold ensureToken at *
  split_ifs at * with h1 h2
  · rw [show s.err = true from h1] at he
    cases he
  · exact h2
  · cases hnt : nextTok s.src with
    | none => rw [hnt] at he; simp at he
    | some t => rfl

theorem ensureToken_tok (s : PCtx) (he : (ensureToken s).err = false) :
    WF (ensureToken s) → nextTok s.src = some (ensureToken s).tok := by
  intro hwf
  have := hwf (ensureToken_ht s he)
  rwa [ensureToken_src] at this

theorem ensureToken_err (s : PCtx) (he : (ensureToken s).err = false) : s.err = false := by
  unfold ensureToken at he
  split_ifs at he with h1 h2
  · exact absurd h1 (by simp [he])
  · simpa using he
  · cases hnt : nextTok s.src with
    | none => rw [hnt] at he; simp at he
    | some t => rw [hnt] at he; simpa using he

theorem ensureToken_adv (s : PCtx) : Adv s (ensureToken s) := by
  refine ⟨fun h => ensureToken_wf s h, by rw [ensureToken_consumed], ?_, ?_, ?_, fun he => ?_⟩
  · rw [ensureToken_src, ensureToken_consumed]
    simp
  · rw [ensureToken_consumed]
    simp
  · rw [ensureToken_offset, ensureToken_consumed]
    simp
  · refine ⟨ensureToken_err s he, [], by rw [ensureToken_kids]; simp, ?_, ?_⟩
    · rw [ensureToken_consumed]
      simp
    · rw [ensureToken_offset]
      simp [tilesEnd]

/-- Consuming the current token into a leaf node whose unparse is exactly
the token's bytes and whose span is the token's span. -/
theorem consume_adv (s : PCtx) (n : Node) (hWF : WF s) (hht : s.haveToken = true)
    (he : s.err = false)
    (hun : unparseN n = s.src.take s.tok.len)
    (hsp : leafSpansN n = [(s.offset, s.tok.len)]) :
    Adv s (consumeToken (some n) s) := by
  have hlen : s.tok.len ≤ s.src.length := nextTok_len_le _ _ (hWF hht)
  have hd : (consumeToken (some n) s).consumed - s.consumed = s.tok.len := by
    simp [consumeToken]
  refine ⟨?_, ?_, ?_, ?_, ?_, fun he' => ?_⟩
  · intro _ hht'
    simp [consumeToken] at hht'
  · simp [consumeToken]
  · rw [hd]
    rfl
  · rw [hd]
    exact hlen
  · rw [hd]
    rfl
  · refine ⟨he, [n], by simp [consumeToken], ?_, ?_⟩
    · rw [hd]
      simpa using hun
    · rw [show ((([n].map leafSpansN).flatten) = [(s.offset, s.tok.len)]) from by simpa using hsp]
      simp [tilesEnd, consumeToken]

theorem take_len_length (s : PCtx) (hWF : WF s) (hht : s.haveToken = true) :
    (readToken s).length = s.tok.len := by
  have hlen : s.tok.len ≤ s.src.length := nextTok_len_le _ _ (hWF hht)
  unfold readToken
  rw [List.length_take]
  omega

/-- Go `parseCtx.space` advances. -/
theorem spaceP_adv (s : PCtx) (hWF : WF s) : Adv s (spaceP s) := by
  unfold spaceP
  dsimp only
  by_cases h1 : (ensureToken s).err = true
  · rw [if_pos h1]
    exact ensureToken_adv s
  · rw [if_neg h1]
    by_cases h2 : (ensureToken s).tok.kind = TokKind.space
    · rw [if_neg (not_not_intro h2)]
      refine adv_trans (ensureToken_adv s) ?_
      have hw1 : WF (ensureToken s) := ensureToken_wf s hWF
      have hht : (ensureToken s).haveToken = true := ensureToken_ht s (by simpa using h1)
      refine consume_adv _ _ hw1 hht (by simpa using h1) rfl ?_
      rw [show leafSpansN (.spaceN (readToken (ensureToken s)) (ensureToken s).offset) =
        [((ensureToken s).offset, (readToken (ensureToken s)).length)] from rfl]
      rw [take_len_length _ hw1 hht]
    · rw [if_pos h2]
      exact ensureToken_adv s

/-- Go `parseCtx.ident` advances. -/
theorem identP_adv (s : PCtx) (hWF : WF s) : Adv s (identP s) := by
  unfold identP
  dsimp only
  by_cases h1 : (ensureToken s).err = true
  · rw [if_pos h1]
    exact ensureToken_adv s
  · rw [if_neg h1]
    by_cases h2 : (ensureToken s).tok.kind = TokKind.ident
    · rw [if_neg (not_not_intro h2)]
      refine adv_trans (ensureToken_adv s) ?_
      have hw1 : WF (ensureToken s) := ensureToken_wf s hWF
      have hht : (ensureToken s).haveToken = true := ensureToken_ht s (by simpa using h1)
      refine consume_adv _ _ hw1 hht (by simpa using h1) rfl ?_
      rw [show leafSpansN (.identN (readToken (ensureToken s)) (ensureToken s).offset) =
        [((ensureToken s).offset, (readToken (ensureToken s)).length)] from rfl]
      rw [take_len_length _ hw1 hht]
    · rw [if_pos h2]
      exact adv_trans (ensureToken_adv s) (adv_err _)

/-- Go `parseCtx.int` advances. -/
theorem intP_adv (s : PCtx) (hWF : WF s) : Adv s (intP s) := by
  unfold intP
  dsimp only
  by_cases h1 : (ensureToken s).err = true
  · rw [if_pos h1]
    exact ensureToken_adv s
  · rw [if_neg h1]
    by_cases h2 : isNumKind (ensureToken s).tok.kind = true
    · rw [if_neg (not_not_intro h2)]
      cases hv : newIntLitVal (readToken (ensureToken s)) (ensureToken s).tok.kind with
      | none => exact adv_trans (ensureToken_adv s) (adv_err _)
      | some v =>
          refine adv_trans (ensureToken_adv s) ?_
          have hw1 : WF (ensureToken s) := ensureToken_wf s hWF
          have hht : (ensureToken s).haveToken = true := ensureToken_ht s (by simpa using h1)
          refine consume_adv _ _ hw1 hht (by simpa using h1) rfl ?_
          rw [show leafSpansN (.intLitN (readToken (ensureToken s)) v (ensureToken s).offset) =
            [((ensureToken s).offset, (readToken (ensureToken s)).length)] from rfl]
          rw [take_len_length _ hw1 hht]
    · rw [if_pos h2]
      exact adv_trans (ensureToken_adv s) (adv_err _)

/-- Go `parseCtx.text` advances. -/
theorem textP_adv (s : PCtx) (hWF : WF s) : Adv s (textP s) := by
  unfold textP
  dsimp only
  by_cases h1 : (ensureToken s).err = true
  · rw [if_pos h1]
    exact ensureToken_adv s
  · rw [if_neg h1]
    by_cases h2 : (ensureToken s).tok.kind = TokKind.textLit
    · rw [if_neg (not_not_intro h2)]
      by_cases h3 : newTextLitOk (readToken (ensureToken s)) = true
      · rw [if_pos h3]
        refine adv_trans (ensureToken_adv s) ?_
        have hw1 : WF (ensureToken s) := ensureToken_wf s hWF
        have hht : (ensureToken s).haveToken = true := ensureToken_ht s (by simpa using h1)
        refine consume_adv _ _ hw1 hht (by simpa using h1) rfl ?_
        rw [show leafSpansN (.textLitN (readToken (ensureToken s)) (ensureToken s).offset) =
          [((ensureToken s).offset, (readToken (ensureToken s)).length)] from rfl]
        rw [take_len_length _ hw1 hht]
      · rw [if_neg h3]
        exact adv_trans (ensureToken_adv s) (adv_err _)
    · rw [if_pos h2]
      exact adv_trans (ensureToken_adv s) (adv_err _)

/-- Go `parseCtx.tryKeyword` advances. -/
theorem tryKeywordP_adv (kw : List Nat) (s : PCtx) (hWF : WF s) :
    Adv s (tryKeywordP kw s).1 := by
  unfold tryKeywordP
  dsimp only
  by_cases h1 : (ensureToken s).err = true
  · rw [if_pos h1]
    exact ensureToken_adv s
  · rw [if_neg h1]
    by_cases h2 : (ensureToken s).tok.kind = TokKind.ident
    · rw [if_neg (not_not_intro h2)]
      by_cases h3 : readToken (ensureToken s) = kw
      · rw [if_neg (not_not_intro h3)]
        refine adv_trans (ensureToken_adv s) ?_
        have hw1 : WF (ensureToken s) := ensureToken_wf s hWF
        have hht : (ensureToken s).haveToken = true := ensureToken_ht s (by simpa using h1)
        refine consume_adv _ _ hw1 hht (by simpa using h1) (by rw [← h3]; rfl) ?_
        rw [show leafSpansN (.keywordN kw (ensureToken s).offset) =
          [((ensureToken s).offset, kw.length)] from rfl]
        rw [← h3, take_len_length _ hw1 hht]
      · rw [if_pos h3]
        exact ensureToken_adv s
    · rw [if_pos h2]
      exact ensureToken_adv s

/-- Go `parseCtx.sigil` advances (for an actual sigil token kind). -/
theorem sigilP_adv (k : TokKind) (hk : isSig k = true) (s : PCtx) (hWF : WF s) :
    Adv s (sigilP k s) := by
  unfold sigilP
  dsimp only
  by_cases h1 : (ensureToken s).err = true
  · rw [if_pos h1]
    exact ensureToken_adv s
  · rw [if_neg h1]
    by_cases h2 : (ensureToken s).tok.kind = k
    · rw [if_neg (not_not_intro h2)]
      refine adv_trans (ensureToken_adv s) ?_
      have hw1 : WF (ensureToken s) := ensureToken_wf s hWF
      have hht : (ensureToken s).haveToken = true := ensureToken_ht s (by simpa using h1)
      have htk : nextTok (ensureToken s).src = some (ensureToken s).tok := hw1 hht
      have hsig := nextTok_sigil _ _ htk (by rw [h2]; exact hk)
      refine consume_adv _ _ hw1 hht (by simpa using h1) ?_ ?_
      · rw [show unparseN (.sigilN ((ensureToken s).src.headD 0) (ensureToken s).offset) =
          [(ensureToken s).src.headD 0] from rfl, hsig.1, ← hsig.2]
      · rw [show leafSpansN (.sigilN ((ensureToken s).src.headD 0) (ensureToken s).offset) =
          [((ensureToken s).offset, 1)] from rfl, hsig.1]
    · rw [if_pos h2]
      exact adv_trans (ensureToken_adv s) (adv_err _)

/-- Go `parseCtx.trySigil` advances. -/
theorem trySigilP_adv (k : TokKind) (hk : isSig k = true) (s : PCtx) (hWF : WF s) :
    Adv s (trySigilP k s).1 := by
  unfold trySigilP
  dsimp only
  by_cases h1 : (ensureToken s).err = true
  · rw [if_pos h1]
    exact ensureToken_adv s
  · rw [if_neg h1]
    by_cases h2 : (ensureToken s).tok.kind = k
    · rw [if_neg (not_not_intro h2)]
      refine adv_trans (ensureToken_adv s) ?_
      have hw1 : WF (ensureToken s) := ensureToken_wf s hWF
      have hht : (ensureToken s).haveToken = true := ensureToken_ht s (by simpa using h1)
      have htk : nextTok (ensureToken s).src = some (ensureToken s).tok := hw1 hht
      have hsig := nextTok_sigil _ _ htk (by rw [h2]; exact hk)
      refine consume_adv _ _ hw1 hht (by simpa using h1) ?_ ?_
      · rw [show unparseN (.sigilN ((ensureToken s).src.headD 0) (ensureToken s).offset) =
          [(ensureToken s).src.headD 0] from rfl, hsig.1, ← hsig.2]
      · rw [show leafSpansN (.sigilN ((ensureToken s).src.headD 0) (ensureToken s).offset) =
          [((ensureToken s).offset, 1)] from rfl, hsig.1]
    · rw [if_pos h2]
      exact ensureToken_adv s

/-- A loop whose body advances advances. -/
theorem loopF_adv (body : PCtx → PCtx × Bool)
    (hb : ∀ s, WF s → Adv s (body s).1) :
    ∀ fuel s, WF s → Adv s (loopF body fuel s) := by
  intro fuel
  induction fuel with
  | zero => intro s hWF; exact adv_err s
  | succ fuel ih =>
      intro s hWF
      unfold loopF
      dsimp only
      by_cases hc : (body s).2 = true
      · rw [if_neg (not_not_intro hc)]
        by_cases he : (body s).1.err = true
        · rw [if_pos he]
          exact hb s hWF
        · rw [if_neg he]
          by_cases hp : (body s).1.consumed = s.consumed
          · rw [if_pos hp]
            exact hb s hWF
          · rw [if_neg hp]
            exact adv_trans (hb s hWF) (ih (body s).1 ((hb s hWF).wf hWF))
      · rw [if_pos (by simpa using hc)]
        exact hb s hWF

theorem runLoop_adv (body : PCtx → PCtx × Bool)
    (hb : ∀ s, WF s → Adv s (body s).1) (s : PCtx) (hWF : WF s) :
    Adv s (runLoop body s) := by
  unfold runLoop
  split_ifs
  · exact adv_rfl s
  · exact loopF_adv body hb _ s hWF

theorem commentsBody_adv (s : PCtx) (hWF : WF s) : Adv s (commentsBody s).1 := by
  unfold commentsBody
  dsimp only
  by_cases h1 : (ensureToken s).err = true
  · rw [if_pos h1]
    exact ensureToken_adv s
  · rw [if_neg h1]
    have hw1 : WF (ensureToken s) := ensureToken_wf s hWF
    have hht : (ensureToken s).haveToken = true := ensureToken_ht s (by simpa using h1)
    have htk : nextTok (ensureToken s).src = some (ensureToken s).tok := hw1 hht
    have he1 : (ensureToken s).err = false := by simpa using h1
    split
    · refine adv_trans (ensureToken_adv s) ?_
      refine consume_adv _ _ hw1 hht he1 rfl ?_
      rw [show leafSpansN (.spaceN (readToken (ensureToken s)) (ensureToken s).offset) =
        [((ensureToken s).offset, (readToken (ensureToken s)).length)] from rfl]
      rw [take_len_length _ hw1 hht]
    · refine adv_trans (ensureToken_adv s) ?_
      have hnl := nextTok_newline _ _ htk (by assumption)
      refine consume_adv _ _ hw1 hht he1 ?_ ?_
      · rcases hnl with ⟨hl, ht⟩ | ⟨hl, ht⟩
        · rw [hl, ht]
          simp [unparseN]
        · rw [hl, ht]
          simp [unparseN]
      · rcases hnl with ⟨hl, _⟩ | ⟨hl, _⟩
        · rw [hl]
          simp [leafSpansN]
        · rw [hl]
          simp [leafSpansN]
    · refine adv_trans (ensureToken_adv s) ?_
      refine consume_adv _ _ hw1 hht he1 rfl ?_
      rw [show leafSpansN (.commentN (readToken (ensureToken s)) (ensureToken s).offset) =
        [((ensureToken s).offset, (readToken (ensureToken s)).length)] from rfl]
      rw [take_len_length _ hw1 hht]
    · exact ensureToken_adv s

theorem commentsP_adv (s : PCtx) (hWF : WF s) : Adv s (commentsP s) :=
  runLoop_adv commentsBody commentsBody_adv s hWF

/-- The contract of a node-producing parse function result, as used
through `parseChild`: from a fresh child context it advances, and on a
non-error return that consumed input it produces a node unparsing to
exactly the consumed bytes, its leaf spans tiling them. -/
@[reducible] def SpecOut (s : PCtx) (r : Option Node × Bool × PCtx) : Prop :=
  Adv s r.2.2 ∧
  (r.2.1 = false → r.2.2.consumed ≠ 0 →
    r.2.2.err = false ∧
    ∃ n, r.1 = some n ∧
      unparseN n = s.src.take r.2.2.consumed ∧
      tilesEnd s.offset (leafSpansN n) = some (s.offset + r.2.2.consumed))

def FnSpec (f : PCtx → Option Node × Bool × PCtx) : Prop :=
  ∀ s, WF s → s.err = false → s.consumed = 0 → s.kids = [] → SpecOut s (f s)

/-- Go `parseCtx.finish` turns an advancing body into a conforming parse
function result. -/
theorem finishP_spec_of (s0 s1 : PCtx) (k : CompKind) (hadv : Adv s0 s1)
    (hc0 : s0.consumed = 0) (hk0 : s0.kids = []) :
    SpecOut s0 (finishP k s1) := by
  unfold finishP
  by_cases he : s1.err = true
  · rw [if_pos he]
    exact ⟨hadv, fun h _ => by simp at h⟩
  · rw [if_neg he]
    refine ⟨hadv, fun _ _ => ⟨by simpa using he, ?_⟩⟩
    obtain ⟨_, ks, hk, hu, ht⟩ := hadv.ok (by simpa using he)
    rw [hk0] at hk
    simp at hk
    refine ⟨_, rfl, ?_, ?_⟩
    · rw [show unparseN (.compN k ⟨s1.offset - s1.consumed, s1.consumed⟩
        (NodeList.ofList s1.kids)) = unparseL (NodeList.ofList s1.kids) from rfl]
      rw [unparseL_ofList, hk, hu, hc0]
      simp
    · rw [show leafSpansN (.compN k ⟨s1.offset - s1.consumed, s1.consumed⟩
        (NodeList.ofList s1.kids)) = leafSpansL (NodeList.ofList s1.kids) from rfl]
      rw [leafSpansL_ofList, hk, ht, hadv.off_eq, hc0]
      simp

theorem tryKeywordP_fail (kw : List Nat) (s : PCtx)
    (h : (tryKeywordP kw s).2 = false) : (tryKeywordP kw s).1.consumed = s.consumed := by
  unfold tryKeywordP at *
  dsimp only at *
  split_ifs at * <;> simp_all [ensureToken_consumed]

theorem trySigilP_fail (k : TokKind) (s : PCtx)
    (h : (trySigilP k s).2 = false) : (trySigilP k s).1.consumed = s.consumed := by
  unfold trySigilP at *
  dsimp only at *
  split_ifs at * <;> simp_all [ensureToken_consumed]

/-- Go `parseChild` of a conforming parse function advances the parent. -/
theorem parseChildP_adv (f : PCtx → Option Node × Bool × PCtx) (hf : FnSpec f)
    (s : PCtx) (hWF : WF s) : Adv s (parseChildP f s).2.2 := by
  unfold parseChildP
  by_cases hse : s.err = true
  · rw [if_pos hse]
    exact adv_rfl s
  · rw [if_neg hse]
    dsimp only
    obtain ⟨hadv, hnode⟩ :=
      hf ⟨s.src, s.haveToken, s.tok, [], false, 0, s.offset⟩ (fun h => hWF h) rfl rfl rfl
    by_cases he : (f ⟨s.src, s.haveToken, s.tok, [], false, 0, s.offset⟩).2.1 = true
    · rw [if_pos he]
      exact adv_err s
    · rw [if_neg he]
      by_cases hz : (f ⟨s.src, s.haveToken, s.tok, [], false, 0, s.offset⟩).2.2.consumed = 0
      · rw [if_pos hz]
        have hsrc1 : (f ⟨s.src, s.haveToken, s.tok, [], false, 0, s.offset⟩).2.2.src = s.src := by
          have := hadv.src_eq
          rw [hz] at this
          simpa using this
        refine ⟨?_, le_refl _, by simp, by simp, by simp, fun he' => ?_⟩
        · intro _ hht
          have hwc1 := hadv.wf (fun h => hWF h)
          simp only at hht
          have := hwc1 hht
          rwa [hsrc1] at this
        · exact ⟨by simpa using hse, [], by simp, by simp, by simp [tilesEnd]⟩
      · rw [if_neg hz]
        obtain ⟨hce, n, hn, hun, htl⟩ := hnode (by simpa using he) hz
        have hwc1 := hadv.wf (fun h => hWF h)
        have hsrc1 : (f ⟨s.src, s.haveToken, s.tok, [], false, 0, s.offset⟩).2.2.src =
            s.src.drop (f ⟨s.src, s.haveToken, s.tok, [], false, 0, s.offset⟩).2.2.consumed := by
          have := hadv.src_eq
          simpa using this
        have hoff1 : (f ⟨s.src, s.haveToken, s.tok, [], false, 0, s.offset⟩).2.2.offset =
            s.offset + (f ⟨s.src, s.haveToken, s.tok, [], false, 0, s.offset⟩).2.2.consumed := by
          have := hadv.off_eq
          simpa using this
        have hdle1 := hadv.dle
        refine ⟨?_, by simp, by simp, by simpa using hdle1, by simp [hoff1], fun he' => ?_⟩
        · intro _ hht
          simp only at hht
          have := hwc1 hht
          rwa [hsrc1] at this
        · refine ⟨by simpa using hse, [n], ?_, ?_, ?_⟩
          · simp [hn]
          · simp only [List.map_cons, List.map_nil, List.flatten_cons, List.flatten_nil,
              List.append_nil]
            rw [hun]
            simp
          · simp only [List.map_cons, List.map_nil, List.flatten_cons, List.flatten_nil,
              List.append_nil]
            rw [htl]
            simp [hoff1]

theorem specOut_err {s s1 : PCtx} (h : Adv s s1) :
    SpecOut s ((none : Option Node), true, s1) :=
  ⟨h, fun hh _ => by simp at hh⟩

theorem specOut_nomatch {s s1 : PCtx} (h : Adv s s1) (hc : s.consumed = 0)
    (he : s1.consumed = s.consumed) :
    SpecOut s ((none : Option Node), false, s1) :=
  ⟨h, fun _ hnz => absurd (he.trans hc) hnz⟩

/-- Chain one advancing state transformer onto an `Adv` prefix. -/
theorem adv_step {s t : PCtx} (g : PCtx → PCtx) (hg : ∀ u, WF u → Adv u (g u))
    (hw : WF s) (h : Adv s t) : Adv s (g t) :=
  adv_trans h (hg t (h.wf hw))

/-! ## The parse functions (part_010 lines 949-1894)

Sequential Go statements become nested applications; the node pointers
returned by `ctx.ident()` etc. are dropped (they are also appended to
`childNodes`, which is what `UnparseTo` uses).  Early `return nil, err`
becomes `(none, true, s)`; `return nil, nil` becomes `(none, false, s)`. -/

def kwNamespace : List Nat := [110, 97, 109, 101, 115, 112, 97, 99, 101]

def kwImport : List Nat := [105, 109, 112, 111, 114, 116]

def kwAs : List Nat := [97, 115]

def kwExport : List Nat := [101, 120, 112, 111, 114, 116]

def kwOptions : List Nat := [111, 112, 116, 105, 111, 110, 115]

def kwConst : List Nat := [99, 111, 110, 115, 116]

def kwEnum : List Nat := [101, 110, 117, 109]

def kwStruct : List Nat := [115, 116, 114, 117, 99, 116]

def kwMessage : List Nat := [109, 101, 115, 115, 97, 103, 101]

def kwUnion : List Nat := [117, 110, 105, 111, 110]

def kwProtocol : List Nat := [112, 114, 111, 116, 111, 99, 111, 108]

def kwRpc : List Nat := [114, 112, 99]

def kwEvent : List Nat := [101, 118, 101, 110, 116]

def kwStream : List Nat := [115, 116, 114, 101, 97, 109]

/-- Go `parseTypeName` (`parseValueName` and `parseExportName` are textually
identical up to the node type). -/
def parseNameF (k : CompKind) (s : PCtx) : Option Node × Bool × PCtx :=
  let s1 := ensureToken s
  if s1.err then (none, true, s1)
  else if s1.tok.kind ≠ .ident then (none, true, s1)
  else
    let s2 := identP s1
    let r3 := trySigilP .dotSig s2
    let s4 := if r3.2 then identP r3.1 else r3.1
    finishP k s4

def parseTypeNameF (s : PCtx) : Option Node × Bool × PCtx := parseNameF .typeNameC s

def parseValueNameF (s : PCtx) : Option Node × Bool × PCtx := parseNameF .valueNameC s

def parseExportNameF (s : PCtx) : Option Node × Bool × PCtx := parseNameF .exportNameC s

theorem parseNameF_spec (k : CompKind) : FnSpec (parseNameF k) := by
  intro s hWF he hc hk
  unfold parseNameF
  dsimp only
  by_cases h1 : (ensureToken s).err = true
  · rw [if_pos h1]
    exact specOut_err (ensureToken_adv s)
  · rw [if_neg h1]
    by_cases h2 : (ensureToken s).tok.kind = TokKind.ident
    · rw [if_neg (not_not_intro h2)]
      refine finishP_spec_of _ _ _ ?_ hc hk
      by_cases h3 : (trySigilP .dotSig (identP (ensureToken s))).2 = true
      · rw [if_pos h3]
        exact adv_step identP identP_adv hWF
          (adv_step (fun u => (trySigilP .dotSig u).1) (fun u hu => trySigilP_adv .dotSig rfl u hu)
            hWF (adv_step identP identP_adv hWF (ensureToken_adv s)))
      · rw [if_neg h3]
        exact adv_step (fun u => (trySigilP .dotSig u).1) (fun u hu => trySigilP_adv .dotSig rfl u hu)
          hWF (adv_step identP identP_adv hWF (ensureToken_adv s))
    · rw [if_pos h2]
      exact specOut_err (ensureToken_adv s)

theorem parseTypeNameF_spec : FnSpec parseTypeNameF := parseNameF_spec .typeNameC

theorem parseValueNameF_spec : FnSpec parseValueNameF := parseNameF_spec .valueNameC

theorem parseExportNameF_spec : FnSpec parseExportNameF := parseNameF_spec .exportNameC

/-- Go `parseEnumRef`. -/
def parseEnumRefF (s : PCtx) : Option Node × Bool × PCtx :=
  finishP .enumRefC (identP (sigilP .dotSig s))

theorem parseEnumRefF_spec : FnSpec parseEnumRefF := by
  intro s hWF he hc hk
  unfold parseEnumRefF
  refine finishP_spec_of _ _ _ ?_ hc hk
  exact adv_step identP identP_adv hWF
    (adv_step (sigilP .dotSig) (fun u hu => sigilP_adv .dotSig rfl u hu) hWF (adv_rfl s))

/-- Go `parseValue`: the `Bool` is whether a value node was produced
(`node != nil`). -/
def parseValueV (s : PCtx) : Bool × PCtx :=
  let s1 := ensureToken s
  if s1.err then (false, s1)
  else if isNumKind s1.tok.kind then
    let s2 := intP s1
    (s2.err = false, s2)
  else if s1.tok.kind = .textLit then
    let s2 := textP s1
    (s2.err = false, s2)
  else if s1.tok.kind = .dotSig then
    let r := parseChildP parseEnumRefF s1
    (r.1.isSome, r.2.2)
  else if s1.tok.kind = .ident then
    let r := parseChildP parseValueNameF s1
    (r.2.1, r.2.2)
  else (false, s1)

theorem parseValueV_adv (s : PCtx) (hWF : WF s) : Adv s (parseValueV s).2 := by
  unfold parseValueV
  dsimp only
  have hw1 : WF (ensureToken s) := ensureToken_wf s hWF
  by_cases h1 : (ensureToken s).err = true
  · rw [if_pos h1]
    exact ensureToken_adv s
  · rw [if_neg h1]
    by_cases h2 : isNumKind (ensureToken s).tok.kind = true
    · rw [if_pos h2]
      exact adv_step intP intP_adv hWF (ensureToken_adv s)
    · rw [if_neg h2]
      by_cases h3 : (ensureToken s).tok.kind = TokKind.textLit
      · rw [if_pos h3]
        exact adv_step textP textP_adv hWF (ensureToken_adv s)
      · rw [if_neg h3]
        by_cases h4 : (ensureToken s).tok.kind = TokKind.dotSig
        · rw [if_pos h4]
          exact adv_step (fun u => (parseChildP parseEnumRefF u).2.2)
            (fun u hu => parseChildP_adv _ parseEnumRefF_spec u hu) hWF (ensureToken_adv s)
        · rw [if_neg h4]
          by_cases h5 : (ensureToken s).tok.kind = TokKind.ident
          · rw [if_pos h5]
            exact adv_step (fun u => (parseChildP parseValueNameF u).2.2)
              (fun u hu => parseChildP_adv _ parseValueNameF_spec u hu) hWF (ensureToken_adv s)
          · rw [if_neg h5]
            exact ensureToken_adv s

/-- Go `parseConstValue` / `parseOptionValue` (identical up to the error). -/
def parseValueReqV (s : PCtx) : PCtx :=
  let r := parseValueV s
  if ¬ r.1 ∧ r.2.err = false then { r.2 with err := true } else r.2

theorem parseValueReqV_adv (s : PCtx) (hWF : WF s) : Adv s (parseValueReqV s) := by
  unfold parseValueReqV
  dsimp only
  split_ifs with h
  · exact adv_trans (parseValueV_adv s hWF) (adv_err _)
  · exact parseValueV_adv s hWF

/-- Loop body of `parseOptionName`. -/
def optionNameLoopBody (s : PCtx) : PCtx × Bool :=
  let r := trySigilP .dotSig s
  if r.2 then (identP r.1, true) else (r.1, false)

theorem optionNameLoopBody_adv (s : PCtx) (hw : WF s) : Adv s (optionNameLoopBody s).1 := by
  unfold optionNameLoopBody
  dsimp only
  by_cases h : (trySigilP .dotSig s).2 = true
  · rw [if_pos h]
    exact adv_step identP identP_adv hw
      (adv_step (fun u => (trySigilP .dotSig u).1) (fun u hu => trySigilP_adv .dotSig rfl u hu)
        hw (adv_rfl s))
  · rw [if_neg h]
    exact trySigilP_adv .dotSig rfl s hw

/-- Go `parseOptionName`. -/
def parseOptionNameF (s : PCtx) : Option Node × Bool × PCtx :=
  let s1 := ensureToken s
  if s1.err then (none, true, s1)
  else if s1.tok.kind ≠ .ident then (none, true, s1)
  else finishP .optionNameC (runLoop optionNameLoopBody (identP s1))

theorem parseOptionNameF_spec : FnSpec parseOptionNameF := by
  intro s hWF he hc hk
  unfold parseOptionNameF
  dsimp only
  by_cases h1 : (ensureToken s).err = true
  · rw [if_pos h1]
    exact specOut_err (ensureToken_adv s)
  · rw [if_neg h1]
    by_cases h2 : (ensureToken s).tok.kind = TokKind.ident
    · rw [if_neg (not_not_intro h2)]
      refine finishP_spec_of _ _ _ ?_ hc hk
      exact adv_step (runLoop optionNameLoopBody)
        (fun u hu => runLoop_adv _ optionNameLoopBody_adv u hu) hWF
        (adv_step identP identP_adv hWF (ensureToken_adv s))
    · rw [if_pos h2]
      exact specOut_err (ensureToken_adv s)

/-- Go `parseOptionsOption`. -/
def parseOptionsOptionF (s : PCtx) : Option Node × Bool × PCtx :=
  finishP .optionsOptionC
    (parseValueReqV (spaceP (sigilP .eqSig (spaceP (parseChildP parseOptionNameF s).2.2))))

theorem parseOptionsOptionF_spec : FnSpec parseOptionsOptionF := by
  intro s hWF he hc hk
  unfold parseOptionsOptionF
  refine finishP_spec_of _ _ _ ?_ hc hk
  exact adv_step parseValueReqV parseValueReqV_adv hWF
    (adv_step spaceP spaceP_adv hWF
      (adv_step (sigilP .eqSig) (fun u hu => sigilP_adv .eqSig rfl u hu) hWF
        (adv_step spaceP spaceP_adv hWF
          (adv_step (fun u => (parseChildP parseOptionNameF u).2.2)
            (fun u hu => parseChildP_adv _ parseOptionNameF_spec u hu) hWF (adv_rfl s)))))

/-- Loop body of `parseOptions`. -/
def optionsLoopBody (s : PCtx) : PCtx × Bool :=
  let r := trySigilP .closeCurl s
  if r.2 then (r.1, false)
  else (commentsP (parseChildP parseOptionsOptionF r.1).2.2, true)

theorem optionsLoopBody_adv (s : PCtx) (hw : WF s) : Adv s (optionsLoopBody s).1 := by
  unfold optionsLoopBody
  dsimp only
  by_cases h : (trySigilP .closeCurl s).2 = true
  · rw [if_pos h]
    exact trySigilP_adv .closeCurl rfl s hw
  · rw [if_neg h]
    exact adv_step commentsP commentsP_adv hw
      (adv_step (fun u => (parseChildP parseOptionsOptionF u).2.2)
        (fun u hu => parseChildP_adv _ parseOptionsOptionF_spec u hu) hw
        (adv_step (fun u => (trySigilP .closeCurl u).1)
          (fun u hu => trySigilP_adv .closeCurl rfl u hu) hw (adv_rfl s)))

/-- Go `parseOptions`. -/
def parseOptionsF (s : PCtx) : Option Node × Bool × PCtx :=
  let r1 := tryKeywordP kwOptions s
  if ¬ r1.2 then (none, false, r1.1)
  else
    let s2 := spaceP r1.1
    let r3 := trySigilP .colon s2
    let s4 := if r3.2 then spaceP (parseChildP parseTypeNameF (spaceP r3.1)).2.2 else r3.1
    finishP .optionsC (runLoop optionsLoopBody (commentsP (sigilP .openCurl s4)))

theorem parseOptionsF_spec : FnSpec parseOptionsF := by
  intro s hWF he hc hk
  unfold parseOptionsF
  dsimp only
  by_cases h1 : (tryKeywordP kwOptions s).2 = true
  · rw [if_neg (not_not_intro h1)]
    refine finishP_spec_of _ _ _ ?_ hc hk
    have hpre : Adv s (spaceP (tryKeywordP kwOptions s).1) :=
      adv_step spaceP spaceP_adv hWF
        (adv_step (fun u => (tryKeywordP kwOptions u).1)
          (fun u hu => tryKeywordP_adv kwOptions u hu) hWF (adv_rfl s))
    have hmid : Adv s (if (trySigilP .colon (spaceP (tryKeywordP kwOptions s).1)).2 = true
        then spaceP (parseChildP parseTypeNameF
          (spaceP (trySigilP .colon (spaceP (tryKeywordP kwOptions s).1)).1)).2.2
        else (trySigilP .colon (spaceP (tryKeywordP kwOptions s).1)).1) := by
      by_cases h3 : (trySigilP .colon (spaceP (tryKeywordP kwOptions s).1)).2 = true
      · rw [if_pos h3]
        exact adv_step spaceP spaceP_adv hWF
          (adv_step (fun u => (parseChildP parseTypeNameF u).2.2)
            (fun u hu => parseChildP_adv _ parseTypeNameF_spec u hu) hWF
            (adv_step spaceP spaceP_adv hWF
              (adv_step (fun u => (trySigilP .colon u).1)
                (fun u hu => trySigilP_adv .colon rfl u hu) hWF hpre)))
      · rw [if_neg h3]
        exact adv_step (fun u => (trySigilP .colon u).1)
          (fun u hu => trySigilP_adv .colon rfl u hu) hWF hpre
    exact adv_step (runLoop optionsLoopBody)
      (fun u hu => runLoop_adv _ optionsLoopBody_adv u hu) hWF
      (adv_step commentsP commentsP_adv hWF
        (adv_step (sigilP .openCurl) (fun u hu => sigilP_adv .openCurl rfl u hu) hWF hmid))
  · rw [if_pos h1]
    exact specOut_nomatch (tryKeywordP_adv kwOptions s hWF) hc
      (tryKeywordP_fail kwOptions s (by simpa using h1))

/-- Go `parseOption`. -/
def parseOptionF (s : PCtx) : Option Node × Bool × PCtx :=
  let r1 := trySigilP .openCurl s
  if ¬ r1.2 then (none, false, r1.1)
  else
    let s2 := spaceP (parseChildP parseOptionNameF (spaceP r1.1)).2.2
    let r3 := trySigilP .eqSig s2
    let s4 := if r3.2 then parseValueReqV (spaceP r3.1) else r3.1
    finishP .optionC (sigilP .closeCurl (spaceP s4))

theorem parseOptionF_spec : FnSpec parseOptionF := by
  intro s hWF he hc hk
  unfold parseOptionF
  dsimp only
  by_cases h1 : (trySigilP .openCurl s).2 = true
  · rw [if_neg (not_not_intro h1)]
    refine finishP_spec_of _ _ _ ?_ hc hk
    have hpre : Adv s (spaceP (parseChildP parseOptionNameF
        (spaceP (trySigilP .openCurl s).1)).2.2) :=
      adv_step spaceP spaceP_adv hWF
        (adv_step (fun u => (parseChildP parseOptionNameF u).2.2)
          (fun u hu => parseChildP_adv _ parseOptionNameF_spec u hu) hWF
          (adv_step spaceP spaceP_adv hWF
            (adv_step (fun u => (trySigilP .openCurl u).1)
              (fun u hu => trySigilP_adv .openCurl rfl u hu) hWF (adv_rfl s))))
    have hmid : Adv s (if (trySigilP .eqSig (spaceP (parseChildP parseOptionNameF
          (spaceP (trySigilP .openCurl s).1)).2.2)).2 = true
        then parseValueReqV (spaceP (trySigilP .eqSig (spaceP (parseChildP parseOptionNameF
          (spaceP (trySigilP .openCurl s).1)).2.2)).1)
        else (trySigilP .eqSig (spaceP (parseChildP parseOptionNameF
          (spaceP (trySigilP .openCurl s).1)).2.2)).1) := by
      by_cases h3 : (trySigilP .eqSig (spaceP (parseChildP parseOptionNameF
          (spaceP (trySigilP .openCurl s).1)).2.2)).2 = true
      · rw [if_pos h3]
        exact adv_step parseValueReqV parseValueReqV_adv hWF
          (adv_step spaceP spaceP_adv hWF
            (adv_step (fun u => (trySigilP .eqSig u).1)
              (fun u hu => trySigilP_adv .eqSig rfl u hu) hWF hpre))
      · rw [if_neg h3]
        exact adv_step (fun u => (trySigilP .eqSig u).1)
          (fun u hu => trySigilP_adv .eqSig rfl u hu) hWF hpre
    exact adv_step (sigilP .closeCurl) (fun u hu => sigilP_adv .closeCurl rfl u hu) hWF
      (adv_step spaceP spaceP_adv hWF hmid)
  · rw [if_pos h1]
    exact specOut_nomatch (trySigilP_adv .openCurl rfl s hWF) hc
      (trySigilP_fail .openCurl s (by simpa using h1))

/-- Go `parseDecorator`. -/
def parseDecoratorF (s : PCtx) : Option Node × Bool × PCtx :=
  let r1 := trySigilP .atSig s
  if ¬ r1.2 then (none, false, r1.1)
  else
    let ra := parseChildP parseOptionsF r1.1
    let rb := if ¬ ra.2.1 ∧ ra.2.2.err = false then parseChildP parseOptionF ra.2.2 else ra
    if rb.2.2.err then (none, true, rb.2.2)
    else if ¬ rb.2.1 then (none, true, rb.2.2)
    else finishP .decoratorC rb.2.2

theorem parseDecoratorF_spec : FnSpec parseDecoratorF := by
  intro s hWF he hc hk
  unfold parseDecoratorF
  dsimp only
  by_cases h1 : (trySigilP .atSig s).2 = true
  · rw [if_neg (not_not_intro h1)]
    have hra : Adv s (parseChildP parseOptionsF (trySigilP .atSig s).1).2.2 :=
      adv_step (fun u => (parseChildP parseOptionsF u).2.2)
        (fun u hu => parseChildP_adv _ parseOptionsF_spec u hu) hWF
        (adv_step (fun u => (trySigilP .atSig u).1)
          (fun u hu => trySigilP_adv .atSig rfl u hu) hWF (adv_rfl s))
    set rb : Option Node × Bool × PCtx :=
      (if ¬ (parseChildP parseOptionsF (trySigilP .atSig s).1).2.1 ∧
          (parseChildP parseOptionsF (trySigilP .atSig s).1).2.2.err = false
        then parseChildP parseOptionF (parseChildP parseOptionsF (trySigilP .atSig s).1).2.2
        else parseChildP parseOptionsF (trySigilP .atSig s).1) with hrbdef
    have hrb : Adv s rb.2.2 := by
      rw [hrbdef]
      split_ifs with h2
      · exact adv_step (fun u => (parseChildP parseOptionF u).2.2)
          (fun u hu => parseChildP_adv _ parseOptionF_spec u hu) hWF hra
      · exact hra
    split_ifs with h3 h4
    · exact specOut_err hrb
    · exact finishP_spec_of _ _ _ hrb hc hk
    · exact specOut_err hrb
  · rw [if_pos h1]
    exact specOut_nomatch (trySigilP_adv .atSig rfl s hWF) hc
      (trySigilP_fail .atSig s (by simpa using h1))

/-- Loop body of `parseDecorators`. -/
def decoratorsLoopBody (s : PCtx) : PCtx × Bool :=
  let r := parseChildP parseDecoratorF s
  if r.2.1 then (commentsP r.2.2, true) else (r.2.2, true)

theorem decoratorsLoopBody_adv (s : PCtx) (hw : WF s) : Adv s (decoratorsLoopBody s).1 := by
  unfold decoratorsLoopBody
  dsimp only
  by_cases h : (parseChildP parseDecoratorF s).2.1 = true
  · rw [if_pos h]
    exact adv_step commentsP commentsP_adv hw
      (adv_step (fun u => (parseChildP parseDecoratorF u).2.2)
        (fun u hu => parseChildP_adv _ parseDecoratorF_spec u hu) hw (adv_rfl s))
  · rw [if_neg h]
    exact parseChildP_adv _ parseDecoratorF_spec s hw

/-- Go `parseDecorators`. -/
def parseDecoratorsV (s : PCtx) : PCtx := runLoop decoratorsLoopBody s

theorem parseDecoratorsV_adv (s : PCtx) (hw : WF s) : Adv s (parseDecoratorsV s) :=
  runLoop_adv _ decoratorsLoopBody_adv s hw

/-- Go `parseConst`. -/
def parseConstF (s : PCtx) : Option Node × Bool × PCtx :=
  let r1 := tryKeywordP kwConst s
  if ¬ r1.2 then (none, false, r1.1)
  else
    finishP .constC (parseValueReqV (spaceP (sigilP .eqSig (spaceP
      (parseChildP parseTypeNameF (spaceP (sigilP .colon (spaceP
        (identP (spaceP r1.1)))))).2.2))))

theorem parseConstF_spec : FnSpec parseConstF := by
  intro s hWF he hc hk
  unfold parseConstF
  dsimp only
  by_cases h1 : (tryKeywordP kwConst s).2 = true
  · rw [if_neg (not_not_intro h1)]
    refine finishP_spec_of _ _ _ ?_ hc hk
    exact adv_step parseValueReqV parseValueReqV_adv hWF
      (adv_step spaceP spaceP_adv hWF
        (adv_step (sigilP .eqSig) (fun u hu => sigilP_adv .eqSig rfl u hu) hWF
          (adv_step spaceP spaceP_adv hWF
            (adv_step (fun u => (parseChildP parseTypeNameF u).2.2)
              (fun u hu => parseChildP_adv _ parseTypeNameF_spec u hu) hWF
              (adv_step spaceP spaceP_adv hWF
                (adv_step (sigilP .colon) (fun u hu => sigilP_adv .colon rfl u hu) hWF
                  (adv_step spaceP spaceP_adv hWF
                    (adv_step identP identP_adv hWF
                      (adv_step spaceP spaceP_adv hWF
                        (adv_step (fun u => (tryKeywordP kwConst u).1)
                          (fun u hu => tryKeywordP_adv kwConst u hu) hWF (adv_rfl s)))))))))))
  · rw [if_pos h1]
    exact specOut_nomatch (tryKeywordP_adv kwConst s hWF) hc
      (tryKeywordP_fail kwConst s (by simpa using h1))

/-- Go `parseEnumItem`. -/
def parseEnumItemF (s : PCtx) : Option Node × Bool × PCtx :=
  let s4 := spaceP (sigilP .eqSig (spaceP (identP s)))
  let s5 := ensureToken s4
  if s5.err then (none, true, s5)
  else if s5.tok.kind = .dotSig then
    finishP .enumItemC (parseChildP parseEnumRefF s5).2.2
  else if s5.tok.kind = .ident then
    finishP .enumItemC (parseChildP parseValueNameF s5).2.2
  else finishP .enumItemC (intP s5)

theorem parseEnumItemF_spec : FnSpec parseEnumItemF := by
  intro s hWF he hc hk
  unfold parseEnumItemF
  dsimp only
  have hpre : Adv s (ensureToken (spaceP (sigilP .eqSig (spaceP (identP s))))) :=
    adv_step ensureToken (fun u _ => ensureToken_adv u) hWF
      (adv_step spaceP spaceP_adv hWF
        (adv_step (sigilP .eqSig) (fun u hu => sigilP_adv .eqSig rfl u hu) hWF
          (adv_step spaceP spaceP_adv hWF
            (adv_step identP identP_adv hWF (adv_rfl s)))))
  by_cases h1 : (ensureToken (spaceP (sigilP .eqSig (spaceP (identP s))))).err = true
  · rw [if_pos h1]
    exact specOut_err hpre
  · rw [if_neg h1]
    by_cases h2 : (ensureToken (spaceP (sigilP .eqSig (spaceP (identP s))))).tok.kind =
        TokKind.dotSig
    · rw [if_pos h2]
      refine finishP_spec_of _ _ _ ?_ hc hk
      exact adv_step (fun u => (parseChildP parseEnumRefF u).2.2)
        (fun u hu => parseChildP_adv _ parseEnumRefF_spec u hu) hWF hpre
    · rw [if_neg h2]
      by_cases h3 : (ensureToken (spaceP (sigilP .eqSig (spaceP (identP s))))).tok.kind =
          TokKind.ident
      · rw [if_pos h3]
        refine finishP_spec_of _ _ _ ?_ hc hk
        exact adv_step (fun u => (parseChildP parseValueNameF u).2.2)
          (fun u hu => parseChildP_adv _ parseValueNameF_spec u hu) hWF hpre
      · rw [if_neg h3]
        refine finishP_spec_of _ _ _ ?_ hc hk
        exact adv_step intP intP_adv hWF hpre

/-- Item loop body shared by `parseEnum`, `parseStruct`, `parseMessage`
and `parseUnion`: on no closing brace, decorators then one item. -/
def itemsLoopBody (item : PCtx → Option Node × Bool × PCtx) (s : PCtx) : PCtx × Bool :=
  let r := trySigilP .closeCurl s
  if r.2 then (r.1, false)
  else (commentsP (parseChildP item (parseDecoratorsV r.1)).2.2, true)

theorem itemsLoopBody_adv (item : PCtx → Option Node × Bool × PCtx) (hitem : FnSpec item)
    (s : PCtx) (hw : WF s) : Adv s (itemsLoopBody item s).1 := by
  unfold itemsLoopBody
  dsimp only
  by_cases h : (trySigilP .closeCurl s).2 = true
  · rw [if_pos h]
    exact trySigilP_adv .closeCurl rfl s hw
  · rw [if_neg h]
    exact adv_step commentsP commentsP_adv hw
      (adv_step (fun u => (parseChildP item u).2.2)
        (fun u hu => parseChildP_adv _ hitem u hu) hw
        (adv_step parseDecoratorsV parseDecoratorsV_adv hw
          (adv_step (fun u => (trySigilP .closeCurl u).1)
            (fun u hu => trySigilP_adv .closeCurl rfl u hu) hw (adv_rfl s))))

/-- Common shape of `parseEnum` (which has an extra `: type` header),
`parseStruct`, `parseMessage`, `parseUnion`: keyword, name, brace block
of decorated items. -/
def parseBlockF (kw : List Nat) (k : CompKind) (withType : Bool)
    (item : PCtx → Option Node × Bool × PCtx) (s : PCtx) : Option Node × Bool × PCtx :=
  let r1 := tryKeywordP kw s
  if ¬ r1.2 then (none, false, r1.1)
  else
    let s2 := spaceP (identP (spaceP r1.1))
    let s3 := if withType then spaceP (identP (spaceP (sigilP .colon s2))) else s2
    finishP k (runLoop (itemsLoopBody item) (commentsP (sigilP .openCurl s3)))

theorem parseBlockF_spec (kw : List Nat) (k : CompKind) (withType : Bool)
    (item : PCtx → Option Node × Bool × PCtx) (hitem : FnSpec item) :
    FnSpec (parseBlockF kw k withType item) := by
  intro s hWF he hc hk
  unfold parseBlockF
  dsimp only
  by_cases h1 : (tryKeywordP kw s).2 = true
  · rw [if_neg (not_not_intro h1)]
    refine finishP_spec_of _ _ _ ?_ hc hk
    have hpre : Adv s (spaceP (identP (spaceP (tryKeywordP kw s).1))) :=
      adv_step spaceP spaceP_adv hWF
        (adv_step identP identP_adv hWF
          (adv_step spaceP spaceP_adv hWF
            (adv_step (fun u => (tryKeywordP kw u).1)
              (fun u hu => tryKeywordP_adv kw u hu) hWF (adv_rfl s))))
    have hmid : Adv s (if withType = true
        then spaceP (identP (spaceP (sigilP .colon (spaceP (identP (spaceP
          (tryKeywordP kw s).1))))))
        else spaceP (identP (spaceP (tryKeywordP kw s).1))) := by
      cases withType with
      | false => simpa using hpre
      | true =>
          simp only [if_pos]
          exact adv_step spaceP spaceP_adv hWF
            (adv_step identP identP_adv hWF
              (adv_step spaceP spaceP_adv hWF
                (adv_step (sigilP .colon) (fun u hu => sigilP_adv .colon rfl u hu) hWF hpre)))
    exact adv_step (runLoop (itemsLoopBody item))
      (fun u hu => runLoop_adv _ (itemsLoopBody_adv item hitem) u hu) hWF
      (adv_step commentsP commentsP_adv hWF
        (adv_step (sigilP .openCurl) (fun u hu => sigilP_adv .openCurl rfl u hu) hWF hmid))
  · rw [if_pos h1]
    exact specOut_nomatch (tryKeywordP_adv kw s hWF) hc
      (tryKeywordP_fail kw s (by simpa using h1))

def parseEnumF (s : PCtx) : Option Node × Bool × PCtx :=
  parseBlockF kwEnum .enumC true parseEnumItemF s

theorem parseEnumF_spec : FnSpec parseEnumF :=
  parseBlockF_spec kwEnum .enumC true parseEnumItemF parseEnumItemF_spec

/-- Go `parseFieldType`. -/
def parseFieldTypeF (s : PCtx) : Option Node × Bool × PCtx :=
  let s1 := (parseChildP parseTypeNameF s).2.2
  let r2 := trySigilP .openSquare s1
  let s3 :=
    if r2.2 then
      let s2a := spaceP r2.1
      let r2b := trySigilP .closeSquare s2a
      if r2b.2 then r2b.1
      else sigilP .closeSquare (spaceP (intP r2b.1))
    else r2.1
  finishP .fieldTypeC s3

theorem parseFieldTypeF_spec : FnSpec parseFieldTypeF := by
  intro s hWF he hc hk
  unfold parseFieldTypeF
  dsimp only
  refine finishP_spec_of _ _ _ ?_ hc hk
  have hpre : Adv s (trySigilP .openSquare (parseChildP parseTypeNameF s).2.2).1 :=
    adv_step (fun u => (trySigilP .openSquare u).1)
      (fun u hu => trySigilP_adv .openSquare rfl u hu) hWF
      (adv_step (fun u => (parseChildP parseTypeNameF u).2.2)
        (fun u hu => parseChildP_adv _ parseTypeNameF_spec u hu) hWF (adv_rfl s))
  by_cases h2 : (trySigilP .openSquare (parseChildP parseTypeNameF s).2.2).2 = true
  · rw [if_pos h2]
    have hsp : Adv s (trySigilP .closeSquare
        (spaceP (trySigilP .openSquare (parseChildP parseTypeNameF s).2.2).1)).1 :=
      adv_step (fun u => (trySigilP .closeSquare u).1)
        (fun u hu => trySigilP_adv .closeSquare rfl u hu) hWF
        (adv_step spaceP spaceP_adv hWF hpre)
    by_cases h3 : (trySigilP .closeSquare
        (spaceP (trySigilP .openSquare (parseChildP parseTypeNameF s).2.2).1)).2 = true
    · rw [if_pos h3]
      exact hsp
    · rw [if_neg h3]
      exact adv_step (sigilP .closeSquare) (fun u hu => sigilP_adv .closeSquare rfl u hu) hWF
        (adv_step spaceP spaceP_adv hWF
          (adv_step intP intP_adv hWF hsp))
  · rw [if_neg h2]
    exact hpre

/-- Go `parseFieldTag`. -/
def parseFieldTagF (s : PCtx) : Option Node × Bool × PCtx :=
  finishP .tagC (intP (spaceP (sigilP .atSig s)))

theorem parseFieldTagF_spec : FnSpec parseFieldTagF := by
  intro s hWF he hc hk
  unfold parseFieldTagF
  refine finishP_spec_of _ _ _ ?_ hc hk
  exact adv_step intP intP_adv hWF
    (adv_step spaceP spaceP_adv hWF
      (adv_step (sigilP .atSig) (fun u hu => sigilP_adv .atSig rfl u hu) hWF (adv_rfl s)))

/-- Go `parseProtocolTag`. -/
def parseProtocolTagF (s : PCtx) : Option Node × Bool × PCtx :=
  let r1 := trySigilP .atSig s
  if ¬ r1.2 then (none, false, r1.1)
  else finishP .tagC (intP (spaceP r1.1))

theorem parseProtocolTagF_spec : FnSpec parseProtocolTagF := by
  intro s hWF he hc hk
  unfold parseProtocolTagF
  dsimp only
  by_cases h1 : (trySigilP .atSig s).2 = true
  · rw [if_neg (not_not_intro h1)]
    refine finishP_spec_of _ _ _ ?_ hc hk
    exact adv_step intP intP_adv hWF
      (adv_step spaceP spaceP_adv hWF
        (adv_step (fun u => (trySigilP .atSig u).1)
          (fun u hu => trySigilP_adv .atSig rfl u hu) hWF (adv_rfl s)))
  · rw [if_pos h1]
    exact specOut_nomatch (trySigilP_adv .atSig rfl s hWF) hc
      (trySigilP_fail .atSig s (by simpa using h1))

/-- Go `parseStructField`. -/
def parseStructFieldF (s : PCtx) : Option Node × Bool × PCtx :=
  finishP .structFieldC
    (parseChildP parseFieldTypeF (spaceP (sigilP .colon (spaceP (identP s))))).2.2

theorem parseStructFieldF_spec : FnSpec parseStructFieldF := by
  intro s hWF he hc hk
  unfold parseStructFieldF
  refine finishP_spec_of _ _ _ ?_ hc hk
  exact adv_step (fun u => (parseChildP parseFieldTypeF u).2.2)
    (fun u hu => parseChildP_adv _ parseFieldTypeF_spec u hu) hWF
    (adv_step spaceP spaceP_adv hWF
      (adv_step (sigilP .colon) (fun u hu => sigilP_adv .colon rfl u hu) hWF
        (adv_step spaceP spaceP_adv hWF
          (adv_step identP identP_adv hWF (adv_rfl s)))))

/-- Go `parseMessageField` / `parseUnionField` (identical up to node type). -/
def parseTaggedFieldF (k : CompKind) (s : PCtx) : Option Node × Bool × PCtx :=
  finishP k
    (parseChildP parseFieldTypeF (spaceP (sigilP .colon (spaceP
      (parseChildP parseFieldTagF (spaceP (identP s))).2.2)))).2.2

theorem parseTaggedFieldF_spec (k : CompKind) : FnSpec (parseTaggedFieldF k) := by
  intro s hWF he hc hk
  unfold parseTaggedFieldF
  refine finishP_spec_of _ _ _ ?_ hc hk
  exact adv_step (fun u => (parseChildP parseFieldTypeF u).2.2)
    (fun u hu => parseChildP_adv _ parseFieldTypeF_spec u hu) hWF
    (adv_step spaceP spaceP_adv hWF
      (adv_step (sigilP .colon) (fun u hu => sigilP_adv .colon rfl u hu) hWF
        (adv_step spaceP spaceP_adv hWF
          (adv_step (fun u => (parseChildP parseFieldTagF u).2.2)
            (fun u hu => parseChildP_adv _ parseFieldTagF_spec u hu) hWF
            (adv_step spaceP spaceP_adv hWF
              (adv_step identP identP_adv hWF (adv_rfl s)))))))

def parseStructF (s : PCtx) : Option Node × Bool × PCtx :=
  parseBlockF kwStruct .structC false parseStructFieldF s

theorem parseStructF_spec : FnSpec parseStructF :=
  parseBlockF_spec kwStruct .structC false parseStructFieldF parseStructFieldF_spec

def parseMessageF (s : PCtx) : Option Node × Bool × PCtx :=
  parseBlockF kwMessage .messageC false (parseTaggedFieldF .messageFieldC) s

theorem parseMessageF_spec : FnSpec parseMessageF :=
  parseBlockF_spec kwMessage .messageC false _ (parseTaggedFieldF_spec .messageFieldC)

def parseUnionF (s : PCtx) : Option Node × Bool × PCtx :=
  parseBlockF kwUnion .unionC false (parseTaggedFieldF .unionFieldC) s

theorem parseUnionF_spec : FnSpec parseUnionF :=
  parseBlockF_spec kwUnion .unionC false _ (parseTaggedFieldF_spec .unionFieldC)

/-- Chaining an alternative: `if decl, ok = parseChild(...); !ok && ctx.err == nil`. -/
theorem adv_try_chain {s : PCtx} (r : Option Node × Bool × PCtx)
    (f : PCtx → Option Node × Bool × PCtx) (hf : FnSpec f) (hw : WF s) (h : Adv s r.2.2) :
    Adv s (if ¬ r.2.1 ∧ r.2.2.err = false then parseChildP f r.2.2 else r).2.2 := by
  split_ifs with hcond
  · exact adv_step (fun u => (parseChildP f u).2.2)
      (fun u hu => parseChildP_adv f hf u hu) hw h
  · exact h

/-- Go `parseNamespace`. -/
def parseNamespaceF (s : PCtx) : Option Node × Bool × PCtx :=
  let r := tryKeywordP kwNamespace s
  if ¬ r.2 then (none, true, r.1)
  else finishP .namespaceC (textP (spaceP r.1))

theorem parseNamespaceF_spec : FnSpec parseNamespaceF := by
  intro s hWF he hc hk
  unfold parseNamespaceF
  dsimp only
  by_cases h1 : (tryKeywordP kwNamespace s).2 = true
  · rw [if_neg (not_not_intro h1)]
    refine finishP_spec_of _ _ _ ?_ hc hk
    exact adv_step textP textP_adv hWF
      (adv_step spaceP spaceP_adv hWF
        (adv_step (fun u => (tryKeywordP kwNamespace u).1)
          (fun u hu => tryKeywordP_adv kwNamespace u hu) hWF (adv_rfl s)))
  · rw [if_pos h1]
    exact specOut_err (tryKeywordP_adv kwNamespace s hWF)

/-- Import-names loop body (`{ A B C }` of `parseImport`). -/
def importNamesBody (s : PCtx) : PCtx × Bool :=
  let r := trySigilP .closeCurl s
  if r.2 then (r.1, false) else (commentsP (identP r.1), true)

theorem importNamesBody_adv (s : PCtx) (hw : WF s) : Adv s (importNamesBody s).1 := by
  unfold importNamesBody
  dsimp only
  by_cases h : (trySigilP .closeCurl s).2 = true
  · rw [if_pos h]
    exact trySigilP_adv .closeCurl rfl s hw
  · rw [if_neg h]
    exact adv_step commentsP commentsP_adv hw
      (adv_step identP identP_adv hw
        (adv_step (fun u => (trySigilP .closeCurl u).1)
          (fun u hu => trySigilP_adv .closeCurl rfl u hu) hw (adv_rfl s)))

/-- Go `parseImport`. -/
def parseImportF (s : PCtx) : Option Node × Bool × PCtx :=
  let r1 := tryKeywordP kwImport s
  if ¬ r1.2 then (none, false, r1.1)
  else
    let s2 := spaceP (textP (spaceP r1.1))
    let r3 := tryKeywordP kwAs s2
    let s4 :=
      if r3.2 then identP (spaceP r3.1)
      else runLoop importNamesBody (commentsP (sigilP .openCurl r3.1))
    finishP .importC s4

theorem parseImportF_spec : FnSpec parseImportF := by
  intro s hWF he hc hk
  unfold parseImportF
  dsimp only
  by_cases h1 : (tryKeywordP kwImport s).2 = true
  · rw [if_neg (not_not_intro h1)]
    refine finishP_spec_of _ _ _ ?_ hc hk
    have hpre : Adv s (tryKeywordP kwAs (spaceP (textP (spaceP (tryKeywordP kwImport s).1)))).1 :=
      adv_step (fun u => (tryKeywordP kwAs u).1) (fun u hu => tryKeywordP_adv kwAs u hu) hWF
        (adv_step spaceP spaceP_adv hWF
          (adv_step textP textP_adv hWF
            (adv_step spaceP spaceP_adv hWF
              (adv_step (fun u => (tryKeywordP kwImport u).1)
                (fun u hu => tryKeywordP_adv kwImport u hu) hWF (adv_rfl s)))))
    by_cases h3 : (tryKeywordP kwAs (spaceP (textP (spaceP (tryKeywordP kwImport s).1)))).2 = true
    · rw [if_pos h3]
      exact adv_step identP identP_adv hWF (adv_step spaceP spaceP_adv hWF hpre)
    · rw [if_neg h3]
      exact adv_step (runLoop importNamesBody)
        (fun u hu => runLoop_adv _ importNamesBody_adv u hu) hWF
        (adv_step commentsP commentsP_adv hWF
          (adv_step (sigilP .openCurl) (fun u hu => sigilP_adv .openCurl rfl u hu) hWF hpre))
  · rw [if_pos h1]
    exact specOut_nomatch (tryKeywordP_adv kwImport s hWF) hc
      (tryKeywordP_fail kwImport s (by simpa using h1))

/-- Export-names loop body. -/
def exportNamesBody (s : PCtx) : PCtx × Bool :=
  let r := trySigilP .closeCurl s
  if r.2 then (r.1, false)
  else (commentsP (parseChildP parseExportNameF r.1).2.2, true)

theorem exportNamesBody_adv (s : PCtx) (hw : WF s) : Adv s (exportNamesBody s).1 := by
  unfold exportNamesBody
  dsimp only
  by_cases h : (trySigilP .closeCurl s).2 = true
  · rw [if_pos h]
    exact trySigilP_adv .closeCurl rfl s hw
  · rw [if_neg h]
    exact adv_step commentsP commentsP_adv hw
      (adv_step (fun u => (parseChildP parseExportNameF u).2.2)
        (fun u hu => parseChildP_adv _ parseExportNameF_spec u hu) hw
        (adv_step (fun u => (trySigilP .closeCurl u).1)
          (fun u hu => trySigilP_adv .closeCurl rfl u hu) hw (adv_rfl s)))

/-- Go `parseExport`. -/
def parseExportF (s : PCtx) : Option Node × Bool × PCtx :=
  let r1 := tryKeywordP kwExport s
  if ¬ r1.2 then (none, false, r1.1)
  else
    let s2 := ensureToken (spaceP r1.1)
    if s2.err then (none, true, s2)
    else if s2.tok.kind = .ident then
      let s3 := spaceP (parseChildP parseExportNameF s2).2.2
      let r4 := tryKeywordP kwAs s3
      if ¬ r4.2 then (none, true, r4.1)
      else finishP .exportC (identP (spaceP r4.1))
    else finishP .exportC (runLoop exportNamesBody (commentsP (sigilP .openCurl s2)))

theorem parseExportF_spec : FnSpec parseExportF := by
  intro s hWF he hc hk
  unfold parseExportF
  dsimp only
  by_cases h1 : (tryKeywordP kwExport s).2 = true
  · rw [if_neg (not_not_intro h1)]
    have hpre : Adv s (ensureToken (spaceP (tryKeywordP kwExport s).1)) :=
      adv_step ensureToken (fun u _ => ensureToken_adv u) hWF
        (adv_step spaceP spaceP_adv hWF
          (adv_step (fun u => (tryKeywordP kwExport u).1)
            (fun u hu => tryKeywordP_adv kwExport u hu) hWF (adv_rfl s)))
    by_cases h2 : (ensureToken (spaceP (tryKeywordP kwExport s).1)).err = true
    · rw [if_pos h2]
      exact specOut_err hpre
    · rw [if_neg h2]
      by_cases h3 : (ensureToken (spaceP (tryKeywordP kwExport s).1)).tok.kind = TokKind.ident
      · rw [if_pos h3]
        have hmid : Adv s (tryKeywordP kwAs (spaceP (parseChildP parseExportNameF
            (ensureToken (spaceP (tryKeywordP kwExport s).1))).2.2)).1 :=
          adv_step (fun u => (tryKeywordP kwAs u).1)
            (fun u hu => tryKeywordP_adv kwAs u hu) hWF
            (adv_step spaceP spaceP_adv hWF
              (adv_step (fun u => (parseChildP parseExportNameF u).2.2)
                (fun u hu => parseChildP_adv _ parseExportNameF_spec u hu) hWF hpre))
        by_cases h4 : (tryKeywordP kwAs (spaceP (parseChildP parseExportNameF
            (ensureToken (spaceP (tryKeywordP kwExport s).1))).2.2)).2 = true
        · rw [if_neg (not_not_intro h4)]
          refine finishP_spec_of _ _ _ ?_ hc hk
          exact adv_step identP identP_adv hWF (adv_step spaceP spaceP_adv hWF hmid)
        · rw [if_pos h4]
          exact specOut_err hmid
      · rw [if_neg h3]
        refine finishP_spec_of _ _ _ ?_ hc hk
        exact adv_step (runLoop exportNamesBody)
          (fun u hu => runLoop_adv _ exportNamesBody_adv u hu) hWF
          (adv_step commentsP commentsP_adv hWF
            (adv_step (sigilP .openCurl) (fun u hu => sigilP_adv .openCurl rfl u hu) hWF hpre))
  · rw [if_pos h1]
    exact specOut_nomatch (tryKeywordP_adv kwExport s hWF) hc
      (tryKeywordP_fail kwExport s (by simpa using h1))

/-- Go `parseProtocolEvent`. -/
def parseProtocolEventF (s : PCtx) : Option Node × Bool × PCtx :=
  let r1 := tryKeywordP kwEvent s
  if ¬ r1.2 then (none, false, r1.1)
  else
    finishP .protocolEventC
      (parseChildP parseTypeNameF (spaceP (sigilP .colon
        (parseChildP parseProtocolTagF (spaceP (identP (spaceP r1.1)))).2.2))).2.2

theorem parseProtocolEventF_spec : FnSpec parseProtocolEventF := by
  intro s hWF he hc hk
  unfold parseProtocolEventF
  dsimp only
  by_cases h1 : (tryKeywordP kwEvent s).2 = true
  · rw [if_neg (not_not_intro h1)]
    refine finishP_spec_of _ _ _ ?_ hc hk
    exact adv_step (fun u => (parseChildP parseTypeNameF u).2.2)
      (fun u hu => parseChildP_adv _ parseTypeNameF_spec u hu) hWF
      (adv_step spaceP spaceP_adv hWF
        (adv_step (sigilP .colon) (fun u hu => sigilP_adv .colon rfl u hu) hWF
          (adv_step (fun u => (parseChildP parseProtocolTagF u).2.2)
            (fun u hu => parseChildP_adv _ parseProtocolTagF_spec u hu) hWF
            (adv_step spaceP spaceP_adv hWF
              (adv_step identP identP_adv hWF
                (adv_step spaceP spaceP_adv hWF
                  (adv_step (fun u => (tryKeywordP kwEvent u).1)
                    (fun u hu => tryKeywordP_adv kwEvent u hu) hWF (adv_rfl s))))))))
  · rw [if_pos h1]
    exact specOut_nomatch (tryKeywordP_adv kwEvent s hWF) hc
      (tryKeywordP_fail kwEvent s (by simpa using h1))

/-- Go `parseProtocolRpc`. -/
def parseProtocolRpcF (s : PCtx) : Option Node × Bool × PCtx :=
  let r1 := tryKeywordP kwRpc s
  if ¬ r1.2 then (none, false, r1.1)
  else
    let s2 := sigilP .openParen
      (parseChildP parseProtocolTagF (spaceP (identP (spaceP r1.1)))).2.2
    let s3 := spaceP (parseChildP parseTypeNameF (spaceP s2)).2.2
    let r4 := tryKeywordP kwStream s3
    let s5 := if r4.2 then spaceP r4.1 else r4.1
    let s6 := spaceP (sigilP .colon (spaceP (sigilP .closeParen s5)))
    let r7 := trySigilP .openParen s6
    if r7.2 then
      let s8 := ensureToken (spaceP r7.1)
      if s8.err then (none, true, s8)
      else
        let s9 :=
          if s8.tok.kind = .ident then
            let s9a := spaceP (parseChildP parseTypeNameF s8).2.2
            let r9b := tryKeywordP kwStream s9a
            if r9b.2 then spaceP r9b.1 else r9b.1
          else s8
        finishP .protocolRpcC (sigilP .closeParen s9)
    else finishP .protocolRpcC (parseChildP parseTypeNameF r7.1).2.2

set_option maxHeartbeats 1000000 in
theorem parseProtocolRpcF_spec : FnSpec parseProtocolRpcF := by
  intro s hWF he hc hk
  unfold parseProtocolRpcF
  dsimp only
  by_cases h1 : (tryKeywordP kwRpc s).2 = true
  · rw [if_neg (not_not_intro h1)]
    set s2 : PCtx := sigilP .openParen
      (parseChildP parseProtocolTagF (spaceP (identP (spaceP (tryKeywordP kwRpc s).1)))).2.2
      with hs2def
    have ha2 : Adv s s2 := by
      rw [hs2def]
      exact adv_step (sigilP .openParen) (fun u hu => sigilP_adv .openParen rfl u hu) hWF
        (adv_step (fun u => (parseChildP parseProtocolTagF u).2.2)
          (fun u hu => parseChildP_adv _ parseProtocolTagF_spec u hu) hWF
          (adv_step spaceP spaceP_adv hWF
            (adv_step identP identP_adv hWF
              (adv_step spaceP spaceP_adv hWF
                (adv_step (fun u => (tryKeywordP kwRpc u).1)
                  (fun u hu => tryKeywordP_adv kwRpc u hu) hWF (adv_rfl s))))))
    set r4 : PCtx × Bool :=
      tryKeywordP kwStream (spaceP (parseChildP parseTypeNameF (spaceP s2)).2.2) with hr4def
    have ha4 : Adv s r4.1 := by
      rw [hr4def]
      exact adv_step (fun u => (tryKeywordP kwStream u).1)
        (fun u hu => tryKeywordP_adv kwStream u hu) hWF
        (adv_step spaceP spaceP_adv hWF
          (adv_step (fun u => (parseChildP parseTypeNameF u).2.2)
            (fun u hu => parseChildP_adv _ parseTypeNameF_spec u hu) hWF
            (adv_step spaceP spaceP_adv hWF ha2)))
    set s5 : PCtx := (if r4.2 then spaceP r4.1 else r4.1) with hs5def
    have ha5 : Adv s s5 := by
      rw [hs5def]
      split_ifs
      · exact adv_step spaceP spaceP_adv hWF ha4
      · exact ha4
    set r7 : PCtx × Bool :=
      trySigilP .openParen (spaceP (sigilP .colon (spaceP (sigilP .closeParen s5))))
      with hr7def
    have ha7 : Adv s r7.1 := by
      rw [hr7def]
      exact adv_step (fun u => (trySigilP .openParen u).1)
        (fun u hu => trySigilP_adv .openParen rfl u hu) hWF
        (adv_step spaceP spaceP_adv hWF
          (adv_step (sigilP .colon) (fun u hu => sigilP_adv .colon rfl u hu) hWF
            (adv_step spaceP spaceP_adv hWF
              (adv_step (sigilP .closeParen)
                (fun u hu => sigilP_adv .closeParen rfl u hu) hWF ha5))))
    by_cases h7 : r7.2 = true
    · rw [if_pos h7]
      have ha8 : Adv s (ensureToken (spaceP r7.1)) :=
        adv_step ensureToken (fun u _ => ensureToken_adv u) hWF
          (adv_step spaceP spaceP_adv hWF ha7)
      by_cases h8 : (ensureToken (spaceP r7.1)).err = true
      · rw [if_pos h8]
        exact specOut_err ha8
      · rw [if_neg h8]
        refine finishP_spec_of _ _ _ ?_ hc hk
        refine adv_step (sigilP .closeParen)
          (fun u hu => sigilP_adv .closeParen rfl u hu) hWF ?_
        by_cases h9 : (ensureToken (spaceP r7.1)).tok.kind = TokKind.ident
        · rw [if_pos h9]
          have ha9 : Adv s (tryKeywordP kwStream (spaceP (parseChildP parseTypeNameF
              (ensureToken (spaceP r7.1))).2.2)).1 :=
            adv_step (fun u => (tryKeywordP kwStream u).1)
              (fun u hu => tryKeywordP_adv kwStream u hu) hWF
              (adv_step spaceP spaceP_adv hWF
                (adv_step (fun u => (parseChildP parseTypeNameF u).2.2)
                  (fun u hu => parseChildP_adv _ parseTypeNameF_spec u hu) hWF ha8))
          by_cases h9b : (tryKeywordP kwStream (spaceP (parseChildP parseTypeNameF
              (ensureToken (spaceP r7.1))).2.2)).2 = true
          · rw [if_pos h9b]
            exact adv_step spaceP spaceP_adv hWF ha9
          · rw [if_neg h9b]
            exact ha9
        · rw [if_neg h9]
          exact ha8
    · rw [if_neg h7]
      refine finishP_spec_of _ _ _ ?_ hc hk
      exact adv_step (fun u => (parseChildP parseTypeNameF u).2.2)
        (fun u hu => parseChildP_adv _ parseTypeNameF_spec u hu) hWF ha7
  · rw [if_pos h1]
    exact specOut_nomatch (tryKeywordP_adv kwRpc s hWF) hc
      (tryKeywordP_fail kwRpc s (by simpa using h1))

/-- Loop body of `parseProtocol`. -/
def protocolLoopBody (s : PCtx) : PCtx × Bool :=
  let r := trySigilP .closeCurl s
  if r.2 then (r.1, false)
  else
    let ra := parseChildP parseProtocolRpcF (parseDecoratorsV r.1)
    let rb := if ¬ ra.2.1 ∧ ra.2.2.err = false then parseChildP parseProtocolEventF ra.2.2
      else ra
    if rb.2.2.err then (rb.2.2, true)
    else if ¬ rb.2.1 then ({ rb.2.2 with err := true }, true)
    else (commentsP rb.2.2, true)

theorem protocolLoopBody_adv (s : PCtx) (hw : WF s) : Adv s (protocolLoopBody s).1 := by
  unfold protocolLoopBody
  dsimp only
  by_cases h : (trySigilP .closeCurl s).2 = true
  · rw [if_pos h]
    exact trySigilP_adv .closeCurl rfl s hw
  · rw [if_neg h]
    have hra : Adv s (parseChildP parseProtocolRpcF
        (parseDecoratorsV (trySigilP .closeCurl s).1)).2.2 :=
      adv_step (fun u => (parseChildP parseProtocolRpcF u).2.2)
        (fun u hu => parseChildP_adv _ parseProtocolRpcF_spec u hu) hw
        (adv_step parseDecoratorsV parseDecoratorsV_adv hw
          (adv_step (fun u => (trySigilP .closeCurl u).1)
            (fun u hu => trySigilP_adv .closeCurl rfl u hu) hw (adv_rfl s)))
    have hrb := adv_try_chain _ parseProtocolEventF parseProtocolEventF_spec hw hra
    set rb : Option Node × Bool × PCtx :=
      (if ¬ (parseChildP parseProtocolRpcF (parseDecoratorsV (trySigilP .closeCurl s).1)).2.1 ∧
          (parseChildP parseProtocolRpcF (parseDecoratorsV (trySigilP .closeCurl s).1)).2.2.err
            = false
        then parseChildP parseProtocolEventF
          (parseChildP parseProtocolRpcF (parseDecoratorsV (trySigilP .closeCurl s).1)).2.2
        else parseChildP parseProtocolRpcF (parseDecoratorsV (trySigilP .closeCurl s).1))
      with hrbdef
    split_ifs with h2 h3
    · exact hrb
    · exact adv_step commentsP commentsP_adv hw hrb
    · exact adv_trans hrb (adv_err _)

/-- Go `parseProtocol`. -/
def parseProtocolF (s : PCtx) : Option Node × Bool × PCtx :=
  let r1 := tryKeywordP kwProtocol s
  if ¬ r1.2 then (none, false, r1.1)
  else
    finishP .protocolC (runLoop protocolLoopBody
      (commentsP (sigilP .openCurl (spaceP (identP (spaceP r1.1))))))

theorem parseProtocolF_spec : FnSpec parseProtocolF := by
  intro s hWF he hc hk
  unfold parseProtocolF
  dsimp only
  by_cases h1 : (tryKeywordP kwProtocol s).2 = true
  · rw [if_neg (not_not_intro h1)]
    refine finishP_spec_of _ _ _ ?_ hc hk
    exact adv_step (runLoop protocolLoopBody)
      (fun u hu => runLoop_adv _ protocolLoopBody_adv u hu) hWF
      (adv_step commentsP commentsP_adv hWF
        (adv_step (sigilP .openCurl) (fun u hu => sigilP_adv .openCurl rfl u hu) hWF
          (adv_step spaceP spaceP_adv hWF
            (adv_step identP identP_adv hWF
              (adv_step spaceP spaceP_adv hWF
                (adv_step (fun u => (tryKeywordP kwProtocol u).1)
                  (fun u hu => tryKeywordP_adv kwProtocol u hu) hWF (adv_rfl s)))))))
  · rw [if_pos h1]
    exact specOut_nomatch (tryKeywordP_adv kwProtocol s hWF) hc
      (tryKeywordP_fail kwProtocol s (by simpa using h1))

/-- Body of the import/export/options section loops of `parseSchema`. -/
def schemaSectionBody (f : PCtx → Option Node × Bool × PCtx) (s : PCtx) : PCtx × Bool :=
  ((parseChildP f (commentsP s)).2.2, true)

theorem schemaSectionBody_adv (f : PCtx → Option Node × Bool × PCtx) (hf : FnSpec f)
    (s : PCtx) (hw : WF s) : Adv s (schemaSectionBody f s).1 := by
  unfold schemaSectionBody
  exact adv_step (fun u => (parseChildP f u).2.2) (fun u hu => parseChildP_adv f hf u hu) hw
    (adv_step commentsP commentsP_adv hw (adv_rfl s))

/-- Body of the declaration loop of `parseSchema`. -/
def declBody (s : PCtx) : PCtx × Bool :=
  let sa := commentsP s
  if sa.tok.kind = .eof then (sa, false)
  else
    let r1 := parseChildP parseConstF (parseDecoratorsV sa)
    let r2 := if ¬ r1.2.1 ∧ r1.2.2.err = false then parseChildP parseEnumF r1.2.2 else r1
    let r3 := if ¬ r2.2.1 ∧ r2.2.2.err = false then parseChildP parseStructF r2.2.2 else r2
    let r4 := if ¬ r3.2.1 ∧ r3.2.2.err = false then parseChildP parseMessageF r3.2.2 else r3
    let r5 := if ¬ r4.2.1 ∧ r4.2.2.err = false then parseChildP parseUnionF r4.2.2 else r4
    let r6 := if ¬ r5.2.1 ∧ r5.2.2.err = false then parseChildP parseProtocolF r5.2.2 else r5
    if r6.2.2.err then (r6.2.2, true)
    else if ¬ r6.2.1 then ({ r6.2.2 with err := true }, true)
    else (r6.2.2, true)

set_option maxHeartbeats 2000000 in
theorem declBody_adv (s : PCtx) (hw : WF s) : Adv s (declBody s).1 := by
  unfold declBody
  dsimp only
  by_cases h0 : (commentsP s).tok.kind = TokKind.eof
  · rw [if_pos h0]
    exact commentsP_adv s hw
  · rw [if_neg h0]
    set r1 : Option Node × Bool × PCtx :=
      parseChildP parseConstF (parseDecoratorsV (commentsP s)) with hr1
    have h1 : Adv s r1.2.2 := by
      rw [hr1]
      exact adv_step (fun u => (parseChildP parseConstF u).2.2)
        (fun u hu => parseChildP_adv _ parseConstF_spec u hu) hw
        (adv_step parseDecoratorsV parseDecoratorsV_adv hw
          (adv_step commentsP commentsP_adv hw (adv_rfl s)))
    set r2 : Option Node × Bool × PCtx :=
      (if ¬ r1.2.1 ∧ r1.2.2.err = false then parseChildP parseEnumF r1.2.2 else r1) with hr2
    have h2 : Adv s r2.2.2 := by
      rw [hr2]
      exact adv_try_chain r1 parseEnumF parseEnumF_spec hw h1
    set r3 : Option Node × Bool × PCtx :=
      (if ¬ r2.2.1 ∧ r2.2.2.err = false then parseChildP parseStructF r2.2.2 else r2) with hr3
    have h3 : Adv s r3.2.2 := by
      rw [hr3]
      exact adv_try_chain r2 parseStructF parseStructF_spec hw h2
    set r4 : Option Node × Bool × PCtx :=
      (if ¬ r3.2.1 ∧ r3.2.2.err = false then parseChildP parseMessageF r3.2.2 else r3) with hr4
    have h4 : Adv s r4.2.2 := by
      rw [hr4]
      exact adv_try_chain r3 parseMessageF parseMessageF_spec hw h3
    set r5 : Option Node × Bool × PCtx :=
      (if ¬ r4.2.1 ∧ r4.2.2.err = false then parseChildP parseUnionF r4.2.2 else r4) with hr5
    have h5 : Adv s r5.2.2 := by
      rw [hr5]
      exact adv_try_chain r4 parseUnionF parseUnionF_spec hw h4
    set r6 : Option Node × Bool × PCtx :=
      (if ¬ r5.2.1 ∧ r5.2.2.err = false then parseChildP parseProtocolF r5.2.2 else r5) with hr6
    have h6 : Adv s r6.2.2 := by
      rw [hr6]
      exact adv_try_chain r5 parseProtocolF parseProtocolF_spec hw h5
    split_ifs with ha hb
    · exact h6
    · exact h6
    · exact adv_trans h6 (adv_err _)

/-- The statement body of `parseSchema`. -/
def schemaBodyV (s : PCtx) : PCtx :=
  runLoop declBody
    (runLoop (schemaSectionBody parseOptionsF)
      (runLoop (schemaSectionBody parseExportF)
        (runLoop (schemaSectionBody parseImportF)
          (parseChildP parseNamespaceF (commentsP s)).2.2)))

/-- Go `parseSchema`. -/
def parseSchemaF (s : PCtx) : Option Node × Bool × PCtx :=
  finishP .schemaC (schemaBodyV s)

theorem schemaBodyV_adv (s : PCtx) (hw : WF s) : Adv s (schemaBodyV s) := by
  unfold schemaBodyV
  exact adv_step (runLoop declBody) (fun u hu => runLoop_adv _ declBody_adv u hu) hw
    (adv_step (runLoop (schemaSectionBody parseOptionsF))
      (fun u hu => runLoop_adv _ (schemaSectionBody_adv _ parseOptionsF_spec) u hu) hw
      (adv_step (runLoop (schemaSectionBody parseExportF))
        (fun u hu => runLoop_adv _ (schemaSectionBody_adv _ parseExportF_spec) u hu) hw
        (adv_step (runLoop (schemaSectionBody parseImportF))
          (fun u hu => runLoop_adv _ (schemaSectionBody_adv _ parseImportF_spec) u hu) hw
          (adv_step (fun u => (parseChildP parseNamespaceF u).2.2)
            (fun u hu => parseChildP_adv _ parseNamespaceF_spec u hu) hw
            (adv_step commentsP commentsP_adv hw (adv_rfl s))))))

theorem parseSchemaF_spec : FnSpec parseSchemaF := fun s hw _ hc hk =>
  finishP_spec_of _ _ _ (schemaBodyV_adv s hw) hc hk

/-- The fresh parse context of `newParseCtx` (`NewTokens` succeeded). -/
def initCtx (src : List Nat) : PCtx := ⟨src, false, ⟨.eof, 0⟩, [], false, 0, 0⟩

/-- Go `ParseOptions.ParseSchema`: `none` on a parse error.  The `NewTokens`
prechecks reject over-long (`maxSrcLen`) sources; the UTF-8 validity
precheck only rejects further sources outright (producing no CST), so it
is not modelled and the accepted set here is a superset of Go's. -/
def parseSchemaTop (src : List Nat) : Option Node :=
  if src.length > 0x7FFFFFFF then none
  else
    let r := parseSchemaF (initCtx src)
    if r.2.1 then none else r.1

/-- Non-`eof` token length lemmas. -/
theorem numLitAfterSign_pos (n : List Nat) (p : Nat) (g : Bool) (t : Tok)
    (h : numLitAfterSign n p g = some t) : 1 ≤ t.len := by
  unfold numLitAfterSign at h
  split at h
  · split_ifs at h
    all_goals cases h
    simp
  · dsimp only at h
    split_ifs at h
    all_goals cases h
    all_goals (
      simp only [Bool.and_eq_true, Bool.or_eq_true, decide_eq_true_eq, not_or,
        Bool.not_eq_true] at *;
      omega)

theorem numLitTok_pos (s : List Nat) (t : Tok) (h : numLitTok s = some t) : 1 ≤ t.len := by
  unfold numLitTok at h
  split at h
  · cases h
  · exact numLitAfterSign_pos _ _ _ _ h
  · exact numLitAfterSign_pos _ _ _ _ h

theorem identTok_pos (s : List Nat) (t : Tok) (h : identTok s = some t) : 1 ≤ t.len := by
  unfold identTok at h
  dsimp only at h
  split_ifs at h
  cases h
  simp

/-- Every non-`eof` token has at least one byte. -/
theorem nextTok_pos_len (src : List Nat) (t : Tok) (h : nextTok src = some t)
    (hk : t.kind ≠ .eof) : 1 ≤ t.len := by
  have hsp : ∀ a b r, spaceTok (a :: b :: r) = some t → (a = 9 ∨ a = 32 ∨ (a = 194 ∧ b = 160)) →
      1 ≤ t.len := by
    intro a b r hu ha
    unfold spaceTok at hu
    split_ifs at hu
    cases hu
    rcases ha with rfl | rfl | ⟨rfl, rfl⟩ <;> simp [spaceLen]
  have hsp1 : ∀ a, spaceTok [a] = some t → (a = 9 ∨ a = 32) → 1 ≤ t.len := by
    intro a hu ha
    unfold spaceTok at hu
    split_ifs at hu
    cases hu
    rcases ha with rfl | rfl <;> simp [spaceLen]
  have hco : ∀ r, commentTok (35 :: r) = some t → 1 ≤ t.len := by
    intro r hu
    unfold commentTok at hu
    split_ifs at hu
    cases hu
    simp [commentLen]
  unfold nextTok at h
  split at h
  · cases h; simp at hk
  · rename_i tl
    match tl with
    | [] => exact hsp1 _ h (Or.inl rfl)
    | b :: r => exact hsp _ b r h (Or.inl rfl)
  · rename_i tl
    match tl with
    | [] => exact hsp1 _ h (Or.inr rfl)
    | b :: r => exact hsp _ b r h (Or.inr (Or.inl rfl))
  · cases h; simp
  · cases h; simp
  · cases h; simp
  · cases h; simp
  · cases h; simp
  · cases h; simp
  · cases h; simp
  · cases h; simp
  · cases h; simp
  · cases h; simp
  · cases h; simp
  · exact hco _ h
  · unfold textTok at h
    rename_i tl
    cases htl : textLitLen ((34 :: tl)).tail false with
    | none => rw [htl] at h; cases h
    | some l =>
        rw [htl] at h
        dsimp only at h
        split_ifs at h
        cases h
        simp
  · cases h; simp
  · cases h
  · exact hsp _ 160 _ h (Or.inr (Or.inr ⟨rfl, rfl⟩))
  · split_ifs at h
    · exact numLitTok_pos _ _ h
    · exact identTok_pos _ _ h

/-- The `eof` token only arises on an empty remaining source. -/
theorem nextTok_eof (src : List Nat) (t : Tok) (h : nextTok src = some t)
    (hk : t.kind = .eof) : src = [] := by
  unfold nextTok at h
  split at h
  · rfl
  · rw [spaceTok_kind _ _ h] at hk; cases hk
  · rw [spaceTok_kind _ _ h] at hk; cases hk
  · cases h; cases hk
  · cases h; cases hk
  · cases h; cases hk
  · cases h; cases hk
  · cases h; cases hk
  · cases h; cases hk
  · cases h; cases hk
  · cases h; cases hk
  · cases h; cases hk
  · cases h; cases hk
  · cases h; cases hk
  · rw [commentTok_kind _ _ h] at hk; cases hk
  · rw [textTok_kind _ _ h] at hk; cases hk
  · cases h; cases hk
  · cases h
  · rw [spaceTok_kind _ _ h] at hk; cases hk
  · split_ifs at h
    · have hk2 := h
      unfold numLitTok at hk2
      split at hk2
      · cases hk2
      · have := numLitAfterSign_kind_num _ _ _ _ hk2
        rw [hk] at this
        cases this
      · have := numLitAfterSign_kind_num _ _ _ _ hk2
        rw [hk] at this
        cases this
    · rw [identTok_kind _ _ h] at hk; cases hk

/-- Loop-exit analysis: if every continuing iteration makes progress, an
error-free loop result satisfies any property of error-free break states. -/
theorem loopF_exit (body : PCtx → PCtx × Bool) (P : PCtx → Prop)
    (hadv : ∀ s, WF s → Adv s (body s).1)
    (hP : ∀ s, WF s → (body s).2 = false → (body s).1.err = false → P (body s).1)
    (hprog : ∀ s, WF s → (body s).2 = true → (body s).1.err = false →
      s.consumed ≠ (body s).1.consumed) :
    ∀ fuel s, WF s → (loopF body fuel s).err = false → P (loopF body fuel s) := by
  intro fuel
  induction fuel with
  | zero =>
      intro s hw he
      simp [loopF] at he
  | succ fuel ih =>
      intro s hw he
      unfold loopF at he ⊢
      dsimp only at he ⊢
      by_cases hc : (body s).2 = true
      · rw [if_neg (not_not_intro hc)] at he ⊢
        by_cases herr : (body s).1.err = true
        · rw [if_pos herr] at he
          rw [show (body s).1.err = true from herr] at he
          cases he
        · rw [if_neg herr] at he ⊢
          by_cases hpr : (body s).1.consumed = s.consumed
          · exact absurd hpr.symm (hprog s hw hc (by simpa using herr))
          · rw [if_neg hpr] at he ⊢
            exact ih (body s).1 ((hadv s hw).wf hw) he
      · rw [if_pos (by simpa using hc)] at he ⊢
        exact hP s hw (by simpa using hc) he

theorem runLoop_exit (body : PCtx → PCtx × Bool) (P : PCtx → Prop)
    (hadv : ∀ s, WF s → Adv s (body s).1)
    (hP : ∀ s, WF s → (body s).2 = false → (body s).1.err = false → P (body s).1)
    (hprog : ∀ s, WF s → (body s).2 = true → (body s).1.err = false →
      s.consumed ≠ (body s).1.consumed)
    (s : PCtx) (hw : WF s) (he : (runLoop body s).err = false) : P (runLoop body s) := by
  unfold runLoop at he ⊢
  by_cases hse : s.err = true
  · rw [if_pos hse] at he
    rw [show s.err = true from hse] at he
    cases he
  · rw [if_neg hse] at he ⊢
    exact loopF_exit body P hadv hP hprog _ s hw he

/-- The comments loop always makes progress (trivia tokens are nonempty)
and, error-free, stops holding a fresh non-trivia token. -/
theorem commentsBody_exit (s : PCtx) (hw : WF s) (hf : (commentsBody s).2 = false)
    (he : (commentsBody s).1.err = false) : (commentsBody s).1.haveToken = true := by
  unfold commentsBody at *
  dsimp only at *
  by_cases h1 : (ensureToken s).err = true
  · rw [if_pos h1] at he
    rw [show (ensureToken s).err = true from h1] at he
    cases he
  · rw [if_neg h1] at hf he ⊢
    split at hf <;> first
      | exact ensureToken_ht s (by simpa using h1)
      | cases hf

theorem commentsBody_prog (s : PCtx) (hw : WF s) (ht : (commentsBody s).2 = true)
    (he : (commentsBody s).1.err = false) : s.consumed ≠ (commentsBody s).1.consumed := by
  unfold commentsBody at *
  dsimp only at *
  by_cases h1 : (ensureToken s).err = true
  · rw [if_pos h1] at ht
    cases ht
  · rw [if_neg h1] at ht he ⊢
    have hw1 : WF (ensureToken s) := ensureToken_wf s hw
    have hht : (ensureToken s).haveToken = true := ensureToken_ht s (by simpa using h1)
    have htk : nextTok (ensureToken s).src = some (ensureToken s).tok := hw1 hht
    split at ht <;> try cases ht
    all_goals (
      rename_i hkind;
      have hpos : 1 ≤ (ensureToken s).tok.len :=
        nextTok_pos_len _ _ htk (by rw [hkind]; simp);
      simp [consumeSpace, consumeToken, ensureToken_consumed];
      omega)

theorem commentsP_ht (s : PCtx) (hw : WF s) (he : (commentsP s).err = false) :
    (commentsP s).haveToken = true :=
  runLoop_exit commentsBody (fun u => u.haveToken = true) commentsBody_adv
    commentsBody_exit commentsBody_prog s hw he

/-- A successful `parseChild` strictly consumes. -/
theorem parseChildP_ok (f : PCtx → Option Node × Bool × PCtx) (s : PCtx)
    (h : (parseChildP f s).2.1 = true) : s.consumed < (parseChildP f s).2.2.consumed := by
  unfold parseChildP at *
  by_cases hse : s.err = true
  · rw [if_pos hse] at h
    cases h
  · rw [if_neg hse] at h ⊢
    dsimp only at h ⊢
    by_cases he : (f ⟨s.src, s.haveToken, s.tok, [], false, 0, s.offset⟩).2.1 = true
    · rw [if_pos he] at h
      cases h
    · rw [if_neg he] at h ⊢
      by_cases hz : (f ⟨s.src, s.haveToken, s.tok, [], false, 0, s.offset⟩).2.2.consumed = 0
      · rw [if_pos hz] at h
        cases h
      · rw [if_neg hz] at h ⊢
        simp
        omega

set_option maxHeartbeats 2000000 in
/-- The declaration loop of `parseSchema` breaks only at an `eof` token. -/
theorem declBody_exit (s : PCtx) (hw : WF s) (hf : (declBody s).2 = false)
    (he : (declBody s).1.err = false) :
    (declBody s).1.haveToken = true ∧ (declBody s).1.tok.kind = .eof := by
  unfold declBody at *
  dsimp only at *
  by_cases h0 : (commentsP s).tok.kind = TokKind.eof
  · rw [if_pos h0] at he ⊢
    exact ⟨commentsP_ht s hw he, h0⟩
  · rw [if_neg h0] at hf
    set r1 : Option Node × Bool × PCtx :=
      parseChildP parseConstF (parseDecoratorsV (commentsP s)) with hr1
    set r2 : Option Node × Bool × PCtx :=
      (if ¬ r1.2.1 ∧ r1.2.2.err = false then parseChildP parseEnumF r1.2.2 else r1) with hr2
    set r3 : Option Node × Bool × PCtx :=
      (if ¬ r2.2.1 ∧ r2.2.2.err = false then parseChildP parseStructF r2.2.2 else r2) with hr3
    set r4 : Option Node × Bool × PCtx :=
      (if ¬ r3.2.1 ∧ r3.2.2.err = false then parseChildP parseMessageF r3.2.2 else r3) with hr4
    set r5 : Option Node × Bool × PCtx :=
      (if ¬ r4.2.1 ∧ r4.2.2.err = false then parseChildP parseUnionF r4.2.2 else r4) with hr5
    set r6 : Option Node × Bool × PCtx :=
      (if ¬ r5.2.1 ∧ r5.2.2.err = false then parseChildP parseProtocolF r5.2.2 else r5) with hr6
    split_ifs at hf <;> cases hf

set_option maxHeartbeats 2000000 in
/-- Every continuing declaration-loop iteration strictly consumes. -/
theorem declBody_prog (s : PCtx) (hw : WF s) (ht : (declBody s).2 = true)
    (he : (declBody s).1.err = false) : s.consumed ≠ (declBody s).1.consumed := by
  unfold declBody at *
  dsimp only at *
  by_cases h0 : (commentsP s).tok.kind = TokKind.eof
  · rw [if_pos h0] at ht
    cases ht
  · rw [if_neg h0] at ht he ⊢
    have hsb : Adv s (parseDecoratorsV (commentsP s)) :=
      adv_step parseDecoratorsV parseDecoratorsV_adv hw
        (adv_step commentsP commentsP_adv hw (adv_rfl s))
    set r1 : Option Node × Bool × PCtx :=
      parseChildP parseConstF (parseDecoratorsV (commentsP s)) with hr1
    have h1 : Adv s r1.2.2 := by
      rw [hr1]
      exact adv_step (fun u => (parseChildP parseConstF u).2.2)
        (fun u hu => parseChildP_adv _ parseConstF_spec u hu) hw hsb
    have p1 : r1.2.1 = true → s.consumed < r1.2.2.consumed := by
      intro hok
      rw [hr1] at hok ⊢
      have := parseChildP_ok parseConstF _ hok
      have := hsb.mono
      omega
    set r2 : Option Node × Bool × PCtx :=
      (if ¬ r1.2.1 ∧ r1.2.2.err = false then parseChildP parseEnumF r1.2.2 else r1) with hr2
    have h2 : Adv s r2.2.2 := by
      rw [hr2]
      exact adv_try_chain r1 parseEnumF parseEnumF_spec hw h1
    have p2 : r2.2.1 = true → s.consumed < r2.2.2.consumed := by
      intro hok
      rw [hr2] at hok ⊢
      split_ifs at hok ⊢ with hcond
      · have := parseChildP_ok parseEnumF _ hok
        have := h1.mono
        omega
      · exact p1 hok
    set r3 : Option Node × Bool × PCtx :=
      (if ¬ r2.2.1 ∧ r2.2.2.err = false then parseChildP parseStructF r2.2.2 else r2) with hr3
    have h3 : Adv s r3.2.2 := by
      rw [hr3]
      exact adv_try_chain r2 parseStructF parseStructF_spec hw h2
    have p3 : r3.2.1 = true → s.consumed < r3.2.2.consumed := by
      intro hok
      rw [hr3] at hok ⊢
      split_ifs at hok ⊢ with hcond
      · have := parseChildP_ok parseStructF _ hok
        have := h2.mono
        omega
      · exact p2 hok
    set r4 : Option Node × Bool × PCtx :=
      (if ¬ r3.2.1 ∧ r3.2.2.err = false then parseChildP parseMessageF r3.2.2 else r3) with hr4
    have h4 : Adv s r4.2.2 := by
      rw [hr4]
      exact adv_try_chain r3 parseMessageF parseMessageF_spec hw h3
    have p4 : r4.2.1 = true → s.consumed < r4.2.2.consumed := by
      intro hok
      rw [hr4] at hok ⊢
      split_ifs at hok ⊢ with hcond
      · have := parseChildP_ok parseMessageF _ hok
        have := h3.mono
        omega
      · exact p3 hok
    set r5 : Option Node × Bool × PCtx :=
      (if ¬ r4.2.1 ∧ r4.2.2.err = false then parseChildP parseUnionF r4.2.2 else r4) with hr5
    have h5 : Adv s r5.2.2 := by
      rw [hr5]
      exact adv_try_chain r4 parseUnionF parseUnionF_spec hw h4
    have p5 : r5.2.1 = true → s.consumed < r5.2.2.consumed := by
      intro hok
      rw [hr5] at hok ⊢
      split_ifs at hok ⊢ with hcond
      · have := parseChildP_ok parseUnionF _ hok
        have := h4.mono
        omega
      · exact p4 hok
    set r6 : Option Node × Bool × PCtx :=
      (if ¬ r5.2.1 ∧ r5.2.2.err = false then parseChildP parseProtocolF r5.2.2 else r5) with hr6
    have p6 : r6.2.1 = true → s.consumed < r6.2.2.consumed := by
      intro hok
      rw [hr6] at hok ⊢
      split_ifs at hok ⊢ with hcond
      · have := parseChildP_ok parseProtocolF _ hok
        have := h5.mono
        omega
      · exact p5 hok
    split_ifs at he ⊢ with ha hb
    all_goals first
      | (dsimp only at he; rw [ha] at he; cases he)
      | (have hp := p6 (by simpa using hb); dsimp only; omega)
      | (dsimp only at he; cases he)

set_option maxHeartbeats 2000000 in
/-- Claim C5: for every source text that the parser (`ParseSchema`)
accepts, re-unparsing the resulting CST reproduces the original source
bytes verbatim, and the leaf spans (trivia included) tile the whole
input consecutively from offset 0 -- every input byte is covered by
exactly one leaf node. -/
theorem c5_parse_roundtrip (src : List Nat) (root : Node)
    (h : parseSchemaTop src = some root) :
    unparseN root = src ∧ tilesEnd 0 (leafSpansN root) = some src.length := by
  unfold parseSchemaTop at h
  dsimp only at h
  by_cases hlen : src.length > 0x7FFFFFFF
  · rw [if_pos hlen] at h
    cases h
  · rw [if_neg hlen] at h
    by_cases hok : (parseSchemaF (initCtx src)).2.1 = true
    · rw [if_pos hok] at h
      cases h
    · rw [if_neg hok] at h
      have hWF0 : WF (initCtx src) := by
        intro hh
        simp [initCtx] at hh
      unfold parseSchemaF finishP schemaBodyV at h hok
      set s4 : PCtx := runLoop (schemaSectionBody parseOptionsF)
        (runLoop (schemaSectionBody parseExportF)
          (runLoop (schemaSectionBody parseImportF)
            (parseChildP parseNamespaceF (commentsP (initCtx src))).2.2)) with hs4
      set sN : PCtx := runLoop declBody s4 with hsN
      have hadv4 : Adv (initCtx src) s4 := by
        rw [hs4]
        exact adv_step (runLoop (schemaSectionBody parseOptionsF))
          (fun u hu => runLoop_adv _ (schemaSectionBody_adv _ parseOptionsF_spec) u hu) hWF0
          (adv_step (runLoop (schemaSectionBody parseExportF))
            (fun u hu => runLoop_adv _ (schemaSectionBody_adv _ parseExportF_spec) u hu) hWF0
            (adv_step (runLoop (schemaSectionBody parseImportF))
              (fun u hu => runLoop_adv _ (schemaSectionBody_adv _ parseImportF_spec) u hu) hWF0
              (adv_step (fun u => (parseChildP parseNamespaceF u).2.2)
                (fun u hu => parseChildP_adv _ parseNamespaceF_spec u hu) hWF0
                (adv_step commentsP commentsP_adv hWF0 (adv_rfl _)))))
      have hadvN : Adv (initCtx src) sN := by
        rw [hsN]
        exact adv_step (runLoop declBody) (fun u hu => runLoop_adv _ declBody_adv u hu)
          hWF0 hadv4
      by_cases herr : sN.err = true
      · rw [if_pos herr] at hok
        simp at hok
      · rw [if_neg herr] at h
        dsimp only at h
        injection h with h'
        subst h'
        have hexit : sN.haveToken = true ∧ sN.tok.kind = .eof := by
          rw [hsN]
          exact runLoop_exit declBody
            (fun u => u.haveToken = true ∧ u.tok.kind = TokKind.eof)
            declBody_adv declBody_exit declBody_prog s4
            (hadv4.wf hWF0) (by rw [← hsN]; simpa using herr)
        have hWN : WF sN := hadvN.wf hWF0
        have hsrcN : sN.src = [] := nextTok_eof _ _ (hWN hexit.1) hexit.2
        have hc : sN.consumed = src.length := by
          have h1 := hadvN.src_eq
          have h2 := hadvN.dle
          simp [initCtx] at h1 h2
          rw [hsrcN] at h1
          have h3 := congrArg List.length h1
          simp at h3
          omega
        obtain ⟨_, ks, hkids, hun, htl⟩ := hadvN.ok (by simpa using herr)
        simp [initCtx] at hkids hun htl
        constructor
        · rw [show unparseN (Node.compN .schemaC ⟨sN.offset - sN.consumed, sN.consumed⟩
            (NodeList.ofList sN.kids)) = unparseL (NodeList.ofList sN.kids) from rfl]
          rw [unparseL_ofList, hkids, hun, hc]
          simp
        · rw [show leafSpansN (Node.compN .schemaC ⟨sN.offset - sN.consumed, sN.consumed⟩
            (NodeList.ofList sN.kids)) = leafSpansL (NodeList.ofList sN.kids) from rfl]
          rw [leafSpansL_ofList, hkids, htl]
          have hoff := hadvN.off_eq
          simp [initCtx] at hoff
          rw [hoff, hc]

/-- Witness source: `namespace "x"\n# c`. -/
def srcW : List Nat :=
  [110, 97, 109, 101, 115, 112, 97, 99, 101, 32, 34, 120, 34, 10, 35, 32, 99]

def rootW : Node := (parseSchemaTop srcW).getD (.compN .schemaC ⟨0, 0⟩ .nil)

/-- Witness for C5 at the concrete source above. -/
theorem c5_parse_roundtrip_witness :
    parseSchemaTop srcW = some rootW ∧
    unparseN rootW = srcW ∧ tilesEnd 0 (leafSpansN rootW) = some srcW.length :=
  ⟨rfl, c5_parse_roundtrip srcW rootW rfl⟩

end IdolSyn
